import Mathlib

/-!
# Freescale DSPI driver (`drivers/spi/spi-fsl-dspi.c`): shallow embedding

The C functions of the driver are embedded as Lean functions of the same name,
first all definitions, then the theorems about them.

* C integers are mathematical integers together with explicit wrap-around
  conversions (`to_int`, `to_u8`, `to_u16`, `to_u32`, `to_ulong`); `unsigned long`
  and `size_t` are 64 bits wide (the S32 targets of this driver are 64-bit).
* Pointers are natural-number addresses, `0` being `NULL`; memory is a map from
  addresses to bytes, multi-byte accesses are little-endian.
* The controller state `fsl_dspi σ` carries the state `σ` of the hardware; the
  register accesses, the DMA engine and what ends a sleep are an environment
  (`dspi_env σ`) the driver functions are parametric in.
* A function with a loop that has no static bound takes a `fuel` argument and
  returns a pair: `some` return value, or `none` when the call does not return
  (the fuel ran out, or an operation without a defined result such as a division
  by zero was reached), and the state reached.
-/

namespace DSPI

/-! ## C integer conversions -/

/-- Conversion to a 32-bit `int` (two's complement wrap-around). -/
def to_int (x : Int) : Int := (x + 2 ^ 31) % 2 ^ 32 - 2 ^ 31

/-- Conversion to `u8`. -/
def to_u8 (x : Int) : Nat := (x % 2 ^ 8).toNat

/-- Conversion to `u16`. -/
def to_u16 (x : Int) : Nat := (x % 2 ^ 16).toNat

/-- Conversion to `u32` / `unsigned int`. -/
def to_u32 (x : Int) : Nat := (x % 2 ^ 32).toNat

/-- Conversion to `unsigned long` / `size_t` / `u64` (64 bits). -/
def to_ulong (x : Int) : Nat := (x % 2 ^ 64).toNat

/-- The constant `INT_MAX`. -/
def INT_MAX : Int := 2147483647

/-- The constant `NSEC_PER_SEC`. -/
def NSEC_PER_SEC : Nat := 1000000000

/-- Ceiling of `a / b`, the "required divisor" of the specification. -/
def ceil_div (a b : Nat) : Nat := (a + b - 1) / b

/-! ## Timing calculator: `hz_to_spi_baud` and `ns_delay_scale`

Both C functions run the same double loop

```
for (i ...) for (j ...) {
    scale = <table product>;
    if (scale >= scale_needed) {
        if (scale < minscale) { minscale = scale; <outer index> = i; <inner index> = j; }
        break;
    }
}
```

which is embedded once, `scale_search`, over the expression computing `scale`
and the two index ranges. -/

/-- Local variables of the search: `minscale` and the two indices stored through
the output pointers (`outer` is written from `i`, `inner` from `j`). -/
structure scale_acc where
  minscale : Int
  outer : Nat
  inner : Nat
  deriving DecidableEq, Repr

/-- The inner `for (j ...)` loop for one value of `i`, with its `break`. -/
def scale_search_row (scale : Nat → Nat → Int) (need : Int) (i : Nat) :
    List Nat → scale_acc → scale_acc
  | [], acc => acc
  | j :: js, acc =>
    if need ≤ scale i j then
      if scale i j < acc.minscale then ⟨scale i j, i, j⟩ else acc
    else scale_search_row scale need i js acc

/-- The outer `for (i ...)` loop. -/
def scale_search (scale : Nat → Nat → Int) (need : Int) (cols : List Nat) :
    List Nat → scale_acc → scale_acc
  | [], acc => acc
  | i :: is, acc =>
    scale_search scale need cols is (scale_search_row scale need i cols acc)

/-- The table `pbr_tbl[4]` of `hz_to_spi_baud`. -/
def pbr_tbl : List Int := [2, 3, 5, 7]

/-- The table `brs[16]` of `hz_to_spi_baud`. -/
def brs : List Int :=
  [2, 4, 6, 8, 16, 32, 64, 128, 256, 512, 1024, 2048, 4096, 8192, 16384, 32768]

/-- The table `pscale_tbl[4]` of `ns_delay_scale`. -/
def pscale_tbl : List Int := [1, 3, 5, 7]

/-- The expression `brs[i] * pbr_tbl[j]` (at most 229376, no `int` overflow). -/
def baud_scale (i j : Nat) : Int := brs.getD i 0 * pbr_tbl.getD j 0

/-- The expression `pscale_tbl[i] * (2 << j)` (at most 458752 for `j <= 15`). -/
def delay_scale (i j : Nat) : Int := pscale_tbl.getD i 0 * ((2 <<< j : Nat) : Int)

/-- Index range `0 .. 3` (`ARRAY_SIZE(pbr_tbl)`, `ARRAY_SIZE(pscale_tbl)`). -/
def idx4 : List Nat := [0, 1, 2, 3]

/-- Index range `0 .. 15` (`ARRAY_SIZE(brs)`, `j <= SPI_CTAR_SCALE_BITS`). -/
def idx16 : List Nat := [0, 1, 2, 3, 4, 5, 6, 7, 8, 9, 10, 11, 12, 13, 14, 15]

/-- The value of `scale_needed` in `hz_to_spi_baud`:
`scale_needed = clkrate / speed_hz; if (clkrate % speed_hz) scale_needed++;`
where `speed_hz` (an `int`) is converted to `unsigned long` for the division and
the quotient is converted back to `int`. `none` is a division by zero. -/
def baud_scale_needed (speed_hz : Int) (clkrate : Nat) : Option Int :=
  let s := to_ulong speed_hz
  if s = 0 then none
  else
    let q := to_int ((clkrate / s : Nat) : Int)
    some (if clkrate % s ≠ 0 then to_int (q + 1) else q)

/-- `hz_to_spi_baud(&pbr, &br, speed_hz, clkrate)`: the result is the pair
`(*pbr, *br)` on return; the arguments `pbr`, `br` are the values on entry. -/
def hz_to_spi_baud (pbr br : Nat) (speed_hz : Int) (clkrate : Nat) : Option (Nat × Nat) :=
  match baud_scale_needed speed_hz clkrate with
  | none => none
  | some scale_needed =>
    let acc := scale_search baud_scale scale_needed idx4 idx16 ⟨INT_MAX, br, pbr⟩
    if acc.minscale = INT_MAX then some (3, 15) else some (acc.inner, acc.outer)

/-- The value of `scale_needed` in `ns_delay_scale`:
`div_u64_rem((u64)delay_ns * clkrate, NSEC_PER_SEC, &remainder)` stored in an
`int`, incremented when the remainder is not zero. -/
def delay_scale_needed (delay_ns : Int) (clkrate : Nat) : Int :=
  let prod := (to_ulong delay_ns * clkrate) % 2 ^ 64
  let q := to_int ((prod / NSEC_PER_SEC : Nat) : Int)
  if prod % NSEC_PER_SEC ≠ 0 then to_int (q + 1) else q

/-- `ns_delay_scale(&psc, &sc, delay_ns, clkrate)`: the result is `(*psc, *sc)`. -/
def ns_delay_scale (psc sc : Nat) (delay_ns : Int) (clkrate : Nat) : Nat × Nat :=
  let acc := scale_search delay_scale (delay_scale_needed delay_ns clkrate) idx16 idx4
    ⟨INT_MAX, psc, sc⟩
  if acc.minscale = INT_MAX then (3, 15) else (acc.outer, acc.inner)

/-- State of the search after the rows `P`: either nothing reached `need` and the
state is the initial one, or the state holds the first pair, in scan order, with
the least product reaching `need`. -/
def search_inv (scale : Nat → Nat → Int) (need : Int) (cols : List Nat)
    (init : scale_acc) (P : List Nat) (acc : scale_acc) : Prop :=
  (acc = init ∧ ∀ i ∈ P, ∀ j ∈ cols, scale i j < need) ∨
  (acc.outer ∈ P ∧ acc.inner ∈ cols ∧ acc.minscale = scale acc.outer acc.inner ∧
    need ≤ acc.minscale ∧
    ∀ i ∈ P, ∀ j ∈ cols, need ≤ scale i j →
      acc.minscale ≤ scale i j ∧
      (scale i j = acc.minscale → acc.outer < i ∨ (acc.outer = i ∧ acc.inner ≤ j)))


/-- The product the specification describes for the delay search: the prescaler
table `{1, 3, 5, 7}` by a scaler `2^j` with `j` in `0 .. 15`. -/
def delay_scale_spec (i j : Nat) : Int := pscale_tbl.getD i 0 * 2 ^ j

/-! ## Register map and bit fields -/

/-- `BIT(n)`. -/
def BIT (n : Nat) : Nat := 1 <<< n

/-- `GENMASK(h, l)`: the bits `l .. h`. -/
def GENMASK (h l : Nat) : Nat := (1 <<< (h + 1)) - (1 <<< l)

def TRAN_STATE_RX_VOID : Nat := 0x01
def TRAN_STATE_TX_VOID : Nat := 0x02

def SPI_MCR : Nat := 0x00
def SPI_MCR_MASTER : Nat := BIT 31
def SPI_MCR_PCSIS (x : Nat) : Nat := (x <<< 16) % 2 ^ 32
def SPI_MCR_CLR_TXF : Nat := BIT 11
def SPI_MCR_CLR_RXF : Nat := BIT 10
def SPI_MCR_XSPI : Nat := BIT 3
def SPI_MCR_HALT : Nat := BIT 0

def SPI_TCR : Nat := 0x08
def SPI_TCR_GET_TCNT (x : Nat) : Nat := (x &&& GENMASK 31 16) >>> 16

/-- `SPI_CTAR(0)`. -/
def SPI_CTAR0 : Nat := 0x0c
def SPI_CTAR_FMSZ (x : Nat) : Nat := (x <<< 27) &&& GENMASK 30 27
def SPI_CTAR_CPOL (x : Nat) : Nat := x <<< 26
def SPI_CTAR_CPHA (x : Nat) : Nat := x <<< 25
def SPI_CTAR_LSBFE (x : Nat) : Nat := x <<< 24
def SPI_CTAR_PCSSCK (x : Nat) : Nat := (x <<< 22) &&& GENMASK 23 22
def SPI_CTAR_PASC (x : Nat) : Nat := (x <<< 20) &&& GENMASK 21 20
def SPI_CTAR_PBR (x : Nat) : Nat := (x <<< 16) &&& GENMASK 17 16
def SPI_CTAR_CSSCK (x : Nat) : Nat := (x <<< 12) &&& GENMASK 15 12
def SPI_CTAR_ASC (x : Nat) : Nat := (x <<< 8) &&& GENMASK 11 8
def SPI_CTAR_BR (x : Nat) : Nat := x &&& GENMASK 3 0

def SPI_SR : Nat := 0x2c
def SPI_SR_TCFQF : Nat := BIT 31
def SPI_SR_EOQF : Nat := BIT 28
def SPI_SR_TXRXS : Nat := BIT 30

def SPI_RSER : Nat := 0x30
def SPI_RSER_TFFFE : Nat := BIT 25
def SPI_RSER_TFFFD : Nat := BIT 24
def SPI_RSER_RFDFE : Nat := BIT 17
def SPI_RSER_RFDFD : Nat := BIT 16
def SPI_RSER_TCFQE : Nat := BIT 31
def SPI_RSER_EOQFE : Nat := BIT 28

def SPI_PUSHR : Nat := 0x34
def SPI_PUSHR_CMD_CONT : Nat := BIT 15
def SPI_PUSHR_CMD_CTAS (x : Nat) : Nat := (x <<< 12) &&& GENMASK 14 12
def SPI_PUSHR_CMD_EOQ : Nat := BIT 11
def SPI_PUSHR_EOQ : Nat := SPI_PUSHR_CMD_EOQ <<< 16
def SPI_PUSHR_CMD_CTCNT : Nat := BIT 10
def SPI_PUSHR_CTCNT : Nat := SPI_PUSHR_CMD_CTCNT <<< 16
/-- `SPI_PUSHR_CMD_PCS(x, y) = BIT(x) & y`. -/
def SPI_PUSHR_CMD_PCS (x y : Nat) : Nat := BIT x &&& y
def SPI_PUSHR_TXDATA (x : Nat) : Nat := x &&& 0x0000ffff

def SPI_POPR : Nat := 0x38
def SPI_POPR_RXDATA_8 (x : Nat) : Nat := x &&& 0x000000ff
def SPI_POPR_RXDATA_16 (x : Nat) : Nat := x &&& 0x0000ffff
def SPI_POPR_RXDATA_32 (x : Nat) : Nat := x &&& 0xffffffff

/-- `SPI_CTARE(0)`. -/
def SPI_CTARE0 : Nat := 0x11c
def SPI_CTARE_FMSZE (x : Nat) : Nat := (x &&& 0x00000010) <<< 12
def SPI_CTARE_FMSZE_MASK : Nat := SPI_CTARE_FMSZE 0x10
def SPI_CTARE_DTCP (x : Nat) : Nat := x &&& 0x7ff

/-- `SPI_FRAME_BITS(bits) = SPI_CTAR_FMSZ((bits) - 1)`. -/
def SPI_FRAME_BITS (bits : Nat) : Nat := SPI_CTAR_FMSZ (bits - 1)

def PUSHR_CMD : Nat := 0x0
def PUSHR_TX : Nat := 0x2

def SPI_CPHA : Nat := 0x01
def SPI_CPOL : Nat := 0x02
def SPI_LSB_FIRST : Nat := 0x08

def EIO : Int := 5
def ENOMEM : Int := 12
def ENODEV : Int := 19
def EINVAL : Int := 22
def ETIMEDOUT : Int := 110
def EINPROGRESS : Int := 115
def ERESTARTSYS : Int := 512

/-! ## Data model -/

/-- The values of `enum dspi_trans_mode`. -/
def DSPI_EOQ_MODE : Nat := 0
def DSPI_TCFQ_MODE : Nat := 1
def DSPI_DMA_MODE : Nat := 2

/-- Values of `enum frame_mode`. -/
inductive frame_mode where
  | FM_BYTES_1
  | FM_BYTES_2
  | FM_BYTES_4
  deriving DecidableEq, Repr

/-- `bytes_per_frame(fm) = 1 << (int)fm`. -/
def bytes_per_frame : frame_mode → Nat
  | .FM_BYTES_1 => 1
  | .FM_BYTES_2 => 2
  | .FM_BYTES_4 => 4

/-- `struct chip_data`. -/
structure chip_data where
  mcr_val : Nat
  ctar_val : Nat
  ctare_val : Nat
  void_write_data : Nat
  deriving DecidableEq, Repr

/-- `struct fsl_dspi_devtype_data`; `trans_mode` is the value of the enum. -/
structure fsl_dspi_devtype_data where
  trans_mode : Nat
  max_clock_factor : Nat
  xspi_mode : Bool
  deriving DecidableEq, Repr

def vf610_data : fsl_dspi_devtype_data := ⟨DSPI_DMA_MODE, 2, false⟩
def ls1021a_v1_data : fsl_dspi_devtype_data := ⟨DSPI_TCFQ_MODE, 8, true⟩
def ls2085a_data : fsl_dspi_devtype_data := ⟨DSPI_TCFQ_MODE, 8, false⟩
def s32_data : fsl_dspi_devtype_data := ⟨DSPI_EOQ_MODE, 1, false⟩
def s32r45_data : fsl_dspi_devtype_data := ⟨DSPI_TCFQ_MODE, 1, false⟩
def coldfire_data : fsl_dspi_devtype_data := ⟨DSPI_EOQ_MODE, 8, false⟩

/-- The fields of `struct spi_transfer` the driver reads; buffers are addresses,
`0` is `NULL`. -/
structure spi_transfer where
  tx_buf : Nat
  rx_buf : Nat
  len : Nat
  cs_change : Bool
  delay_usecs : Nat
  deriving DecidableEq, Repr

/-- The fields of `struct spi_device` the driver reads; `ctldata` is what
`spi_get_ctldata` returns (`none` is `NULL`). -/
structure spi_device where
  chip_select : Nat
  bits_per_word : Nat
  max_speed_hz : Nat
  mode : Nat
  ctldata : Option chip_data
  deriving DecidableEq, Repr

/-- The fields of `struct spi_message` read on entry to
`dspi_transfer_one_message`; `actual_length` and `status`, which the driver
writes, live in `fsl_dspi` below. -/
structure spi_message where
  transfers : List spi_transfer
  spi : spi_device
  deriving DecidableEq, Repr

/-- What the DMA engine did with one chunk: whether each
`dmaengine_prep_slave_single` returned a descriptor, whether each
`dmaengine_submit` succeeded, whether each completion arrived, and the contents
of `rx_dma_buf` when the receive callback runs. -/
structure dma_result where
  tx_desc : Bool
  tx_submit : Bool
  rx_desc : Bool
  rx_submit : Bool
  tx_done : Bool
  rx_done : Bool
  rx_data : Nat → Nat

/-- How a `wait_event_interruptible` sleep is ended: by the device interrupt or by
a signal. -/
inductive wait_event where
  | irq
  | signal
  deriving DecidableEq, Repr

/-- The environment of the driver, over a hardware state `σ`: the MMIO regmap
(accesses do not fail), the 16-bit `regmap_pushr`, the raw `writew` to
`base + offset`, the DMA engine, what ends a sleep, and the compile-time
configuration. -/
structure dspi_env (σ : Type) where
  regmap_read : σ → Nat → Nat × σ
  regmap_write : σ → Nat → Nat → σ
  regmap_update_bits : σ → Nat → Nat → Nat → σ
  regmap_pushr_write : σ → Nat → Nat → σ
  writew : σ → Nat → Nat → σ
  dma_engine : σ → (Nat → Nat) → Nat → dma_result × σ
  wait_next : σ → wait_event × σ
  CONFIG_M5441x : Bool

/-- `DSPI_FIFO_SIZE`: 16 under `CONFIG_M5441x`, else 4. -/
def DSPI_FIFO_SIZE {σ : Type} (env : dspi_env σ) : Nat :=
  if env.CONFIG_M5441x then 16 else 4

/-- `struct fsl_dspi` with what hangs off it: the hardware state `hw`, the
memory `mem` holding the transfer buffers, `dspi->ctlr->slave`, the `dma`
sub-structure (`curr_xfer_len`, `tx_dma_buf`, `rx_dma_buf`), and the
`actual_length` and `status` of `dspi->cur_msg`. Two traces are kept:
`dma_chunks`, the value of `curr_xfer_len` at every call of
`dspi_next_xfer_dma_submit`, and `err_log`, the status reported by every
`dev_err(..., "Waiting for transfer to complete failed!\n")` of
`dspi_transfer_one_message`. -/
structure fsl_dspi (σ : Type) where
  hw : σ
  mem : Nat → Nat
  slave : Bool
  irq : Int
  cur_chip : chip_data
  len : Nat
  tx : Nat
  tx_end : Nat
  rx : Nat
  rx_end : Nat
  dataflags : Nat
  void_write_data : Nat
  tx_cmd : Nat
  bits_per_word : Nat
  bytes_per_word : Nat
  devtype_data : fsl_dspi_devtype_data
  queue_size : Nat
  fifo_size : Nat
  pcs_mask : Nat
  extended_mode : Bool
  waitflags : Nat
  curr_xfer_len : Nat
  tx_dma_buf : Nat → Nat
  rx_dma_buf : Nat → Nat
  actual_length : Nat
  status : Int
  dma_chunks : List Nat
  err_log : List Int

/-- `DSPI_DMA_BUFSIZE(dspi) = dspi->fifo_size * 1024`, a `size_t`. -/
def DSPI_DMA_BUFSIZE {σ : Type} (dspi : fsl_dspi σ) : Nat :=
  (dspi.fifo_size * 1024) % 2 ^ 64

/-! ## Memory accesses (little-endian) -/

def read_u8 (mem : Nat → Nat) (p : Nat) : Nat := mem p % 256

def read_u16 (mem : Nat → Nat) (p : Nat) : Nat :=
  read_u8 mem p + 256 * read_u8 mem (p + 1)

def read_u32 (mem : Nat → Nat) (p : Nat) : Nat :=
  read_u16 mem p + 65536 * read_u16 mem (p + 2)

def write_u8 (mem : Nat → Nat) (p v : Nat) : Nat → Nat :=
  fun a => if a = p then v % 256 else mem a

def write_u16 (mem : Nat → Nat) (p v : Nat) : Nat → Nat :=
  write_u8 (write_u8 mem p v) (p + 1) (v / 256)

def write_u32 (mem : Nat → Nat) (p v : Nat) : Nat → Nat :=
  write_u16 (write_u16 mem p v) (p + 2) (v / 65536)

/-! ## Frame codec -/

section driver
variable {σ : Type}

/-- Sequencing of steps that may not return: `none` is passed on with the state
reached. -/
def and_then {α β : Type} (r : Option α × fsl_dspi σ)
    (f : α → fsl_dspi σ → Option β × fsl_dspi σ) : Option β × fsl_dspi σ :=
  match r.1 with
  | none => (none, r.2)
  | some a => f a r.2

/-- `get_frame_mode(dspi)`: the frame mode and the state after the register reads. -/
def get_frame_mode (env : dspi_env σ) (dspi : fsl_dspi σ) : frame_mode × fsl_dspi σ :=
  let r1 := env.regmap_read dspi.hw SPI_MCR
  let xspi := r1.1 &&& SPI_MCR_XSPI ≠ 0
  let r2 := if xspi then env.regmap_read r1.2 SPI_CTARE0 else (0, r1.2)
  if xspi ∧ r2.1 &&& SPI_CTARE_FMSZE_MASK ≠ 0 then
    (.FM_BYTES_4, { dspi with hw := r2.2 })
  else
    let r3 := env.regmap_read r2.2 SPI_CTAR0
    if r3.1 &&& SPI_CTAR_FMSZ 0xf = SPI_FRAME_BITS 8 then
      (.FM_BYTES_1, { dspi with hw := r3.2 })
    else
      (.FM_BYTES_2, { dspi with hw := r3.2 })

/-- `dspi_pop_tx(dspi)`: the value returned (`u32`) and the state. -/
def dspi_pop_tx (dspi : fsl_dspi σ) : Nat × fsl_dspi σ :=
  let txdata :=
    if dspi.tx ≠ 0 then
      if dspi.bytes_per_word = 1 then read_u8 dspi.mem dspi.tx
      else if dspi.bytes_per_word = 2 then read_u16 dspi.mem dspi.tx
      else read_u32 dspi.mem dspi.tx
    else 0
  let tx := if dspi.tx ≠ 0 then dspi.tx + dspi.bytes_per_word else dspi.tx
  (txdata, { dspi with tx := tx, len := to_ulong ((dspi.len : Int) - dspi.bytes_per_word) })

/-- `dspi_pop_tx_pushr(dspi)`: `cmd` and `data` are `u16`, the result is `u32`. -/
def dspi_pop_tx_pushr (dspi : fsl_dspi σ) : Nat × fsl_dspi σ :=
  let cmd := dspi.tx_cmd
  let r := dspi_pop_tx dspi
  let data := to_u16 r.1
  if r.2.slave then (data, r.2)
  else
    let cmd := if r.2.len > 0 then cmd ||| SPI_PUSHR_CMD_CONT else cmd
    (((cmd <<< 16) ||| data) % 2 ^ 32, r.2)

/-- The mask `(1 << dspi->bits_per_word) - 1` of `dspi_push_rx`, as `u32`. The
shift is an `int` shift; a count of 32 or more, undefined in C, is taken modulo
32 as the 64-bit ARM shift instruction does. -/
def rx_mask (bits_per_word : Nat) : Nat :=
  to_u32 (to_int (to_int (2 ^ (bits_per_word % 32)) - 1))

/-- `dspi_push_rx(dspi, rxdata)`. -/
def dspi_push_rx (dspi : fsl_dspi σ) (rxdata : Nat) : fsl_dspi σ :=
  if dspi.rx = 0 then dspi
  else
    let rxdata := rxdata &&& rx_mask dspi.bits_per_word
    let mem :=
      if dspi.bytes_per_word = 1 then write_u8 dspi.mem dspi.rx rxdata
      else if dspi.bytes_per_word = 2 then write_u16 dspi.mem dspi.rx rxdata
      else write_u32 dspi.mem dspi.rx rxdata
    { dspi with mem := mem, rx := dspi.rx + dspi.bytes_per_word }

/-! ## DMA -/

/-- The loop of `dspi_rx_dma_callback`:
`for (i = 0; i < dma->curr_xfer_len; i++) dspi_push_rx(dspi, dma->rx_dma_buf[i]);`
with `n` iterations left. -/
def dspi_rx_dma_loop : Nat → Nat → fsl_dspi σ → fsl_dspi σ
  | 0, _, dspi => dspi
  | n + 1, i, dspi => dspi_rx_dma_loop n (i + 1) (dspi_push_rx dspi (dspi.rx_dma_buf i))

/-- `dspi_rx_dma_callback(dspi)` (the `complete()` is the `rx_done` of the
environment). -/
def dspi_rx_dma_callback (dspi : fsl_dspi σ) : fsl_dspi σ :=
  if dspi.rx ≠ 0 then dspi_rx_dma_loop dspi.curr_xfer_len 0 dspi else dspi

/-- The first loop of `dspi_next_xfer_dma_submit`:
`for (i = 0; i < dma->curr_xfer_len; i++) dma->tx_dma_buf[i] = dspi_pop_tx_pushr(dspi);`
with `n` iterations left. -/
def dspi_tx_dma_loop : Nat → Nat → fsl_dspi σ → fsl_dspi σ
  | 0, _, dspi => dspi
  | n + 1, i, dspi =>
    let r := dspi_pop_tx_pushr dspi
    dspi_tx_dma_loop n (i + 1)
      { r.2 with tx_dma_buf := fun k => if k = i then r.1 else r.2.tx_dma_buf k }

/-- The state once both descriptors are issued (`dma_async_issue_pending`) and
the engine has run: `e` is what the engine did and the hardware state it left;
the receive callback has run if the receive descriptor completed. -/
def dma_issue_pending (dspi : fsl_dspi σ) (e : dma_result × σ) : fsl_dspi σ :=
  if e.1.rx_done then
    dspi_rx_dma_callback { dspi with hw := e.2, rx_dma_buf := e.1.rx_data }
  else { dspi with hw := e.2 }

/-- `dspi_next_xfer_dma_submit(dspi)`: the return value and the state. -/
def dspi_next_xfer_dma_submit (env : dspi_env σ) (dspi : fsl_dspi σ) : Int × fsl_dspi σ :=
  let d0 := { dspi with dma_chunks := dspi.dma_chunks ++ [dspi.curr_xfer_len] }
  let d1 := dspi_tx_dma_loop d0.curr_xfer_len 0 d0
  let e := env.dma_engine d1.hw d1.tx_dma_buf d1.curr_xfer_len
  if !e.1.tx_desc then (- EIO, d1)
  else if !e.1.tx_submit then (-EINVAL, d1)
  else if !e.1.rx_desc then (- EIO, d1)
  else if !e.1.rx_submit then (-EINVAL, d1)
  else
    let d3 := dma_issue_pending d1 e
    if d3.slave then (0, d3)
    else if !e.1.tx_done then (-ETIMEDOUT, d3)
    else if !e.1.rx_done then (-ETIMEDOUT, d3)
    else (0, d3)

/-- `bytes_per_buffer = DSPI_DMA_BUFSIZE(dspi) / DSPI_FIFO_SIZE`, stored in an
`int`. -/
def dma_bytes_per_buffer (env : dspi_env σ) (dspi : fsl_dspi σ) : Int :=
  to_int ((DSPI_DMA_BUFSIZE dspi / DSPI_FIFO_SIZE env : Nat) : Int)

/-- The `while (curr_remaining_bytes)` loop of `dspi_dma_xfer`;
`curr_remaining_bytes` and `bytes_per_buffer` are `int`, `curr_xfer_len` is
`u32`. A zero `bytes_per_word` is a division by zero: no return. -/
def dspi_dma_xfer_loop (env : dspi_env σ) (bytes_per_buffer : Int) :
    Nat → Int → fsl_dspi σ → Option Int × fsl_dspi σ
  | 0, _, dspi => (none, dspi)
  | fuel + 1, curr_remaining_bytes, dspi =>
    if curr_remaining_bytes = 0 then (some 0, dspi)
    else if dspi.bytes_per_word = 0 then (none, dspi)
    else
      let n := to_u32 (Int.tdiv curr_remaining_bytes dspi.bytes_per_word)
      let n := if n > to_u32 bytes_per_buffer then to_u32 bytes_per_buffer else n
      let r := dspi_next_xfer_dma_submit env { dspi with curr_xfer_len := n }
      if r.1 ≠ 0 then (some r.1, r.2)
      else
        let len := to_int (to_u32 ((r.2.curr_xfer_len : Int) * r.2.bytes_per_word))
        let rem := to_int (curr_remaining_bytes - len)
        let d := { r.2 with actual_length := to_u32 ((r.2.actual_length : Int) + len) }
        dspi_dma_xfer_loop env bytes_per_buffer fuel (if rem < 0 then 0 else rem) d

/-- `dspi_dma_xfer(dspi)`. -/
def dspi_dma_xfer (fuel : Nat) (env : dspi_env σ) (dspi : fsl_dspi σ) :
    Option Int × fsl_dspi σ :=
  dspi_dma_xfer_loop env (dma_bytes_per_buffer env dspi) fuel (to_int dspi.len) dspi

/-! ## End-of-queue and transfer-count strategies -/

/-- `dspi_data_to_pushr(dspi, tx_word)`: the `u32` returned and the state. -/
def dspi_data_to_pushr (dspi : fsl_dspi σ) (tx_word : Nat) : Nat × fsl_dspi σ :=
  let data :=
    if dspi.dataflags &&& TRAN_STATE_TX_VOID = 0 then
      if tx_word ≠ 0 then read_u16 dspi.mem dspi.tx else read_u8 dspi.mem dspi.tx
    else dspi.void_write_data
  let len := to_ulong ((dspi.len : Int) - (tx_word + 1))
  let cmd := if len > 0 then dspi.tx_cmd ||| SPI_PUSHR_CMD_CONT else dspi.tx_cmd
  (((cmd <<< 16) ||| SPI_PUSHR_TXDATA data) % 2 ^ 32,
    { dspi with tx := dspi.tx + (tx_word + 1), len := len })

/-- `dspi_data_from_popr(dspi, rx_frame_mode)`. -/
def dspi_data_from_popr (env : dspi_env σ) (dspi : fsl_dspi σ) (rx_frame_mode : frame_mode) :
    fsl_dspi σ :=
  let r := env.regmap_read dspi.hw SPI_POPR
  let rxdata := r.1
  let void := dspi.dataflags &&& TRAN_STATE_RX_VOID ≠ 0
  let mem :=
    if void then dspi.mem
    else match rx_frame_mode with
      | .FM_BYTES_4 => write_u32 dspi.mem dspi.rx (SPI_POPR_RXDATA_32 rxdata)
      | .FM_BYTES_2 => write_u16 dspi.mem dspi.rx (SPI_POPR_RXDATA_16 rxdata)
      | .FM_BYTES_1 => write_u8 dspi.mem dspi.rx (SPI_POPR_RXDATA_8 rxdata)
  { dspi with hw := r.2, mem := mem, rx := dspi.rx + bytes_per_frame rx_frame_mode }

/-- The `while` loop of `dspi_eoq_write`, with its locals `first`,
`fifo_entries_used` and `tx_frames_count` (`unsigned int`); the subtraction
`dspi->fifo_size - fifo_entries_used` is a `size_t` subtraction. -/
def dspi_eoq_write_loop (env : dspi_env σ) (tx_frame_mode : frame_mode)
    (fifo_entries_per_frm xfer_cmd : Nat) :
    Nat → Bool → Nat → Nat → fsl_dspi σ → Option Unit × fsl_dspi σ
  | 0, _, _, _, dspi => (none, dspi)
  | fuel + 1, first, fifo_entries_used, tx_frames_count, dspi =>
    if dspi.len ≠ 0 ∧
        to_ulong ((dspi.fifo_size : Int) - fifo_entries_used) ≥ fifo_entries_per_frm then
      let d := { dspi with tx_cmd := xfer_cmd }
      let used1 :=
        if tx_frame_mode = .FM_BYTES_4 then to_u32 ((fifo_entries_used : Int) + 1)
        else fifo_entries_used
      let r := match tx_frame_mode with
        | .FM_BYTES_4 => dspi_data_to_pushr d 1
        | .FM_BYTES_2 => dspi_data_to_pushr d 1
        | .FM_BYTES_1 => dspi_data_to_pushr d 0
      let d := r.2
      let used2 := to_u32 ((used1 : Int) + 1)
      let count := to_u32 ((tx_frames_count : Int) + 1)
      let eoq :=
        (d.len = 0 ∨ to_ulong ((d.fifo_size : Int) - used2) < fifo_entries_per_frm) ∨
        ((tx_frame_mode = .FM_BYTES_2 ∧ d.len = 1) ∨ (tx_frame_mode = .FM_BYTES_4 ∧ d.len < 4))
      let pushr := if eoq then r.1 ||| SPI_PUSHR_EOQ else r.1
      let d := if eoq then { d with queue_size := count } else d
      let pushr := if first then pushr ||| SPI_PUSHR_CTCNT else pushr
      let d := { d with hw := env.regmap_write d.hw SPI_PUSHR pushr }
      let d :=
        if tx_frame_mode = .FM_BYTES_4 then
          let r2 := dspi_data_to_pushr d 1
          { r2.2 with hw := env.writew r2.2.hw SPI_PUSHR (SPI_PUSHR_TXDATA r2.1) }
        else d
      dspi_eoq_write_loop env tx_frame_mode fifo_entries_per_frm xfer_cmd fuel false used2 count d
    else (some (), dspi)

/-- `dspi_eoq_write(dspi)`: returns `initial_len - dspi->len` as an `int`. -/
def dspi_eoq_write (fuel : Nat) (env : dspi_env σ) (dspi : fsl_dspi σ) :
    Option Int × fsl_dspi σ :=
  let initial_len := dspi.len
  let xfer_cmd := dspi.tx_cmd
  let fm := get_frame_mode env dspi
  let fifo_entries_per_frm := if fm.1 = .FM_BYTES_4 then 2 else 1
  and_then (dspi_eoq_write_loop env fm.1 fifo_entries_per_frm xfer_cmd fuel true 0 0 fm.2)
    (fun _ d => (some (to_int ((to_ulong ((initial_len : Int) - d.len) : Nat) : Int)), d))

/-- The `while` loop of `dspi_eoq_read`: at most `n = queue_size -
rx_frames_count` more iterations. -/
def dspi_eoq_read_loop (env : dspi_env σ) (rx_frame_mode : frame_mode) :
    Nat → Nat → fsl_dspi σ → Nat × fsl_dspi σ
  | 0, rx_bytes_count, dspi => (rx_bytes_count, dspi)
  | n + 1, rx_bytes_count, dspi =>
    if dspi.rx < dspi.rx_end then
      dspi_eoq_read_loop env rx_frame_mode n
        (to_u32 ((rx_bytes_count : Int) + bytes_per_frame rx_frame_mode))
        (dspi_data_from_popr env dspi rx_frame_mode)
    else (rx_bytes_count, dspi)

/-- `dspi_eoq_read(dspi)`. -/
def dspi_eoq_read (env : dspi_env σ) (dspi : fsl_dspi σ) : Int × fsl_dspi σ :=
  let fm := get_frame_mode env dspi
  let r := dspi_eoq_read_loop env fm.1 fm.2.queue_size 0 fm.2
  (to_int r.1, r.2)

/-- `fifo_write(dspi)`. -/
def fifo_write (env : dspi_env σ) (dspi : fsl_dspi σ) : fsl_dspi σ :=
  let r := dspi_pop_tx_pushr dspi
  { r.2 with hw := env.regmap_write r.2.hw SPI_PUSHR r.1 }

/-- `cmd_fifo_write(dspi)`. -/
def cmd_fifo_write (env : dspi_env σ) (dspi : fsl_dspi σ) : fsl_dspi σ :=
  let cmd := if dspi.len > 0 then dspi.tx_cmd ||| SPI_PUSHR_CMD_CONT else dspi.tx_cmd
  { dspi with hw := env.regmap_pushr_write dspi.hw PUSHR_CMD cmd }

/-- `tx_fifo_write(dspi, txdata)`, `txdata` a `u16`. -/
def tx_fifo_write (env : dspi_env σ) (dspi : fsl_dspi σ) (txdata : Nat) : fsl_dspi σ :=
  { dspi with hw := env.regmap_pushr_write dspi.hw PUSHR_TX (txdata % 2 ^ 16) }

/-- `dspi_tcfq_write(dspi)`. -/
def dspi_tcfq_write (env : dspi_env σ) (dspi : fsl_dspi σ) : fsl_dspi σ :=
  let d := { dspi with tx_cmd := dspi.tx_cmd ||| SPI_PUSHR_CMD_CTCNT }
  if d.devtype_data.xspi_mode ∧ d.bits_per_word > 16 then
    let r := dspi_pop_tx d
    let d1 := cmd_fifo_write env r.2
    let d2 := tx_fifo_write env d1 (r.1 &&& 0xFFFF)
    tx_fifo_write env d2 (r.1 >>> 16)
  else fifo_write env d

/-- `fifo_read(dspi)`. -/
def fifo_read (env : dspi_env σ) (dspi : fsl_dspi σ) : Nat × fsl_dspi σ :=
  let r := env.regmap_read dspi.hw SPI_POPR
  (r.1, { dspi with hw := r.2 })

/-- `dspi_tcfq_read(dspi)`. -/
def dspi_tcfq_read (env : dspi_env σ) (dspi : fsl_dspi σ) : fsl_dspi σ :=
  let r := fifo_read env dspi
  dspi_push_rx r.2 r.1

/-! ## Completion: `dspi_rxtx`, `dspi_poll`, `dspi_interrupt` -/

/-- `dspi_rxtx(dspi)`. -/
def dspi_rxtx (fuel : Nat) (env : dspi_env σ) (dspi : fsl_dspi σ) : Option Int × fsl_dspi σ :=
  let r := env.regmap_read dspi.hw SPI_TCR
  let spi_tcnt := to_u16 (SPI_TCR_GET_TCNT r.1)
  let d := { dspi with
    hw := r.2,
    actual_length := to_u32 ((dspi.actual_length : Int) + spi_tcnt * dspi.bytes_per_word) }
  let trans_mode := d.devtype_data.trans_mode
  let d :=
    if trans_mode = DSPI_EOQ_MODE then (dspi_eoq_read env d).2
    else if trans_mode = DSPI_TCFQ_MODE then dspi_tcfq_read env d
    else d
  if d.len = 0 then (some 0, d)
  else if trans_mode = DSPI_EOQ_MODE then
    and_then (dspi_eoq_write fuel env d) (fun _ d => (some (-EINPROGRESS), d))
  else if trans_mode = DSPI_TCFQ_MODE then (some (-EINPROGRESS), dspi_tcfq_write env d)
  else (some (-EINPROGRESS), d)

/-- The `do ... while (--tries)` loop of `dspi_poll`, entered with `tries` not
zero: the value of `tries` at the exit and the state. -/
def dspi_poll_loop (env : dspi_env σ) : Nat → fsl_dspi σ → Nat × fsl_dspi σ
  | 0, dspi => (0, dspi)
  | tries + 1, dspi =>
    let r := env.regmap_read dspi.hw SPI_SR
    let d := { dspi with hw := env.regmap_write r.2 SPI_SR r.1 }
    if r.1 &&& (SPI_SR_EOQF ||| SPI_SR_TCFQF) ≠ 0 then (tries + 1, d)
    else dspi_poll_loop env tries d

/-- `dspi_poll(dspi)`. -/
def dspi_poll (fuel : Nat) (env : dspi_env σ) (dspi : fsl_dspi σ) : Option Int × fsl_dspi σ :=
  let r := dspi_poll_loop env 1000 dspi
  if r.1 = 0 then (some (-ETIMEDOUT), r.2) else dspi_rxtx fuel env r.2

/-- `dspi_interrupt(irq, dspi)`: `IRQ_NONE` is 0, `IRQ_HANDLED` is 1. -/
def dspi_interrupt (fuel : Nat) (env : dspi_env σ) (dspi : fsl_dspi σ) :
    Option Int × fsl_dspi σ :=
  let r := env.regmap_read dspi.hw SPI_SR
  let d := { dspi with hw := env.regmap_write r.2 SPI_SR r.1 }
  if r.1 &&& (SPI_SR_EOQF ||| SPI_SR_TCFQF) = 0 then (some 0, d)
  else
    and_then (dspi_rxtx fuel env d) (fun ret d =>
      (some 1, if ret = 0 then { d with waitflags := 1 } else d))

end driver

/-! ## Transfer orchestrator -/

section orchestrator
variable {σ : Type}

/-- The head of the loop body of `dspi_transfer_one_message`: the assignments to
the fields of `dspi` made for `transfer` before the hardware is touched.
`chip` is `spi_get_ctldata(spi)`; `is_last` is `list_is_last(...)`. -/
def dspi_transfer_begin (dspi : fsl_dspi σ) (spi : spi_device) (chip : chip_data)
    (transfer : spi_transfer) (is_last : Bool) : fsl_dspi σ :=
  let tx_cmd := (SPI_PUSHR_CMD_CTAS 0 ||| SPI_PUSHR_CMD_PCS spi.chip_select dspi.pcs_mask) % 2 ^ 16
  let tx_cmd :=
    if is_last then
      if transfer.cs_change then tx_cmd ||| SPI_PUSHR_CMD_CONT else tx_cmd
    else
      if !transfer.cs_change then tx_cmd ||| SPI_PUSHR_CMD_CONT else tx_cmd
  let dataflags := 0
  let dataflags := if transfer.rx_buf = 0 then dataflags ||| TRAN_STATE_RX_VOID else dataflags
  let dataflags := if transfer.tx_buf = 0 then dataflags ||| TRAN_STATE_TX_VOID else dataflags
  { dspi with
    cur_chip := chip,
    tx_cmd := tx_cmd,
    void_write_data := chip.void_write_data,
    dataflags := dataflags,
    tx := transfer.tx_buf,
    tx_end := transfer.tx_buf + transfer.len,
    rx := transfer.rx_buf,
    rx_end := transfer.rx_buf + transfer.len,
    len := transfer.len }

/-- The busy wait `while (regmap_read(..., SPI_SR, &val) >= 0 && val & SPI_SR_TXRXS);`. -/
def dspi_wait_stopped (env : dspi_env σ) : Nat → fsl_dspi σ → Option Unit × fsl_dspi σ
  | 0, dspi => (none, dspi)
  | fuel + 1, dspi =>
    let r := env.regmap_read dspi.hw SPI_SR
    let d := { dspi with hw := r.2 }
    if r.1 &&& SPI_SR_TXRXS ≠ 0 then dspi_wait_stopped env fuel d else (some (), d)

/-- The loop `do { status = dspi_poll(dspi); } while (status == -EINPROGRESS);`. -/
def dspi_poll_until (env : dspi_env σ) (fuel : Nat) : Nat → fsl_dspi σ → Option Int × fsl_dspi σ
  | 0, dspi => (none, dspi)
  | n + 1, dspi =>
    and_then (dspi_poll fuel env dspi) (fun status d =>
      if status = -EINPROGRESS then dspi_poll_until env fuel n d else (some status, d))

/-- `wait_event_interruptible(dspi->waitq, dspi->waitflags)`: returns 0 once
`waitflags` is set; while asleep, either the interrupt arrives and
`dspi_interrupt` runs, or a signal ends the sleep with `-ERESTARTSYS`. -/
def wait_event_interruptible (env : dspi_env σ) (fuel : Nat) :
    Nat → fsl_dspi σ → Option Int × fsl_dspi σ
  | 0, dspi => (none, dspi)
  | n + 1, dspi =>
    if dspi.waitflags ≠ 0 then (some 0, dspi)
    else
      let r := env.wait_next dspi.hw
      let d := { dspi with hw := r.2 }
      match r.1 with
      | .signal => (some (-ERESTARTSYS), d)
      | .irq =>
        and_then (dspi_interrupt fuel env d) (fun _ d => wait_event_interruptible env fuel n d)

/-- The `switch (trans_mode)` of the loop body, for the three modes: the value
of `status` after it (`status` on entry unless the DMA path assigns it). -/
def dspi_dispatch (fuel : Nat) (env : dspi_env σ) (status : Int) (dspi : fsl_dspi σ) :
    Option Int × fsl_dspi σ :=
  let trans_mode := dspi.devtype_data.trans_mode
  let mcr := dspi.cur_chip.mcr_val ||| SPI_MCR_CLR_TXF ||| SPI_MCR_CLR_RXF
  if trans_mode = DSPI_EOQ_MODE then
    let hw := env.regmap_write dspi.hw SPI_RSER SPI_RSER_EOQFE
    let hw := env.regmap_write hw SPI_MCR mcr
    and_then (dspi_eoq_write fuel env { dspi with hw := hw }) (fun _ d => (some status, d))
  else if trans_mode = DSPI_TCFQ_MODE then
    let hw := env.regmap_write dspi.hw SPI_RSER SPI_RSER_TCFQE
    let hw := env.regmap_write hw SPI_MCR mcr
    (some status, dspi_tcfq_write env { dspi with hw := hw })
  else
    let hw := env.regmap_write dspi.hw SPI_RSER
      (SPI_RSER_TFFFE ||| SPI_RSER_TFFFD ||| SPI_RSER_RFDFE ||| SPI_RSER_RFDFD)
    let hw := env.regmap_write hw SPI_MCR mcr
    dspi_dma_xfer fuel env { dspi with hw := hw }

/-- The completion wait of the loop body: the `if (!dspi->irq) ... else if
(trans_mode != DSPI_DMA_MODE) ...` after the `switch`. -/
def dspi_wait_complete (fuel : Nat) (env : dspi_env σ) (status : Int) (dspi : fsl_dspi σ) :
    Option Int × fsl_dspi σ :=
  if dspi.irq = 0 then dspi_poll_until env fuel fuel dspi
  else if dspi.devtype_data.trans_mode ≠ DSPI_DMA_MODE then
    and_then (wait_event_interruptible env fuel fuel dspi)
      (fun st d => (some st, { d with waitflags := 0 }))
  else (some status, dspi)

/-- The `list_for_each_entry` loop of `dspi_transfer_one_message`, with the
local `status`; the result is the value of `status` at the label `out`. A `NULL`
`spi_get_ctldata(spi)` is dereferenced: no return. -/
def dspi_transfer_loop (fuel : Nat) (env : dspi_env σ) (spi : spi_device) :
    List spi_transfer → Int → fsl_dspi σ → Option Int × fsl_dspi σ
  | [], status, dspi => (some status, dspi)
  | transfer :: rest, status, dspi =>
    match spi.ctldata with
    | none => (none, dspi)
    | some chip =>
      let d := dspi_transfer_begin dspi spi chip transfer rest.isEmpty
      let d := { d with hw := env.regmap_update_bits d.hw SPI_MCR SPI_MCR_HALT SPI_MCR_HALT }
      and_then (dspi_wait_stopped env fuel d) (fun _ d =>
        let d := { d with hw := env.regmap_write d.hw SPI_CTAR0 d.cur_chip.ctar_val }
        let d :=
          if d.cur_chip.mcr_val &&& SPI_MCR_XSPI ≠ 0 then
            { d with hw := env.regmap_write d.hw SPI_CTARE0 d.cur_chip.ctare_val }
          else d
        if d.devtype_data.trans_mode > DSPI_DMA_MODE then (some (-EINVAL), d)
        else
          and_then (dspi_dispatch fuel env status d) (fun status d =>
            and_then (dspi_wait_complete fuel env status d) (fun status d =>
              let d := if status ≠ 0 then { d with err_log := d.err_log ++ [status] } else d
              dspi_transfer_loop fuel env spi rest status d)))

/-- `dspi_transfer_one_message(ctlr, message)`: the value returned; the state
holds `message->actual_length` and `message->status`. -/
def dspi_transfer_one_message (fuel : Nat) (env : dspi_env σ) (dspi : fsl_dspi σ)
    (message : spi_message) : Option Int × fsl_dspi σ :=
  and_then
    (dspi_transfer_loop fuel env message.spi message.transfers 0 { dspi with actual_length := 0 })
    (fun status d => (some status, { d with status := status }))

/-- `dspi_setup(spi)`: the value returned and `spi_get_ctldata(spi)` afterwards.
`cs_sck_delay` and `sck_cs_delay` (`u32`) are the delays of the platform data or
device tree, `clkrate` is `clk_get_rate(dspi->clk)`, `alloc_ok` tells whether
`kzalloc` succeeds. `none`: the division by zero of `hz_to_spi_baud`. -/
def dspi_setup (dspi : fsl_dspi σ) (spi : spi_device) (cs_sck_delay sck_cs_delay : Nat)
    (clkrate : Nat) (alloc_ok : Bool) : Option (Int × Option chip_data) :=
  if (4 ≤ spi.bits_per_word ∧ spi.bits_per_word ≤ 16) ∨
      (dspi.extended_mode ∧ spi.bits_per_word ≤ 32) then
    let fmsz := to_u8 ((spi.bits_per_word : Int) - 1)
    let chip0 : Option chip_data :=
      match spi.ctldata with
      | some c => some c
      | none => if alloc_ok then some ⟨0, 0, 0, 0⟩ else none
    match chip0 with
    | none => some (-ENOMEM, none)
    | some chip =>
      let mcr_val := SPI_MCR_MASTER ||| SPI_MCR_PCSIS dspi.pcs_mask |||
        SPI_MCR_CLR_TXF ||| SPI_MCR_CLR_RXF
      match hz_to_spi_baud 0 0 (to_int spi.max_speed_hz) clkrate with
      | none => none
      | some baud =>
        let pbr := baud.1
        let br := baud.2
        let d1 := ns_delay_scale 0 0 (to_int cs_sck_delay) clkrate
        let pcssck := d1.1
        let cssck := d1.2
        let d2 := ns_delay_scale 0 0 (to_int sck_cs_delay) clkrate
        let pasc := d2.1
        let asc := d2.2
        let ctar_val := SPI_CTAR_FMSZ fmsz |||
          SPI_CTAR_CPOL (if spi.mode &&& SPI_CPOL ≠ 0 then 1 else 0) |||
          SPI_CTAR_CPHA (if spi.mode &&& SPI_CPHA ≠ 0 then 1 else 0)
        let ctar_val :=
          if !dspi.slave then
            (ctar_val ||| (SPI_CTAR_PCSSCK pcssck ||| SPI_CTAR_CSSCK cssck |||
              SPI_CTAR_PASC pasc ||| SPI_CTAR_ASC asc ||| SPI_CTAR_PBR pbr |||
              SPI_CTAR_BR br)) |||
            SPI_CTAR_LSBFE (if spi.mode &&& SPI_LSB_FIRST ≠ 0 then 1 else 0)
          else ctar_val
        let xspi := dspi.extended_mode ∧ fmsz ≥ 16
        let mcr_val := if xspi then mcr_val ||| SPI_MCR_XSPI else mcr_val
        let ctare_val :=
          if xspi then SPI_CTARE_FMSZE fmsz ||| SPI_CTARE_DTCP 1 else chip.ctare_val
        some (0, some ⟨mcr_val, ctar_val, ctare_val, 0⟩)
  else some (-ENODEV, spi.ctldata)

/-- The controller state `dspi_probe` leaves: the structure comes zero-filled
from `spi_alloc_master`, and the probe assigns `pcs_mask`, `devtype_data`,
`fifo_size`, `extended_mode`, `irq` and the `slave` flag of the controller (the
probe's failure paths and `dspi_init` are left out: `hw` is the hardware state
after it). `fifo_size_prop` is the `spi-fifo-size` property when present. -/
def dspi_probe (env : dspi_env σ) (hw : σ) (cs_num : Nat) (devtype_data : fsl_dspi_devtype_data)
    (fifo_size_prop : Option Nat) (extended_mode slave : Bool) (irq : Int) : fsl_dspi σ :=
  { hw := hw, mem := fun _ => 0, slave := slave,
    irq := if irq ≤ 0 then 0 else irq,
    cur_chip := ⟨0, 0, 0, 0⟩, len := 0, tx := 0, tx_end := 0, rx := 0, rx_end := 0,
    dataflags := 0, void_write_data := 0, tx_cmd := 0, bits_per_word := 0,
    bytes_per_word := 0, devtype_data := devtype_data, queue_size := 0,
    fifo_size := (match fifo_size_prop with
      | some v => v
      | none => DSPI_FIFO_SIZE env),
    pcs_mask := to_u32 (to_int (2 ^ cs_num) - 1), extended_mode := extended_mode,
    waitflags := 0, curr_xfer_len := 0, tx_dma_buf := fun _ => 0, rx_dma_buf := fun _ => 0,
    actual_length := 0, status := 0, dma_chunks := [], err_log := [] }

end orchestrator

/-! ## A register-level hardware model

The claims about whole messages are stated "on hardware that raises the
completion flag after each queued batch and reports in `SPI_TCR` the number of
frames shifted since the last counter clear". `sim_hw` is such hardware: every
frame written to the push register is shifted out at once and its data looped
back into the receive FIFO. -/

/-- State of the simulated controller. `stall` is the number of coming reads of
the status register that still see no flag; `ctar_writes` counts the writes to
`SPI_CTAR(0)` and `pushr_writes` lists the values written to `SPI_PUSHR`. -/
structure sim_hw where
  mcr : Nat
  ctar0 : Nat
  ctare0 : Nat
  rser : Nat
  sr : Nat
  tcnt : Nat
  rxfifo : List Nat
  stall : Nat
  ctar_writes : Nat
  pushr_writes : List Nat
  deriving DecidableEq, Repr

/-- Register read. -/
def sim_read (h : sim_hw) (reg : Nat) : Nat × sim_hw :=
  if reg = SPI_MCR then (h.mcr, h)
  else if reg = SPI_TCR then ((h.tcnt <<< 16) % 2 ^ 32, h)
  else if reg = SPI_CTAR0 then (h.ctar0, h)
  else if reg = SPI_SR then
    if h.stall = 0 then (h.sr, h) else (0, { h with stall := h.stall - 1 })
  else if reg = SPI_RSER then (h.rser, h)
  else if reg = SPI_POPR then (h.rxfifo.headD 0, { h with rxfifo := h.rxfifo.tail })
  else if reg = SPI_CTARE0 then (h.ctare0, h)
  else (0, h)

/-- One frame with command half `cmd` and data `data` is queued and shifted:
the counter is cleared first when the command asks for it, the end-of-queue flag
is raised by an end-of-queue frame, the transfer-complete flag when that request
is enabled in `SPI_RSER`. -/
def sim_push (h : sim_hw) (cmd data : Nat) : sim_hw :=
  let tcnt := if cmd &&& SPI_PUSHR_CMD_CTCNT ≠ 0 then 0 else h.tcnt
  let eoqf := if cmd &&& SPI_PUSHR_CMD_EOQ ≠ 0 then SPI_SR_EOQF else 0
  let tcf := if h.rser &&& SPI_RSER_TCFQE ≠ 0 then SPI_SR_TCFQF else 0
  { h with tcnt := (tcnt + 1) % 2 ^ 16, rxfifo := h.rxfifo ++ [data],
           sr := h.sr ||| eoqf ||| tcf }

/-- Register write; the status register is write-one-to-clear, `CLR_RXF`
empties the receive FIFO. -/
def sim_write (h : sim_hw) (reg v : Nat) : sim_hw :=
  if reg = SPI_MCR then
    { h with mcr := v, rxfifo := if v &&& SPI_MCR_CLR_RXF ≠ 0 then [] else h.rxfifo }
  else if reg = SPI_CTAR0 then { h with ctar0 := v, ctar_writes := h.ctar_writes + 1 }
  else if reg = SPI_SR then { h with sr := h.sr ^^^ (h.sr &&& v) }
  else if reg = SPI_RSER then { h with rser := v }
  else if reg = SPI_PUSHR then
    sim_push { h with pushr_writes := h.pushr_writes ++ [v] } (v >>> 16) (v &&& 0xffff)
  else if reg = SPI_CTARE0 then { h with ctare0 := v }
  else h

/-- The environment over `sim_hw`: `regmap_update_bits` is read-modify-write, a
write to the command half of `regmap_pushr` queues a frame, the DMA engine
completes every chunk and loops the data back, and a sleep is ended by the
interrupt when a completion flag is visible, else by a signal. -/
def sim_env : dspi_env sim_hw where
  regmap_read := sim_read
  regmap_write := sim_write
  regmap_update_bits := fun h reg mask val =>
    let r := sim_read h reg
    sim_write r.2 reg ((r.1 ^^^ (r.1 &&& mask)) ||| (val &&& mask))
  regmap_pushr_write := fun h off v => if off = PUSHR_CMD then sim_push h v 0 else h
  writew := fun h _ _ => h
  dma_engine := fun h buf _ => (⟨true, true, true, true, true, true, fun i => buf i &&& 0xffff⟩, h)
  wait_next := fun h =>
    if h.stall = 0 ∧ h.sr &&& (SPI_SR_EOQF ||| SPI_SR_TCFQF) ≠ 0 then (.irq, h) else (.signal, h)
  CONFIG_M5441x := false

/-- The simulated controller after reset and `dspi_init`, with `stall` status
reads seeing no flag. -/
def sim_hw_init (stall : Nat) : sim_hw :=
  { mcr := 0, ctar0 := 0, ctare0 := 0, rser := 0, sr := 0, tcnt := 0, rxfifo := [],
    stall := stall, ctar_writes := 0, pushr_writes := [] }

/-! ## Auxiliary predicates and scenarios -/

/-- The fields of the controller state that the chunk routines of the DMA path
do not write. -/
def dma_frame {σ : Type} (d d' : fsl_dspi σ) : Prop :=
  d'.bytes_per_word = d.bytes_per_word ∧ d'.bits_per_word = d.bits_per_word ∧
  d'.fifo_size = d.fifo_size ∧ d'.slave = d.slave ∧
  d'.actual_length = d.actual_length ∧ d'.dma_chunks = d.dma_chunks ∧
  d'.curr_xfer_len = d.curr_xfer_len

/-- A DMA engine on which every chunk submission succeeds: descriptors are
returned, submissions accepted and both completions arrive in time. -/
def dma_always_succeeds {σ : Type} (env : dspi_env σ) : Prop :=
  ∀ hw buf n, (env.dma_engine hw buf n).1.tx_desc = true ∧
    (env.dma_engine hw buf n).1.tx_submit = true ∧
    (env.dma_engine hw buf n).1.rx_desc = true ∧
    (env.dma_engine hw buf n).1.rx_submit = true ∧
    (env.dma_engine hw buf n).1.tx_done = true ∧
    (env.dma_engine hw buf n).1.rx_done = true

/-- The chunk lengths, in words, the specification describes for a transfer of
`n` words at a capacity of `W` words per chunk: full chunks, then the rest. -/
def dma_chunk_list (W n : Nat) : List Nat :=
  List.replicate (n / W) W ++ (if n % W = 0 then [] else [n % W])

/-- Scenario B of the specification: a DMA-mode controller (`vf610_data`) with a
chunk capacity of 256 words (`spi-fifo-size = <1>`, buffers of 1024 bytes) on
which a transfer of 300 two-byte words is pending. -/
def scenario_B_dspi : fsl_dspi sim_hw :=
  { dspi_probe sim_env (sim_hw_init 0) 4 vf610_data (some 1) false false 1 with
    bytes_per_word := 2, len := 600 }

/-- A DMA-mode controller with one-byte words and buffers of 1024 bytes on which
a transfer of `len` bytes is pending. -/
def dma_byte_dspi (len : Nat) : fsl_dspi sim_hw :=
  { dspi_probe sim_env (sim_hw_init 0) 4 vf610_data (some 1) false false 1 with
    bytes_per_word := 1, len := len }

/-- A controller as `dspi_probe` leaves it on an S32 (`s32_data`: end-of-queue
mode), with four chip selects, the default FIFO size, no interrupt line (poll
mode), over the simulated hardware with `stall` flagless status reads. -/
def poll_dspi (stall : Nat) : fsl_dspi sim_hw :=
  dspi_probe sim_env (sim_hw_init stall) 4 s32_data none false false 0

/-- The device of scenario A before `dspi_setup`: chip select 0, 8-bit words,
1 MHz, mode 0. -/
def scenario_A_spi : spi_device := ⟨0, 8, 1000000, 0, none⟩

/-- The transfer of scenario A: 4 bytes, with a transmit and a receive buffer,
`cs_change` clear, no delay. -/
def scenario_A_transfer : spi_transfer := ⟨0x1000, 0x2000, 4, false, 0⟩

/-- The message of scenario A with `n` transfers of 4 bytes each (one in the
scenario itself), for the device once `dspi_setup` has run on a 50 MHz clock
without delays. -/
def scenario_A_message (n : Nat) : spi_message :=
  { transfers := List.replicate n scenario_A_transfer,
    spi := { scenario_A_spi with
      ctldata := match dspi_setup (poll_dspi 0) scenario_A_spi 0 0 50000000 true with
        | some r => r.2
        | none => none } }


/-! ## Recording the accesses to the hardware -/

/-- One access of the driver to the controller: a `regmap_read` with the value
it returned, a `regmap_write`, a `regmap_update_bits`, a write through
`regmap_pushr`, a raw `writew`, a DMA chunk handed to the engine, a sleep. -/
inductive reg_access where
  | read (reg val : Nat)
  | write (reg val : Nat)
  | update_bits (reg mask val : Nat)
  | pushr_write (off val : Nat)
  | writew (off val : Nat)
  | dma (len : Nat)
  | wait
  deriving DecidableEq, Repr

/-- The environment `env` with a log: the hardware state is paired with the list
of the accesses made so far, oldest first; every access is passed on to `env`
unchanged. -/
def traced {σ : Type} (env : dspi_env σ) : dspi_env (σ × List reg_access) where
  regmap_read := fun h reg =>
    let r := env.regmap_read h.1 reg
    (r.1, (r.2, h.2 ++ [.read reg r.1]))
  regmap_write := fun h reg v => (env.regmap_write h.1 reg v, h.2 ++ [.write reg v])
  regmap_update_bits := fun h reg m v =>
    (env.regmap_update_bits h.1 reg m v, h.2 ++ [.update_bits reg m v])
  regmap_pushr_write := fun h off v =>
    (env.regmap_pushr_write h.1 off v, h.2 ++ [.pushr_write off v])
  writew := fun h off v => (env.writew h.1 off v, h.2 ++ [.writew off v])
  dma_engine := fun h buf n =>
    let r := env.dma_engine h.1 buf n
    (r.1, (r.2, h.2 ++ [.dma n]))
  wait_next := fun h =>
    let r := env.wait_next h.1
    (r.1, (r.2, h.2 ++ [.wait]))
  CONFIG_M5441x := env.CONFIG_M5441x

/-- The values returned by the reads of register `reg` in a log, in order. -/
def reads_of (reg : Nat) (l : List reg_access) : List Nat :=
  l.filterMap (fun a => match a with
    | .read r v => if r = reg then some v else none
    | _ => none)

/-- The values written to register `reg` with `regmap_write` in a log, in order. -/
def writes_of (reg : Nat) (l : List reg_access) : List Nat :=
  l.filterMap (fun a => match a with
    | .write r v => if r = reg then some v else none
    | _ => none)

/-- One round of the loop of `dspi_poll` as the hardware sees it: the status
register is read and the value read is written back. -/
def sr_round (v : Nat) : List reg_access := [.read SPI_SR v, .write SPI_SR v]

/-- A status value with `SPI_SR_EOQF` or `SPI_SR_TCFQF` set. -/
def sr_flag (v : Nat) : Prop := v &&& (SPI_SR_EOQF ||| SPI_SR_TCFQF) ≠ 0

instance (v : Nat) : Decidable (sr_flag v) := by unfold sr_flag; infer_instance

/-- One pass through the body of the `while` loop of `dspi_eoq_write` (the body
of `dspi_eoq_write_loop` on its own): the new values of `fifo_entries_used` and
`tx_frames_count`, and the state. -/
def dspi_eoq_write_body {σ : Type} (env : dspi_env σ) (tx_frame_mode : frame_mode)
    (fifo_entries_per_frm xfer_cmd : Nat) (first : Bool)
    (fifo_entries_used tx_frames_count : Nat) (dspi : fsl_dspi σ) : Nat × Nat × fsl_dspi σ :=
  let d := { dspi with tx_cmd := xfer_cmd }
  let used1 :=
    if tx_frame_mode = .FM_BYTES_4 then to_u32 ((fifo_entries_used : Int) + 1)
    else fifo_entries_used
  let r := match tx_frame_mode with
    | .FM_BYTES_4 => dspi_data_to_pushr d 1
    | .FM_BYTES_2 => dspi_data_to_pushr d 1
    | .FM_BYTES_1 => dspi_data_to_pushr d 0
  let d := r.2
  let used2 := to_u32 ((used1 : Int) + 1)
  let count := to_u32 ((tx_frames_count : Int) + 1)
  let eoq :=
    (d.len = 0 ∨ to_ulong ((d.fifo_size : Int) - used2) < fifo_entries_per_frm) ∨
    ((tx_frame_mode = .FM_BYTES_2 ∧ d.len = 1) ∨ (tx_frame_mode = .FM_BYTES_4 ∧ d.len < 4))
  let pushr := if eoq then r.1 ||| SPI_PUSHR_EOQ else r.1
  let d := if eoq then { d with queue_size := count } else d
  let pushr := if first then pushr ||| SPI_PUSHR_CTCNT else pushr
  let d := { d with hw := env.regmap_write d.hw SPI_PUSHR pushr }
  let d :=
    if tx_frame_mode = .FM_BYTES_4 then
      let r2 := dspi_data_to_pushr d 1
      { r2.2 with hw := env.writew r2.2.hw SPI_PUSHR (SPI_PUSHR_TXDATA r2.1) }
    else d
  (used2, count, d)

/-! ## More scenarios -/

/-- A controller in extended mode (`spi-extended-mode`) as `dspi_probe` leaves
it on an S32. -/
def extended_dspi : fsl_dspi sim_hw :=
  dspi_probe sim_env (sim_hw_init 0) 4 s32_data none true false 0

/-- A controller with a receive cursor at `0x2000` and the word width set to
`bits` bits stored in `bytes` bytes. -/
def push_rx_dspi (bits bytes : Nat) : fsl_dspi sim_hw :=
  { extended_dspi with
    rx := 0x2000, rx_end := 0x2004, bits_per_word := bits, bytes_per_word := bytes }

/-- A DMA-mode controller (`vf610_data`) without interrupt line (`irq = 0`), with
buffers of 1024 bytes and the word width `bytes_per_word` set to `bpw`. -/
def dma_poll_dspi (bpw : Nat) : fsl_dspi sim_hw :=
  { dspi_probe sim_env (sim_hw_init 0) 4 vf610_data (some 1) false false 0 with
    bytes_per_word := bpw }

/-- A controller in transfer-count mode (`ls2085a_data`) over the logged simulated
hardware, in the slave role when `slave` is set, with one-byte words, a transfer
of 2 bytes pending whose first byte is `0xab`, and the base command `0x0001`. -/
def tcfq_dspi (slave : Bool) : fsl_dspi (sim_hw × List reg_access) :=
  { dspi_probe (traced sim_env) (sim_hw_init 0, []) 4 ls2085a_data none false slave 0 with
    mem := fun a => if a = 0x1000 then 0xab else 0,
    tx := 0x1000, tx_end := 0x1002, len := 2, tx_cmd := 1,
    bits_per_word := 8, bytes_per_word := 1 }

/-- A controller as `dspi_probe` leaves it on an S32 (end-of-queue mode, four
chip selects, FIFO size 4, poll mode) over the logged simulated hardware, in
extended mode when `extended` is set; the byte at address `a` of the memory is
`a mod 256`. -/
def logged_dspi (extended : Bool) : fsl_dspi (sim_hw × List reg_access) :=
  { dspi_probe (traced sim_env) (sim_hw_init 0, []) 4 s32_data none extended false 0 with
    mem := fun a => a % 256 }

/-- A message of one transfer of `len` bytes (transmit buffer at `0x1000`,
receive buffer at `0x2000`, `cs_change` clear) for a device with words of `bits`
bits on chip select 0, once `dspi_setup` has run on a 50 MHz clock. -/
def logged_message (extended : Bool) (bits len : Nat) : spi_message :=
  { transfers := [⟨0x1000, 0x2000, len, false, 0⟩],
    spi :=
      { chip_select := 0, bits_per_word := bits, max_speed_hz := 1000000, mode := 0,
        ctldata :=
          match dspi_setup (logged_dspi extended) ⟨0, bits, 1000000, 0, none⟩ 0 0 50000000 true with
          | some r => r.2
          | none => none } }

/-- The state `dspi_eoq_write` is entered with for a transfer of 3 bytes to a
device with 5-bit words: the frame size in `SPI_CTAR0` is 5 bits (two-byte frame
mode), both buffers hold 3 bytes, and the base command selects chip select 0. -/
def eoq_odd_dspi : fsl_dspi (sim_hw × List reg_access) :=
  { dspi_probe (traced sim_env) ({ sim_hw_init 0 with ctar0 := SPI_CTAR_FMSZ 4 }, []) 4 s32_data
      none false false 0 with
    mem := fun a => a % 256,
    tx := 0x1000, tx_end := 0x1003, rx := 0x2000, rx_end := 0x2003, len := 3, tx_cmd := 1 }

/-- The number of FIFO entries one frame takes, the `fifo_entries_per_frm` of
`dspi_eoq_write`: `(tx_frame_mode == FM_BYTES_4) ? 2 : 1`. -/
def fifo_entries_per_frm (fm : frame_mode) : Nat :=
  if fm = .FM_BYTES_4 then 2 else 1

/-- The state `dspi_eoq_write` is entered with on a controller with `cs_num` chip
selects and a FIFO of `fifo` entries, over logged simulated hardware whose
`SPI_CTAR0` holds `ctar0`, for a transfer of `len` bytes (transmit buffer at
`0x1000`, receive buffer at `0x2000`) with the base command `tx_cmd`. -/
def eoq_state (ctar0 cs_num fifo len tx_cmd : Nat) : fsl_dspi (sim_hw × List reg_access) :=
  { dspi_probe (traced sim_env) ({ sim_hw_init 0 with ctar0 := ctar0 }, []) cs_num s32_data
      (some fifo) false false 0 with
    mem := fun a => a % 256,
    tx := 0x1000, tx_end := 0x1000 + len, rx := 0x2000, rx_end := 0x2000 + len, len := len,
    tx_cmd := tx_cmd }

/-! ## The frame codec, round trip -/

/-- The frame of mode `fm` at address `p`, at the width `dspi_data_from_popr`
stores it. -/
def read_frame (fm : frame_mode) (mem : Nat → Nat) (p : Nat) : Nat :=
  match fm with
  | .FM_BYTES_4 => read_u32 mem p
  | .FM_BYTES_2 => read_u16 mem p
  | .FM_BYTES_1 => read_u8 mem p

/-! ## The word-width fields -/

/-- The two word-width fields of the controller state, `bytes_per_word` and
`bits_per_word`, are the same in `d'` as in `d`. -/
def same_width {σ : Type} (d d' : fsl_dspi σ) : Prop :=
  d'.bytes_per_word = d.bytes_per_word ∧ d'.bits_per_word = d.bits_per_word

/-! ## Register fields -/

/-- The bit field `hi .. lo` of a register value `v`. -/
def reg_field (v hi lo : Nat) : Nat := (v >>> lo) % 2 ^ (hi + 1 - lo)

/-- The registers read back what `dspi_transfer_one_message` wrote for the chip
configuration `chip`: read from the state `d` in the order of `get_frame_mode`,
`SPI_MCR` gives `chip->mcr_val | SPI_MCR_CLR_TXF | SPI_MCR_CLR_RXF`,
`SPI_CTARE(0)` (written, and read, when `SPI_MCR_XSPI` is set) gives
`chip->ctare_val`, and `SPI_CTAR(0)` gives `chip->ctar_val`. -/
def reads_back {σ : Type} (env : dspi_env σ) (d : fsl_dspi σ) (chip : chip_data) : Prop :=
  let r1 := env.regmap_read d.hw SPI_MCR
  let xspi := chip.mcr_val &&& SPI_MCR_XSPI ≠ 0
  let r2 := if xspi then env.regmap_read r1.2 SPI_CTARE0 else (0, r1.2)
  r1.1 = chip.mcr_val ||| SPI_MCR_CLR_TXF ||| SPI_MCR_CLR_RXF ∧
  (xspi → r2.1 = chip.ctare_val) ∧
  (env.regmap_read r2.2 SPI_CTAR0).1 = chip.ctar_val

instance {σ : Type} (env : dspi_env σ) (d : fsl_dspi σ) (chip : chip_data) :
    Decidable (reads_back env d chip) := by
  unfold reads_back; infer_instance

/-- A message of one transfer of 4 bytes (transmit buffer at `0x1000`, receive
buffer at `0x2000`) for the device `spi` once `dspi_setup` has left it the chip
configuration `chip`. -/
def message_after_setup (spi : spi_device) (chip : chip_data) : spi_message :=
  ⟨[⟨0x1000, 0x2000, 4, false, 0⟩],
    ⟨spi.chip_select, spi.bits_per_word, spi.max_speed_hz, spi.mode, some chip⟩⟩
/-! ## Theorems: the timing calculator -/

/-- A row in which no product reaches `need` leaves the search state alone. -/
theorem scale_search_row_none (scale : Nat → Nat → Int) (need : Int) (i : Nat)
    (js : List Nat) (acc : scale_acc) (h : ∀ j ∈ js, scale i j < need) :
    scale_search_row scale need i js acc = acc := by
  induction js with
  | nil => rfl
  | cons j js ih =>
    have hj : ¬ need ≤ scale i j := not_le.mpr (h j (List.mem_cons_self _ _))
    simp only [scale_search_row, hj, if_false]
    exact ih (fun k hk => h k (List.mem_cons_of_mem _ hk))

/-- In a row whose products increase with the index, the inner loop stops at the
first, hence smallest, product reaching `need`. -/
theorem scale_search_row_some (scale : Nat → Nat → Int) (need : Int) (i : Nat)
    (js : List Nat) (acc : scale_acc)
    (hs : js.Pairwise (fun a b => a < b ∧ scale i a < scale i b))
    (h : ∃ j ∈ js, need ≤ scale i j) :
    ∃ j0 ∈ js, need ≤ scale i j0 ∧
      (∀ j ∈ js, need ≤ scale i j → j0 ≤ j ∧ scale i j0 ≤ scale i j) ∧
      scale_search_row scale need i js acc =
        if scale i j0 < acc.minscale then ⟨scale i j0, i, j0⟩ else acc := by
  induction js with
  | nil => obtain ⟨j, hj, _⟩ := h; cases hj
  | cons j js ih =>
    rw [List.pairwise_cons] at hs
    by_cases hj : need ≤ scale i j
    · refine ⟨j, List.mem_cons_self _ _, hj, ?_, ?_⟩
      · intro k hk _
        rcases List.mem_cons.mp hk with rfl | hk
        · exact ⟨le_refl _, le_refl _⟩
        · exact ⟨le_of_lt (hs.1 k hk).1, le_of_lt (hs.1 k hk).2⟩
      · simp only [scale_search_row, hj, if_true]
    · have h2 : ∃ k ∈ js, need ≤ scale i k := by
        obtain ⟨k, hk, hkn⟩ := h
        rcases List.mem_cons.mp hk with rfl | hk
        · exact absurd hkn hj
        · exact ⟨k, hk, hkn⟩
      obtain ⟨j0, hj0, hn0, hmin, heq⟩ := ih hs.2 h2
      refine ⟨j0, List.mem_cons_of_mem _ hj0, hn0, ?_, ?_⟩
      · intro k hk hkn
        rcases List.mem_cons.mp hk with rfl | hk
        · exact absurd hkn hj
        · exact hmin k hk hkn
      · simp only [scale_search_row, hj, if_false]
        exact heq

/-- One more row keeps `search_inv`. -/
theorem search_inv_step (scale : Nat → Nat → Int) (need : Int) (cols : List Nat)
    (init : scale_acc) (P : List Nat) (acc : scale_acc) (i : Nat)
    (hinv : search_inv scale need cols init P acc)
    (hP : ∀ p ∈ P, p < i)
    (hs : cols.Pairwise (fun a b => a < b ∧ scale i a < scale i b))
    (hmax : ∀ j ∈ cols, scale i j < init.minscale) :
    search_inv scale need cols init (P ++ [i]) (scale_search_row scale need i cols acc) := by
  by_cases hrow : ∃ j ∈ cols, need ≤ scale i j
  · obtain ⟨j0, hj0, hn0, hmin, heq⟩ := scale_search_row_some scale need i cols acc hs hrow
    rw [heq]
    rcases hinv with ⟨hacc, hnone⟩ | ⟨ho, hi, hm, hn, hbest⟩
    · -- first row with a hit
      subst hacc
      rw [if_pos (hmax j0 hj0)]
      refine Or.inr ⟨by simp, hj0, rfl, hn0, ?_⟩
      intro k hk j hj hkn
      rcases List.mem_append.mp hk with hk | hk
      · exact absurd hkn (not_le.mpr (hnone k hk j hj))
      · have hki : k = i := by simpa using hk
        subst hki
        refine ⟨(hmin j hj hkn).2, fun _ => Or.inr ⟨rfl, (hmin j hj hkn).1⟩⟩
    · by_cases hlt : scale i j0 < acc.minscale
      · rw [if_pos hlt]
        refine Or.inr ⟨by simp, hj0, rfl, hn0, ?_⟩
        intro k hk j hj hkn
        rcases List.mem_append.mp hk with hk | hk
        · have h1 := (hbest k hk j hj hkn).1
          refine ⟨by simp only; omega, fun h2 => ?_⟩
          simp only at h2; omega
        · have hki : k = i := by simpa using hk
          subst hki
          exact ⟨(hmin j hj hkn).2, fun _ => Or.inr ⟨rfl, (hmin j hj hkn).1⟩⟩
      · rw [if_neg hlt]
        refine Or.inr ⟨List.mem_append_left _ ho, hi, hm, hn, ?_⟩
        intro k hk j hj hkn
        rcases List.mem_append.mp hk with hk | hk
        · exact hbest k hk j hj hkn
        · have hki : k = i := by simpa using hk
          subst hki
          have h1 := (hmin j hj hkn).2
          exact ⟨by omega, fun _ => Or.inl (hP _ ho)⟩
  · have hnone : ∀ j ∈ cols, scale i j < need := by
      intro j hj
      by_contra hc
      exact hrow ⟨j, hj, not_lt.mp hc⟩
    rw [scale_search_row_none scale need i cols acc hnone]
    rcases hinv with ⟨hacc, hn⟩ | ⟨ho, hi, hm, hn, hbest⟩
    · refine Or.inl ⟨hacc, ?_⟩
      intro k hk j hj
      rcases List.mem_append.mp hk with hk | hk
      · exact hn k hk j hj
      · have hki : k = i := by simpa using hk
        subst hki
        exact hnone j hj
    · refine Or.inr ⟨List.mem_append_left _ ho, hi, hm, hn, ?_⟩
      intro k hk j hj hkn
      rcases List.mem_append.mp hk with hk | hk
      · exact hbest k hk j hj hkn
      · have hki : k = i := by simpa using hk
        subst hki
        exact absurd hkn (not_le.mpr (hnone j hj))

/-- The outer loop keeps `search_inv`, from the rows `P` already scanned to
`P ++ rows`. -/
theorem search_inv_rows (scale : Nat → Nat → Int) (need : Int) (cols : List Nat)
    (init : scale_acc) (rows : List Nat) :
    ∀ (P : List Nat) (acc : scale_acc),
      search_inv scale need cols init P acc →
      (P ++ rows).Pairwise (fun a b => a < b) →
      (∀ i ∈ rows, cols.Pairwise (fun a b => a < b ∧ scale i a < scale i b)) →
      (∀ i ∈ rows, ∀ j ∈ cols, scale i j < init.minscale) →
      search_inv scale need cols init (P ++ rows) (scale_search scale need cols rows acc) := by
  induction rows with
  | nil => intro P acc hinv _ _ _; simpa [scale_search] using hinv
  | cons i rows ih =>
    intro P acc hinv hsort hs hmax
    have hP : ∀ p ∈ P, p < i := by
      intro p hp
      exact (List.pairwise_append.mp hsort).2.2 p hp i (List.mem_cons_self _ _)
    have hstep := search_inv_step scale need cols init P acc i hinv hP
      (hs i (List.mem_cons_self _ _)) (hmax i (List.mem_cons_self _ _))
    have := ih (P ++ [i]) _ hstep (by simpa using hsort)
      (fun k hk => hs k (List.mem_cons_of_mem _ hk))
      (fun k hk => hmax k (List.mem_cons_of_mem _ hk))
    simpa [scale_search] using this

/-- The whole search, started from `init`, ends in `search_inv` for all rows. -/
theorem scale_search_inv (scale : Nat → Nat → Int) (need : Int) (cols rows : List Nat)
    (init : scale_acc)
    (hsort : rows.Pairwise (fun a b => a < b))
    (hs : ∀ i ∈ rows, cols.Pairwise (fun a b => a < b ∧ scale i a < scale i b))
    (hmax : ∀ i ∈ rows, ∀ j ∈ cols, scale i j < init.minscale) :
    search_inv scale need cols init rows (scale_search scale need cols rows init) := by
  have h0 : search_inv scale need cols init [] init :=
    Or.inl ⟨rfl, fun i hi => by cases hi⟩
  simpa using search_inv_rows scale need cols init rows [] init h0 (by simpa using hsort) hs hmax


/-- The increment-on-remainder idiom computes the ceiling of the quotient. -/
theorem div_add_rem_eq_ceil_div (a b : Nat) (hb : 0 < b) :
    a / b + (if a % b ≠ 0 then 1 else 0) = ceil_div a b := by
  unfold ceil_div
  have hdm := Nat.div_add_mod a b
  have h2 : a % b < b := Nat.mod_lt _ hb
  have hmul : (a / b + 1) * b = b * (a / b) + b := by rw [Nat.add_mul, Nat.mul_comm]; simp
  have hmul2 : (a / b + 1 + 1) * b = b * (a / b) + b + b := by
    rw [Nat.add_mul, hmul]; simp
  have hmul0 : a / b * b = b * (a / b) := Nat.mul_comm _ _
  by_cases hr : a % b = 0
  · rw [if_neg (by simpa using hr)]
    symm
    apply Nat.div_eq_of_lt_le
    · rw [Nat.add_zero, hmul0]; omega
    · rw [Nat.add_zero, hmul]; omega
  · rw [if_pos hr]
    symm
    apply Nat.div_eq_of_lt_le
    · rw [hmul]; omega
    · rw [hmul2]; omega

/-- `ceil_div a b` is at least the quotient. -/
theorem div_le_ceil_div (a b : Nat) (hb : 0 < b) : a / b ≤ ceil_div a b := by
  rw [← div_add_rem_eq_ceil_div a b hb]; omega

/-- `to_int` is the identity on the range of `int`. -/
theorem to_int_of_range (x : Int) (h1 : -2 ^ 31 ≤ x) (h2 : x < 2 ^ 31) : to_int x = x := by
  unfold to_int; omega

/-- `to_ulong` is the identity on small non-negative values. -/
theorem to_ulong_of_range (x : Int) (h1 : 0 ≤ x) (h2 : x < 2 ^ 64) :
    to_ulong x = x.toNat := by
  unfold to_ulong; omega

/-- Within the range of `int`, the `scale_needed` of `hz_to_spi_baud` is the
ceiling of `clkrate / speed_hz`. -/
theorem baud_scale_needed_eq (speed_hz : Int) (clkrate : Nat)
    (hpos : 0 < speed_hz) (hint : speed_hz ≤ INT_MAX)
    (hneed : (ceil_div clkrate speed_hz.toNat : Int) ≤ INT_MAX) :
    baud_scale_needed speed_hz clkrate = some (ceil_div clkrate speed_hz.toNat : Int) := by
  unfold INT_MAX at hint hneed
  have hs : to_ulong speed_hz = speed_hz.toNat := to_ulong_of_range _ (by omega) (by omega)
  have hs0 : 0 < speed_hz.toNat := by omega
  have hc := div_add_rem_eq_ceil_div clkrate speed_hz.toNat hs0
  unfold baud_scale_needed
  simp only [hs]
  rw [if_neg (by omega)]
  generalize ceil_div clkrate speed_hz.toNat = need at hc hneed ⊢
  generalize clkrate / speed_hz.toNat = q at hc ⊢
  have hq1 : to_int (q : Int) = q := to_int_of_range _ (by split at hc <;> omega)
    (by split at hc <;> omega)
  rw [hq1]
  by_cases hr : clkrate % speed_hz.toNat = 0
  · simp only [hr, ne_eq, not_true_eq_false, if_false] at hc ⊢
    simp only [Option.some.injEq]; omega
  · simp only [hr, ne_eq, not_false_eq_true, if_true] at hc ⊢
    rw [to_int_of_range _ (by omega) (by omega)]
    simp only [Option.some.injEq]; omega

/-- `search_inv` at the end of the baud-rate search. -/
theorem baud_search_inv (need : Int) (br pbr : Nat) :
    search_inv baud_scale need idx4 ⟨INT_MAX, br, pbr⟩ idx16
      (scale_search baud_scale need idx4 idx16 ⟨INT_MAX, br, pbr⟩) :=
  scale_search_inv baud_scale need idx4 idx16 ⟨INT_MAX, br, pbr⟩
    (by decide) (by decide) (by show ∀ i ∈ idx16, ∀ j ∈ idx4, baud_scale i j < INT_MAX; decide)

/-- Membership in the index range `0 .. 15`. -/
theorem mem_idx16 (i : Nat) : i ∈ idx16 ↔ i < 16 := by
  unfold idx16
  constructor
  · intro h; simp at h; omega
  · intro h; interval_cases i <;> simp

/-- Membership in the index range `0 .. 3`. -/
theorem mem_idx4 (i : Nat) : i ∈ idx4 ↔ i < 4 := by
  unfold idx4
  constructor
  · intro h; simp at h; omega
  · intro h; interval_cases i <;> simp

/-- What `hz_to_spi_baud` returns for a reachable requirement `need`: the first
pair in scan order among those with the least product reaching `need`. -/
theorem hz_to_spi_baud_found (pbr br : Nat) (speed_hz : Int) (clkrate : Nat)
    (hpos : 0 < speed_hz) (hint : speed_hz ≤ INT_MAX)
    (hneed : ceil_div clkrate speed_hz.toNat ≤ 7 * 32768) :
    ∃ p b, hz_to_spi_baud pbr br speed_hz clkrate = some (p, b) ∧ p < 4 ∧ b < 16 ∧
      (ceil_div clkrate speed_hz.toNat : Int) ≤ baud_scale b p ∧
      ∀ i j, i < 16 → j < 4 → (ceil_div clkrate speed_hz.toNat : Int) ≤ baud_scale i j →
        baud_scale b p ≤ baud_scale i j ∧
        (baud_scale i j = baud_scale b p → b < i ∨ (b = i ∧ p ≤ j)) := by
  have hn := baud_scale_needed_eq speed_hz clkrate hpos hint (by unfold INT_MAX; omega)
  have hbound : ∀ i ∈ idx16, ∀ j ∈ idx4, baud_scale i j < INT_MAX := by decide
  unfold hz_to_spi_baud
  rw [hn]
  simp only
  rcases baud_search_inv (ceil_div clkrate speed_hz.toNat : Int) br pbr with
    ⟨_, hnone⟩ | ⟨ho, hi, hm, hge, hbest⟩
  · have h1 := hnone 15 (by decide) 3 (by decide)
    have h2 : baud_scale 15 3 = 229376 := by decide
    omega
  · have hlt := hbound _ ho _ hi
    rw [← hm] at hlt
    rw [if_neg (ne_of_lt hlt)]
    refine ⟨_, _, rfl, (mem_idx4 _).mp hi, (mem_idx16 _).mp ho, by rw [← hm]; exact hge, ?_⟩
    intro i j hi16 hj4 hij
    have := hbest i ((mem_idx16 i).mpr hi16) j ((mem_idx4 j).mpr hj4) hij
    rw [hm] at this
    exact this

/-- C1. `hz_to_spi_baud`: for every clock rate `clkrate >= 1` and speed
`0 < speed_hz <= clkrate` whose required divisor `need = ceil(clkrate / speed_hz)`
is at most `7 * 32768`, the function returns indices `(pbr, br)` with
`brs[br] * pbr_tbl[pbr] >= need`, and no pair `(i, j)` of the 16 x 4 table cross
product has `need <= brs[i] * pbr_tbl[j] < brs[br] * pbr_tbl[pbr]`. -/
theorem hz_to_spi_baud_minimal (pbr br : Nat) (speed_hz : Int) (clkrate : Nat)
    (_hclk : 1 ≤ clkrate) (hpos : 0 < speed_hz) (hint : speed_hz ≤ INT_MAX)
    (_hle : speed_hz ≤ clkrate)
    (hneed : ceil_div clkrate speed_hz.toNat ≤ 7 * 32768) :
    ∃ p b, hz_to_spi_baud pbr br speed_hz clkrate = some (p, b) ∧ p < 4 ∧ b < 16 ∧
      (ceil_div clkrate speed_hz.toNat : Int) ≤ brs.getD b 0 * pbr_tbl.getD p 0 ∧
      ∀ i j, i < 16 → j < 4 →
        ¬ ((ceil_div clkrate speed_hz.toNat : Int) ≤ brs.getD i 0 * pbr_tbl.getD j 0 ∧
           brs.getD i 0 * pbr_tbl.getD j 0 < brs.getD b 0 * pbr_tbl.getD p 0) := by
  obtain ⟨p, b, hres, hp, hb, hge, hbest⟩ :=
    hz_to_spi_baud_found pbr br speed_hz clkrate hpos hint hneed
  refine ⟨p, b, hres, hp, hb, hge, ?_⟩
  rintro i j hi hj ⟨h1, h2⟩
  have := (hbest i j hi hj h1).1
  unfold baud_scale at this
  omega

/-- Witness of C1 at the input of the claim: 50 MHz clock, 1 MHz speed. -/
theorem hz_to_spi_baud_minimal_witness :
    ∃ p b, hz_to_spi_baud 0 0 1000000 50000000 = some (p, b) ∧ p < 4 ∧ b < 16 ∧
      (ceil_div 50000000 (1000000 : Int).toNat : Int) ≤ brs.getD b 0 * pbr_tbl.getD p 0 ∧
      ∀ i j, i < 16 → j < 4 →
        ¬ ((ceil_div 50000000 (1000000 : Int).toNat : Int) ≤ brs.getD i 0 * pbr_tbl.getD j 0 ∧
           brs.getD i 0 * pbr_tbl.getD j 0 < brs.getD b 0 * pbr_tbl.getD p 0) :=
  hz_to_spi_baud_minimal 0 0 1000000 50000000 (by decide) (by decide) (by decide) (by decide)
    (by decide)

/-- The input of the claim evaluated: `need = 50`, divisor `8 * 7 = 56`,
`pbr = 3`, `br = 3`. -/
theorem hz_to_spi_baud_50MHz_1MHz :
    ceil_div 50000000 1000000 = 50 ∧ hz_to_spi_baud 0 0 1000000 50000000 = some (3, 3) ∧
      brs.getD 3 0 * pbr_tbl.getD 3 0 = 56 := by decide


/-- C2, as stated, fails: with a 2^31 Hz clock and a speed of 1 Hz the required
divisor 2^31 is beyond every table product, but it does not fit the `int`
`scale_needed` (it wraps to `INT_MIN`), every product passes the test
`scale >= scale_needed` and the function returns `pbr = 0`, `br = 0`. -/
theorem hz_to_spi_baud_fallback_counterexample :
    (0 : Int) < 1 ∧ 7 * 32768 < ceil_div (2 ^ 31) (1 : Int).toNat ∧
      baud_scale_needed 1 (2 ^ 31) = some (-2147483648) ∧
      hz_to_spi_baud 0 0 1 (2 ^ 31) = some (0, 0) ∧
      hz_to_spi_baud 0 0 1 (2 ^ 31) ≠ some (3, 15) := by decide

/-- C2 (amended). `hz_to_spi_baud`: for every `clkrate` and `speed_hz > 0` whose
required divisor `ceil(clkrate / speed_hz)` is beyond every table combination
(`> 7 * 32768`) and fits an `int` (`<= INT_MAX`), the function returns the
maximum-divisor indices `pbr = 3`, `br = 15`, whatever `pbr` and `br` held on
entry. -/
theorem hz_to_spi_baud_fallback (pbr br : Nat) (speed_hz : Int) (clkrate : Nat)
    (hpos : 0 < speed_hz) (hint : speed_hz ≤ INT_MAX)
    (hneed : 7 * 32768 < ceil_div clkrate speed_hz.toNat)
    (hfit : (ceil_div clkrate speed_hz.toNat : Int) ≤ INT_MAX) :
    hz_to_spi_baud pbr br speed_hz clkrate = some (3, 15) := by
  have hn := baud_scale_needed_eq speed_hz clkrate hpos hint hfit
  have hbound : ∀ i ∈ idx16, ∀ j ∈ idx4, baud_scale i j ≤ 229376 := by decide
  unfold hz_to_spi_baud
  rw [hn]
  simp only
  rcases baud_search_inv (ceil_div clkrate speed_hz.toNat : Int) br pbr with
    ⟨hacc, _⟩ | ⟨ho, hi, hm, hge, _⟩
  · rw [hacc]; simp
  · have := hbound _ ho _ hi
    omega

/-- Witness of the amended C2: a 1 GHz clock and a speed of 1 Hz. -/
theorem hz_to_spi_baud_fallback_witness :
    hz_to_spi_baud 2 7 1 1000000000 = some (3, 15) :=
  hz_to_spi_baud_fallback 2 7 1 1000000000 (by decide) (by decide) (by decide) (by decide)

/-- The scale of the delay search written with a power of two:
`pscale_tbl[i] * (2 << j) = pscale_tbl[i] * 2^(j+1)`. -/
theorem delay_scale_eq (i j : Nat) :
    delay_scale i j = pscale_tbl.getD i 0 * 2 ^ (j + 1) := by
  unfold delay_scale
  rw [Nat.shiftLeft_eq, pow_succ]
  push_cast
  ring

/-- For a non-negative delay whose required scale is reachable, the
`scale_needed` of `ns_delay_scale` is the ceiling of
`delay_ns * clkrate / NSEC_PER_SEC`. -/
theorem delay_scale_needed_eq (delay_ns : Int) (clkrate : Nat) (hpos : 0 ≤ delay_ns)
    (hneed : ceil_div (delay_ns.toNat * clkrate) NSEC_PER_SEC ≤ 7 * 2 ^ 16) :
    delay_scale_needed delay_ns clkrate =
      (ceil_div (delay_ns.toNat * clkrate) NSEC_PER_SEC : Int) := by
  have hc := div_add_rem_eq_ceil_div (delay_ns.toNat * clkrate) NSEC_PER_SEC (by decide)
  have hprod : (to_ulong delay_ns * clkrate) % 2 ^ 64 = delay_ns.toNat * clkrate := by
    rcases Nat.eq_zero_or_pos clkrate with h0 | h1
    · simp [h0]
    · have hle : delay_ns.toNat ≤ delay_ns.toNat * clkrate := Nat.le_mul_of_pos_right _ h1
      have hX : delay_ns.toNat * clkrate < 2 ^ 64 := by
        unfold NSEC_PER_SEC at hc hneed
        generalize delay_ns.toNat * clkrate = X at hc hneed
        generalize ceil_div X 1000000000 = n at hc hneed
        split at hc <;> omega
      rw [to_ulong_of_range _ hpos (by omega)]
      exact Nat.mod_eq_of_lt hX
  unfold delay_scale_needed
  simp only [hprod]
  unfold NSEC_PER_SEC at hc hneed ⊢
  generalize delay_ns.toNat * clkrate = X at hc hneed ⊢
  generalize ceil_div X 1000000000 = n at hc hneed ⊢
  by_cases hr : X % 1000000000 = 0
  · simp only [hr, ne_eq, not_true_eq_false, if_false] at hc ⊢
    rw [to_int_of_range _ (by omega) (by omega)]
    omega
  · simp only [hr, ne_eq, not_false_eq_true, if_true] at hc ⊢
    rw [to_int_of_range (X / 1000000000 : Nat) (by omega) (by omega)]
    rw [to_int_of_range _ (by omega) (by omega)]
    omega

/-- `search_inv` at the end of the delay search (outer loop over `pscale_tbl`,
inner loop over the shift). -/
theorem delay_search_inv (need : Int) (psc sc : Nat) :
    search_inv delay_scale need idx16 ⟨INT_MAX, psc, sc⟩ idx4
      (scale_search delay_scale need idx16 idx4 ⟨INT_MAX, psc, sc⟩) :=
  scale_search_inv delay_scale need idx16 idx4 ⟨INT_MAX, psc, sc⟩
    (by decide) (by decide) (by show ∀ i ∈ idx4, ∀ j ∈ idx16, delay_scale i j < INT_MAX; decide)

/-- What `ns_delay_scale` returns for a requirement `need <= 7 * 2^16` computed
without wrap-around: the least `pscale_tbl[i] * (2 << j)` reaching it. -/
theorem ns_delay_scale_found (psc sc : Nat) (delay_ns : Int) (clkrate : Nat)
    (need : Int) (hn : delay_scale_needed delay_ns clkrate = need)
    (hneed : need ≤ 7 * 2 ^ 16) :
    (ns_delay_scale psc sc delay_ns clkrate).1 < 4 ∧
    (ns_delay_scale psc sc delay_ns clkrate).2 < 16 ∧
    need ≤ delay_scale (ns_delay_scale psc sc delay_ns clkrate).1
      (ns_delay_scale psc sc delay_ns clkrate).2 ∧
    ∀ i j, i < 4 → j < 16 → need ≤ delay_scale i j →
      delay_scale (ns_delay_scale psc sc delay_ns clkrate).1
        (ns_delay_scale psc sc delay_ns clkrate).2 ≤ delay_scale i j := by
  have hbound : ∀ i ∈ idx4, ∀ j ∈ idx16, delay_scale i j < INT_MAX := by decide
  unfold ns_delay_scale
  rw [hn]
  simp only
  rcases delay_search_inv need psc sc with ⟨_, hnone⟩ | ⟨ho, hi, hm, hge, hbest⟩
  · have h1 := hnone 3 (by decide) 15 (by decide)
    have h2 : delay_scale 3 15 = 458752 := by decide
    omega
  · have hlt := hbound _ ho _ hi
    rw [← hm] at hlt
    rw [if_neg (ne_of_lt hlt)]
    refine ⟨(mem_idx4 _).mp ho, (mem_idx16 _).mp hi, by rw [← hm]; exact hge, ?_⟩
    intro i j hi4 hj16 hij
    have := (hbest i ((mem_idx4 i).mpr hi4) j ((mem_idx16 j).mpr hj16) hij).1
    rw [hm] at this
    exact this

/-- C3, as stated, fails: for a delay of 2 ns at 1 GHz the required scale is 2,
the function returns `psc = 0`, `sc = 0`, and the product of the specification
for these indices, `1 * 2^0 = 1`, is below the requirement: the scaler the code
searches is `2 << sc = 2^(sc+1)`, not `2^sc`. -/
theorem ns_delay_scale_spec_counterexample :
    ceil_div ((2 : Int).toNat * 1000000000) NSEC_PER_SEC = 2 ∧
      ns_delay_scale 0 0 2 1000000000 = (0, 0) ∧
      ¬ ((2 : Int) ≤ delay_scale_spec (ns_delay_scale 0 0 2 1000000000).1
          (ns_delay_scale 0 0 2 1000000000).2) := by decide

/-- C3 (amended). `ns_delay_scale`: for every `delay_ns >= 0` and `clkrate` whose
required scale `need = ceil(delay_ns * clkrate / 10^9)` is reachable
(`need <= 7 * 2^16`), the returned indices `(psc, sc)` are table indices and
`pscale_tbl[psc] * 2^(sc+1)`, with prescaler table `{1, 3, 5, 7}` and the scaler
ranging over `2^1 .. 2^16` (`sc` in `0 .. 15`), is the smallest product of the
cross product that is `>= need`. -/
theorem ns_delay_scale_minimal (psc sc : Nat) (delay_ns : Int) (clkrate : Nat)
    (hpos : 0 ≤ delay_ns)
    (hneed : ceil_div (delay_ns.toNat * clkrate) NSEC_PER_SEC ≤ 7 * 2 ^ 16) :
    (ns_delay_scale psc sc delay_ns clkrate).1 < 4 ∧
    (ns_delay_scale psc sc delay_ns clkrate).2 < 16 ∧
    (ceil_div (delay_ns.toNat * clkrate) NSEC_PER_SEC : Int) ≤
      pscale_tbl.getD (ns_delay_scale psc sc delay_ns clkrate).1 0 *
        2 ^ ((ns_delay_scale psc sc delay_ns clkrate).2 + 1) ∧
    ∀ i j, i < 4 → j < 16 →
      (ceil_div (delay_ns.toNat * clkrate) NSEC_PER_SEC : Int) ≤
        pscale_tbl.getD i 0 * 2 ^ (j + 1) →
      pscale_tbl.getD (ns_delay_scale psc sc delay_ns clkrate).1 0 *
        2 ^ ((ns_delay_scale psc sc delay_ns clkrate).2 + 1) ≤
        pscale_tbl.getD i 0 * 2 ^ (j + 1) := by
  have hn := delay_scale_needed_eq delay_ns clkrate hpos hneed
  have h := ns_delay_scale_found psc sc delay_ns clkrate _ hn (by exact_mod_cast hneed)
  simp only [delay_scale_eq] at h
  exact h

/-- Witness of the amended C3: a delay of 100 ns at 50 MHz (`need = 5`). -/
theorem ns_delay_scale_minimal_witness :
    (ns_delay_scale 0 0 100 50000000).1 < 4 ∧
    (ns_delay_scale 0 0 100 50000000).2 < 16 ∧
    (ceil_div ((100 : Int).toNat * 50000000) NSEC_PER_SEC : Int) ≤
      pscale_tbl.getD (ns_delay_scale 0 0 100 50000000).1 0 *
        2 ^ ((ns_delay_scale 0 0 100 50000000).2 + 1) ∧
    ∀ i j, i < 4 → j < 16 →
      (ceil_div ((100 : Int).toNat * 50000000) NSEC_PER_SEC : Int) ≤
        pscale_tbl.getD i 0 * 2 ^ (j + 1) →
      pscale_tbl.getD (ns_delay_scale 0 0 100 50000000).1 0 *
        2 ^ ((ns_delay_scale 0 0 100 50000000).2 + 1) ≤
        pscale_tbl.getD i 0 * 2 ^ (j + 1) :=
  ns_delay_scale_minimal 0 0 100 50000000 (by decide) (by decide)

/-- Two pairs of the cross product with the same scaler index and the same
product have the same prescaler index. -/
theorem baud_scale_same_br (b p j : Nat) (hb : b < 16) (hp : p < 4) (hj : j < 4)
    (h : brs.getD b 0 * pbr_tbl.getD p 0 = brs.getD b 0 * pbr_tbl.getD j 0) : p = j := by
  interval_cases b <;> interval_cases p <;> interval_cases j <;>
    first | rfl | exact absurd h (by decide)

/-- C4. `hz_to_spi_baud` tie-break: for every reachable required divisor `need`
the function returns a pair of table indices (`pbr < 4`, `br < 16`) whose
product `brs[br] * pbr_tbl[pbr]` reaches `need` and is the least product of the
table cross product reaching it; and among the pairs `(i, j)` of the cross
product that realize this same minimal product, the pair returned is the one met
first in a scan with the scaler table `brs` as outer ascending loop and the
prescaler table `pbr_tbl` as inner ascending loop: `(br, pbr) <= (i, j)` in
lexicographic order, so it has the smallest `br`, and a pair with the same `br`
is the pair returned itself. -/
theorem hz_to_spi_baud_tie_break (pbr br : Nat) (speed_hz : Int) (clkrate : Nat)
    (hpos : 0 < speed_hz) (hint : speed_hz ≤ INT_MAX)
    (hneed : ceil_div clkrate speed_hz.toNat ≤ 7 * 32768) :
    ∃ p b, hz_to_spi_baud pbr br speed_hz clkrate = some (p, b) ∧ p < 4 ∧ b < 16 ∧
      (ceil_div clkrate speed_hz.toNat : Int) ≤ brs.getD b 0 * pbr_tbl.getD p 0 ∧
      ∀ i j, i < 16 → j < 4 →
        (ceil_div clkrate speed_hz.toNat : Int) ≤ brs.getD i 0 * pbr_tbl.getD j 0 →
        brs.getD b 0 * pbr_tbl.getD p 0 ≤ brs.getD i 0 * pbr_tbl.getD j 0 ∧
        (brs.getD i 0 * pbr_tbl.getD j 0 = brs.getD b 0 * pbr_tbl.getD p 0 →
          b ≤ i ∧ (b < i ∨ (b = i ∧ p ≤ j)) ∧ (b = i → p = j)) := by
  obtain ⟨p, b, hres, hp, hb, hge, hbest⟩ :=
    hz_to_spi_baud_found pbr br speed_hz clkrate hpos hint hneed
  refine ⟨p, b, hres, hp, hb, by unfold baud_scale at hge; exact hge, ?_⟩
  intro i j hi hj hij
  have h := hbest i j hi hj hij
  unfold baud_scale at h
  refine ⟨h.1, fun heq => ?_⟩
  have h2 := h.2 heq
  refine ⟨by omega, h2, fun hbi => ?_⟩
  subst hbi
  exact baud_scale_same_br b p j hb hp hj heq.symm

/-- C4 at a required divisor of 12 (1 Hz on a 12 Hz clock), where `4 * 3` and
`6 * 2` both realize the minimal product 12: the pair returned is `pbr = 1`,
`br = 1` (`4 * 3`), its product 12 reaches the requirement, no pair of the cross
product reaching 12 has a smaller product, and every pair with the product 12
has `br >= 1`; in particular the pair `br = 2`, `pbr = 0` (`6 * 2`) comes
later. -/
theorem hz_to_spi_baud_tie_break_witness :
    hz_to_spi_baud 0 0 1 12 = some (1, 1) ∧
    (ceil_div 12 (1 : Int).toNat : Int) ≤ brs.getD 1 0 * pbr_tbl.getD 1 0 ∧
    brs.getD 1 0 * pbr_tbl.getD 1 0 = 12 ∧ brs.getD 2 0 * pbr_tbl.getD 0 0 = 12 ∧
    (∀ i j, i < 16 → j < 4 →
      (ceil_div 12 (1 : Int).toNat : Int) ≤ brs.getD i 0 * pbr_tbl.getD j 0 →
      brs.getD 1 0 * pbr_tbl.getD 1 0 ≤ brs.getD i 0 * pbr_tbl.getD j 0 ∧
      (brs.getD i 0 * pbr_tbl.getD j 0 = brs.getD 1 0 * pbr_tbl.getD 1 0 →
        1 ≤ i ∧ (1 < i ∨ (1 = i ∧ 1 ≤ j)) ∧ (1 = i → 1 = j))) := by
  obtain ⟨p, b, hres, _, _, hge, hbest⟩ :=
    hz_to_spi_baud_tie_break 0 0 1 12 (by decide) (by decide) (by decide)
  have hval : hz_to_spi_baud 0 0 1 12 = some (1, 1) := by decide
  rw [hval] at hres
  have hp : p = 1 := (congrArg Prod.fst (Option.some.inj hres)).symm
  have hb : b = 1 := (congrArg Prod.snd (Option.some.inj hres)).symm
  subst hp
  subst hb
  exact ⟨hval, hge, by decide, by decide, hbest⟩

/-- The inputs of the tie-break claim evaluated: required divisors 12 and 11
both return `pbr = 1`, `br = 1` (`4 * 3`), not `pbr = 0`, `br = 2` (`6 * 2`). -/
theorem hz_to_spi_baud_tie_12_11 :
    hz_to_spi_baud 0 0 1 12 = some (1, 1) ∧ hz_to_spi_baud 0 0 1 11 = some (1, 1) ∧
      brs.getD 1 0 * pbr_tbl.getD 1 0 = 12 ∧ brs.getD 2 0 * pbr_tbl.getD 0 0 = 12 := by decide


/-! ## Theorems: DMA chunking -/

section dma
variable {σ : Type}

theorem dma_frame_refl (d : fsl_dspi σ) : dma_frame d d :=
  ⟨rfl, rfl, rfl, rfl, rfl, rfl, rfl⟩

theorem dma_frame_trans {a b c : fsl_dspi σ} (h1 : dma_frame a b) (h2 : dma_frame b c) :
    dma_frame a c := by
  obtain ⟨a1, a2, a3, a4, a5, a6, a7⟩ := h1
  obtain ⟨b1, b2, b3, b4, b5, b6, b7⟩ := h2
  exact ⟨b1.trans a1, b2.trans a2, b3.trans a3, b4.trans a4, b5.trans a5, b6.trans a6,
    b7.trans a7⟩

theorem dspi_pop_tx_pushr_state (d : fsl_dspi σ) :
    (dspi_pop_tx_pushr d).2 = (dspi_pop_tx d).2 := by
  unfold dspi_pop_tx_pushr
  simp only
  split <;> rfl

theorem dspi_pop_tx_pushr_frame (d : fsl_dspi σ) : dma_frame d (dspi_pop_tx_pushr d).2 := by
  rw [dspi_pop_tx_pushr_state]
  exact ⟨rfl, rfl, rfl, rfl, rfl, rfl, rfl⟩

theorem dspi_tx_dma_loop_frame (n : Nat) :
    ∀ (i : Nat) (d : fsl_dspi σ), dma_frame d (dspi_tx_dma_loop n i d) := by
  induction n with
  | zero => intro i d; exact dma_frame_refl d
  | succ n ih =>
    intro i d
    unfold dspi_tx_dma_loop
    refine dma_frame_trans (dma_frame_trans (dspi_pop_tx_pushr_frame d) ?_) (ih (i + 1) _)
    exact ⟨rfl, rfl, rfl, rfl, rfl, rfl, rfl⟩

theorem dspi_push_rx_frame (d : fsl_dspi σ) (rxdata : Nat) :
    dma_frame d (dspi_push_rx d rxdata) := by
  unfold dspi_push_rx
  split
  · exact dma_frame_refl d
  · exact ⟨rfl, rfl, rfl, rfl, rfl, rfl, rfl⟩

theorem dspi_rx_dma_loop_frame (n : Nat) :
    ∀ (i : Nat) (d : fsl_dspi σ), dma_frame d (dspi_rx_dma_loop n i d) := by
  induction n with
  | zero => intro i d; exact dma_frame_refl d
  | succ n ih =>
    intro i d
    unfold dspi_rx_dma_loop
    exact dma_frame_trans (dspi_push_rx_frame d _) (ih (i + 1) _)

theorem dspi_rx_dma_callback_frame (d : fsl_dspi σ) : dma_frame d (dspi_rx_dma_callback d) := by
  unfold dspi_rx_dma_callback
  split
  · exact dspi_rx_dma_loop_frame _ _ _
  · exact dma_frame_refl d

theorem dma_issue_pending_frame (d : fsl_dspi σ) (e : dma_result × σ) :
    dma_frame d (dma_issue_pending d e) := by
  unfold dma_issue_pending
  split
  · exact dma_frame_trans ⟨rfl, rfl, rfl, rfl, rfl, rfl, rfl⟩ (dspi_rx_dma_callback_frame _)
  · exact ⟨rfl, rfl, rfl, rfl, rfl, rfl, rfl⟩

/-- Whatever the engine does, `dspi_next_xfer_dma_submit` appends the chunk
length to the trace and leaves the word width, FIFO size and byte count alone. -/
theorem dspi_next_xfer_dma_submit_frame (env : dspi_env σ) (d : fsl_dspi σ) :
    dma_frame { d with dma_chunks := d.dma_chunks ++ [d.curr_xfer_len] }
      (dspi_next_xfer_dma_submit env d).2 := by
  have h1 := dspi_tx_dma_loop_frame d.curr_xfer_len 0
    { d with dma_chunks := d.dma_chunks ++ [d.curr_xfer_len] }
  unfold dspi_next_xfer_dma_submit
  simp only
  generalize dspi_tx_dma_loop d.curr_xfer_len 0
    { d with dma_chunks := d.dma_chunks ++ [d.curr_xfer_len] } = d1 at h1 ⊢
  generalize env.dma_engine d1.hw d1.tx_dma_buf d1.curr_xfer_len = e
  have h4 := dma_frame_trans h1 (dma_issue_pending_frame d1 e)
  generalize dma_issue_pending d1 e = d3 at h4 ⊢
  split
  · exact h1
  split
  · exact h1
  split
  · exact h1
  split
  · exact h1
  split
  · exact h4
  split
  · exact h4
  split
  · exact h4
  · exact h4

/-- Return value of `dspi_next_xfer_dma_submit` on an engine that always
succeeds. -/
theorem dspi_next_xfer_dma_submit_ok (env : dspi_env σ) (d : fsl_dspi σ)
    (henv : dma_always_succeeds env) : (dspi_next_xfer_dma_submit env d).1 = 0 := by
  unfold dspi_next_xfer_dma_submit
  simp only
  generalize dspi_tx_dma_loop d.curr_xfer_len 0
    { d with dma_chunks := d.dma_chunks ++ [d.curr_xfer_len] } = d1
  obtain ⟨e1, e2, e3, e4, e5, e6⟩ := henv d1.hw d1.tx_dma_buf d1.curr_xfer_len
  simp [e1, e2, e3, e4, e5, e6]

theorem dma_chunk_list_zero (W : Nat) : dma_chunk_list W 0 = [] := by
  simp [dma_chunk_list]

theorem dma_chunk_list_le (W n : Nat) (h0 : 0 < n) (h : n ≤ W) : dma_chunk_list W n = [n] := by
  unfold dma_chunk_list
  rcases Nat.lt_or_eq_of_le h with hlt | heq
  · rw [Nat.div_eq_of_lt hlt, Nat.mod_eq_of_lt hlt]
    simp [Nat.ne_of_gt h0]
  · subst heq
    rw [Nat.div_self h0, Nat.mod_self]
    simp

theorem dma_chunk_list_gt (W n : Nat) (hW : 0 < W) (h : W < n) :
    dma_chunk_list W n = W :: dma_chunk_list W (n - W) := by
  unfold dma_chunk_list
  have h1 : n / W = (n - W) / W + 1 := by
    rw [Nat.div_eq n W, if_pos ⟨hW, le_of_lt h⟩]
  have h2 : n % W = (n - W) % W := by
    rw [Nat.mod_eq_sub_mod (le_of_lt h)]
  rw [h1, h2, List.replicate_succ]
  rfl

/-- The number of chunks is the ceiling of the quotient. -/
theorem dma_chunk_list_length (W n : Nat) (hW : 0 < W) :
    (dma_chunk_list W n).length = ceil_div n W := by
  rw [← div_add_rem_eq_ceil_div n W hW]
  unfold dma_chunk_list
  by_cases h : n % W = 0 <;> simp [h]

/-- The chunk lengths add up to the transfer length. -/
theorem dma_chunk_list_sum (W n : Nat) : (dma_chunk_list W n).sum = n := by
  unfold dma_chunk_list
  have := Nat.div_add_mod n W
  by_cases h : n % W = 0
  · simp [h, List.sum_replicate]
    rw [Nat.mul_comm]; omega
  · simp [h, List.sum_replicate]
    rw [Nat.mul_comm]; omega

/-- Any chunk is at most the capacity, and all but the last are full. -/
theorem dma_chunk_list_get (W n : Nat) (hW : 0 < W) (i : Nat)
    (hi : i < (dma_chunk_list W n).length) :
    (dma_chunk_list W n).getD i 0 ≤ W ∧ 0 < (dma_chunk_list W n).getD i 0 ∧
      (i + 1 < (dma_chunk_list W n).length → (dma_chunk_list W n).getD i 0 = W) := by
  unfold dma_chunk_list at hi ⊢
  have hmod : n % W < W := Nat.mod_lt _ hW
  by_cases hlt : i < n / W
  · have hget : (List.replicate (n / W) W ++ if n % W = 0 then [] else [n % W]).getD i 0 = W := by
      rw [List.getD_eq_getElem?_getD, List.getElem?_append_left (by simpa using hlt)]
      simp [hlt]
    rw [hget]
    exact ⟨le_refl _, hW, fun _ => rfl⟩
  · by_cases h : n % W = 0
    · simp [h] at hi; omega
    · simp [h] at hi
      have hi2 : i = n / W := by omega
      have hget : (List.replicate (n / W) W ++ if n % W = 0 then [] else [n % W]).getD i 0
          = n % W := by
        rw [List.getD_eq_getElem?_getD, List.getElem?_append_right (by simp; omega)]
        simp [h, hi2]
      rw [hget]
      refine ⟨le_of_lt hmod, by omega, fun hh => ?_⟩
      simp [h] at hh
      omega

theorem to_u32_of_range (x : Int) (h1 : 0 ≤ x) (h2 : x < 2 ^ 32) : to_u32 x = x.toNat := by
  unfold to_u32; omega

/-- One iteration of the `while` loop of `dspi_dma_xfer`: `n` is the chunk
length, `r` what the submission returns, `len` the local `len`, `rem2` and `d2`
the remaining byte count and the state the next iteration starts from. -/
theorem dspi_dma_xfer_loop_step (env : dspi_env σ) (B : Int) (fuel : Nat) (rem : Int)
    (d : fsl_dspi σ) (hrem : rem ≠ 0) (hb : d.bytes_per_word ≠ 0)
    (n : Nat)
    (hn : (if to_u32 (Int.tdiv rem d.bytes_per_word) > to_u32 B then to_u32 B
            else to_u32 (Int.tdiv rem d.bytes_per_word)) = n)
    (r : Int × fsl_dspi σ)
    (hr : dspi_next_xfer_dma_submit env { d with curr_xfer_len := n } = r)
    (len : Int)
    (hlen : to_int (to_u32 ((r.2.curr_xfer_len : Int) * r.2.bytes_per_word)) = len)
    (rem2 : Int)
    (hrem2 : (if to_int (rem - len) < 0 then 0 else to_int (rem - len)) = rem2)
    (d2 : fsl_dspi σ)
    (hd2 : { r.2 with actual_length := to_u32 ((r.2.actual_length : Int) + len) } = d2) :
    dspi_dma_xfer_loop env B (fuel + 1) rem d =
      if r.1 ≠ 0 then (some r.1, r.2) else dspi_dma_xfer_loop env B fuel rem2 d2 := by
  subst hn hr hlen hrem2 hd2
  rw [dspi_dma_xfer_loop]
  simp only [hrem, hb, if_false]

/-- In any run of the chunk loop, on any DMA engine and for any amount of fuel,
every chunk is at most `bytes_per_buffer` (compared as `u32`). -/
theorem dspi_dma_xfer_loop_chunks_le (env : dspi_env σ) (B : Int) (fuel : Nat) :
    ∀ (rem : Int) (d : fsl_dspi σ), (∀ c ∈ d.dma_chunks, c ≤ to_u32 B) →
      ∀ c ∈ (dspi_dma_xfer_loop env B fuel rem d).2.dma_chunks, c ≤ to_u32 B := by
  induction fuel with
  | zero => intro rem d h; simpa [dspi_dma_xfer_loop] using h
  | succ fuel ih =>
    intro rem d h
    by_cases hrem : rem = 0
    · rw [dspi_dma_xfer_loop]; simpa [hrem] using h
    by_cases hb : d.bytes_per_word = 0
    · rw [dspi_dma_xfer_loop]; simpa [hrem, hb] using h
    obtain ⟨n, hn⟩ : ∃ n, (if to_u32 (Int.tdiv rem d.bytes_per_word) > to_u32 B then to_u32 B
            else to_u32 (Int.tdiv rem d.bytes_per_word)) = n := ⟨_, rfl⟩
    obtain ⟨r, hr⟩ : ∃ r, dspi_next_xfer_dma_submit env { d with curr_xfer_len := n } = r :=
      ⟨_, rfl⟩
    obtain ⟨d2, hd2⟩ : ∃ d2, ({ r.2 with actual_length := to_u32 ((r.2.actual_length : Int) +
        to_int (to_u32 ((r.2.curr_xfer_len : Int) * r.2.bytes_per_word))) } : fsl_dspi σ) = d2 :=
      ⟨_, rfl⟩
    rw [dspi_dma_xfer_loop_step env B fuel rem d hrem hb n hn r hr _ rfl _ rfl d2 hd2]
    have hnle : n ≤ to_u32 B := by
      rw [← hn]; split <;> omega
    have hf := dspi_next_xfer_dma_submit_frame env { d with curr_xfer_len := n }
    rw [hr] at hf
    have hch : r.2.dma_chunks = d.dma_chunks ++ [n] := hf.2.2.2.2.2.1
    have hall : ∀ c ∈ r.2.dma_chunks, c ≤ to_u32 B := by
      intro c hc
      rw [hch] at hc
      rcases List.mem_append.mp hc with hc | hc
      · exact h c hc
      · have : c = n := by simpa using hc
        omega
    have hd2c : d2.dma_chunks = r.2.dma_chunks := by rw [← hd2]
    split
    · exact hall
    · exact ih _ _ (by rw [hd2c]; exact hall)

theorem dma_rem_arith (X Y : Nat) (hYX : Y ≤ X) (hX : X ≤ 2147483647) :
    (if to_int ((X : Int) - (Y : Int)) < 0 then 0 else to_int ((X : Int) - (Y : Int))) =
      ((X - Y : Nat) : Int) := by
  rw [to_int_of_range _ (by omega) (by omega)]
  split <;> omega

theorem dma_len_arith (Y : Nat) (hY : Y ≤ 2147483647) :
    to_int ((to_u32 (Y : Int) : Nat) : Int) = (Y : Int) := by
  rw [to_u32_of_range _ (by omega) (by omega), to_int_of_range _ (by omega) (by omega)]
  omega

theorem dma_count_arith (a X Y : Nat) (hYX : Y ≤ X) :
    (to_u32 ((a : Int) + (Y : Int)) + (X - Y)) % 2 ^ 32 = (a + X) % 2 ^ 32 := by
  unfold to_u32
  omega

theorem to_u32_lt (x : Int) : to_u32 x < 2 ^ 32 := by
  unfold to_u32; omega

/-- The chunk loop on an engine that always succeeds, for `m` whole words
remaining and a capacity of `W` words: it returns 0 after the chunks
`dma_chunk_list W m`, and the byte count has grown by `m * bytes_per_word`. -/
theorem dspi_dma_xfer_loop_chunks (env : dspi_env σ) (henv : dma_always_succeeds env)
    (W : Nat) (hW : 1 ≤ W) (hWmax : (W : Int) ≤ INT_MAX) (fuel : Nat) :
    ∀ (m : Nat) (d : fsl_dspi σ), 1 ≤ d.bytes_per_word →
      m * d.bytes_per_word ≤ 2147483647 → m < fuel → d.actual_length < 2 ^ 32 →
      (dspi_dma_xfer_loop env W fuel ((m * d.bytes_per_word : Nat) : Int) d).1 = some 0 ∧
      (dspi_dma_xfer_loop env W fuel ((m * d.bytes_per_word : Nat) : Int) d).2.dma_chunks =
        d.dma_chunks ++ dma_chunk_list W m ∧
      (dspi_dma_xfer_loop env W fuel ((m * d.bytes_per_word : Nat) : Int) d).2.actual_length =
        (d.actual_length + m * d.bytes_per_word) % 2 ^ 32 ∧
      (dspi_dma_xfer_loop env W fuel ((m * d.bytes_per_word : Nat) : Int) d).2.bytes_per_word =
        d.bytes_per_word := by
  unfold INT_MAX at hWmax
  have hBW : to_u32 (W : Int) = W := by
    rw [to_u32_of_range _ (by omega) (by omega)]; simp
  induction fuel with
  | zero => intro m d _ _ h; omega
  | succ fuel ih =>
    intro m d hb hmax hfuel hact
    rcases Nat.eq_zero_or_pos m with hm | hm
    · subst hm
      rw [dspi_dma_xfer_loop]
      simp [dma_chunk_list_zero]
      omega
    · -- the chunk length
      have hXpos : 0 < m * d.bytes_per_word := Nat.mul_pos hm hb
      have hmX : m ≤ m * d.bytes_per_word := Nat.le_mul_of_pos_right _ hb
      have hdiv : Int.tdiv ((m * d.bytes_per_word : Nat) : Int) (d.bytes_per_word : Int) = m := by
        rw [Int.tdiv_eq_ediv (by omega) (by omega)]
        push_cast
        exact Int.mul_ediv_cancel _ (by omega)
      have hn : (if to_u32 (Int.tdiv ((m * d.bytes_per_word : Nat) : Int) d.bytes_per_word)
              > to_u32 (W : Int) then to_u32 (W : Int)
            else to_u32 (Int.tdiv ((m * d.bytes_per_word : Nat) : Int) d.bytes_per_word))
          = min m W := by
        rw [hdiv, hBW, to_u32_of_range _ (by omega) (by omega)]
        simp only [Int.toNat_ofNat]
        split <;> omega
      obtain ⟨r, hr⟩ : ∃ r,
          dspi_next_xfer_dma_submit env { d with curr_xfer_len := min m W } = r := ⟨_, rfl⟩
      have hf := dspi_next_xfer_dma_submit_frame env { d with curr_xfer_len := min m W }
      have hok := dspi_next_xfer_dma_submit_ok env { d with curr_xfer_len := min m W } henv
      rw [hr] at hf hok
      obtain ⟨f1, _, _, _, f5, f6, f7⟩ := hf
      simp only at f1 f5 f6 f7
      -- the arithmetic of the iteration
      have hnX : min m W * d.bytes_per_word ≤ m * d.bytes_per_word :=
        Nat.mul_le_mul_right _ (Nat.min_le_left _ _)
      have hsub : (m - min m W) * d.bytes_per_word =
          m * d.bytes_per_word - min m W * d.bytes_per_word := Nat.sub_mul _ _ _
      have hlen : to_int (to_u32 ((r.2.curr_xfer_len : Int) * r.2.bytes_per_word)) =
          ((min m W * d.bytes_per_word : Nat) : Int) := by
        rw [f7, f1]
        have : ((min m W : Nat) : Int) * (d.bytes_per_word : Int) =
            ((min m W * d.bytes_per_word : Nat) : Int) := by push_cast; rfl
        rw [this]
        exact dma_len_arith _ (le_trans hnX hmax)
      obtain ⟨d2, hd2⟩ : ∃ d2, ({ r.2 with actual_length := to_u32 ((r.2.actual_length : Int) +
          ((min m W * d.bytes_per_word : Nat) : Int)) } : fsl_dspi σ) = d2 := ⟨_, rfl⟩
      have e1 : d2.bytes_per_word = d.bytes_per_word := by rw [← hd2]; exact f1
      have e2 : d2.dma_chunks = d.dma_chunks ++ [min m W] := by rw [← hd2]; exact f6
      have e3 : d2.actual_length =
          to_u32 ((d.actual_length : Int) + ((min m W * d.bytes_per_word : Nat) : Int)) := by
        rw [← hd2, ← f5]
      have hrem : (if to_int (((m * d.bytes_per_word : Nat) : Int) -
            ((min m W * d.bytes_per_word : Nat) : Int)) < 0 then 0
          else to_int (((m * d.bytes_per_word : Nat) : Int) -
            ((min m W * d.bytes_per_word : Nat) : Int))) =
          (((m - min m W) * d2.bytes_per_word : Nat) : Int) := by
        rw [e1, hsub]
        exact dma_rem_arith _ _ hnX hmax
      rw [dspi_dma_xfer_loop_step env W fuel _ d (by omega) (by omega) (min m W) hn r hr
        _ hlen _ hrem d2 hd2]
      rw [if_neg (by simp [hok])]
      have hmin : 0 < min m W := Nat.lt_min.mpr ⟨hm, hW⟩
      obtain ⟨s1, s2, s3, s4⟩ := ih (m - min m W) d2
        (by rw [e1]; exact hb)
        (by rw [e1]; exact le_trans (Nat.mul_le_mul_right _ (Nat.sub_le _ _)) hmax)
        (by have := Nat.sub_lt hm hmin
            exact lt_of_lt_of_le this (Nat.le_of_lt_succ hfuel))
        (by rw [e3]; exact to_u32_lt _)
      refine ⟨s1, ?_, ?_, ?_⟩
      · have key : [min m W] ++ dma_chunk_list W (m - min m W) = dma_chunk_list W m := by
          rcases Nat.lt_or_ge W m with hlt | hge
          · rw [Nat.min_eq_right (le_of_lt hlt), dma_chunk_list_gt W m (by omega) hlt]
            rfl
          · rw [Nat.min_eq_left hge, Nat.sub_self, dma_chunk_list_zero,
              dma_chunk_list_le W m hm hge]
            rfl
        rw [s2, e2, List.append_assoc, key]
      · rw [s3, e3, e1, hsub]
        exact dma_count_arith _ _ _ hnX
      · rw [s4, e1]

theorem sim_env_dma_always_succeeds : dma_always_succeeds sim_env :=
  fun _ _ _ => ⟨rfl, rfl, rfl, rfl, rfl, rfl⟩

theorem ceil_div_mul_right (m W b : Nat) (hW : 0 < W) (hb : 0 < b) :
    ceil_div (m * b) (W * b) = ceil_div m W := by
  rw [← div_add_rem_eq_ceil_div (m * b) (W * b) (Nat.mul_pos hW hb),
    ← div_add_rem_eq_ceil_div m W hW, Nat.mul_div_mul_right _ _ hb, Nat.mul_mod_mul_right]
  by_cases h : m % W = 0
  · simp [h]
  · have : m % W * b ≠ 0 := Nat.mul_ne_zero h (by omega)
    simp [h, this]

theorem to_int_nat_le (x : Nat) : to_int (x : Int) ≤ 2147483647 := by
  unfold to_int; omega

theorem to_u32_to_int_le (x : Nat) : to_u32 (to_int (x : Int)) ≤ x := by
  unfold to_u32 to_int; omega

/-- `DSPI_FIFO_SIZE` is 4 or 16. -/
theorem DSPI_FIFO_SIZE_ge (env : dspi_env σ) : 4 ≤ DSPI_FIFO_SIZE env := by
  unfold DSPI_FIFO_SIZE; split <;> omega

/-- In any run of `dspi_dma_xfer` started with an empty trace, every chunk is at
most `DSPI_DMA_BUFSIZE(dspi) / DSPI_FIFO_SIZE` words. -/
theorem dspi_dma_xfer_chunk_le (fuel : Nat) (env : dspi_env σ) (d : fsl_dspi σ)
    (htrace : d.dma_chunks = []) :
    ∀ c ∈ (dspi_dma_xfer fuel env d).2.dma_chunks,
      c ≤ DSPI_DMA_BUFSIZE d / DSPI_FIFO_SIZE env := by
  intro c hc
  unfold dspi_dma_xfer at hc
  have h := dspi_dma_xfer_loop_chunks_le env (dma_bytes_per_buffer env d) fuel (to_int d.len) d
    (by rw [htrace]; intro c hc; cases hc) c hc
  exact le_trans h (to_u32_to_int_le _)

/-- What `dspi_dma_xfer` does with a transfer of `m` whole words when every
submission succeeds and the chunk capacity is `W` words. -/
theorem dspi_dma_xfer_words (env : dspi_env σ) (henv : dma_always_succeeds env)
    (d : fsl_dspi σ) (m W : Nat)
    (hlen : d.len = m * d.bytes_per_word) (hb : 1 ≤ d.bytes_per_word)
    (hmax : m * d.bytes_per_word ≤ 2147483647)
    (hW : dma_bytes_per_buffer env d = (W : Int)) (hW1 : 1 ≤ W)
    (hact : d.actual_length < 2 ^ 32) (fuel : Nat) (hfuel : m < fuel) :
    (dspi_dma_xfer fuel env d).1 = some 0 ∧
    (dspi_dma_xfer fuel env d).2.dma_chunks = d.dma_chunks ++ dma_chunk_list W m ∧
    (dspi_dma_xfer fuel env d).2.actual_length =
      (d.actual_length + m * d.bytes_per_word) % 2 ^ 32 := by
  have hWmax : (W : Int) ≤ INT_MAX := by
    rw [← hW]; unfold dma_bytes_per_buffer INT_MAX; exact to_int_nat_le _
  unfold dspi_dma_xfer
  rw [hW, hlen, to_int_of_range _ (by omega) (by omega)]
  obtain ⟨h1, h2, h3, _⟩ := dspi_dma_xfer_loop_chunks env henv W hW1 hWmax fuel m d hb hmax
    hfuel hact
  exact ⟨h1, h2, h3⟩

end dma

set_option maxRecDepth 100000 in
/-- C8, as stated, fails for lengths beyond `INT_MAX`: the length is copied into
the `int` `curr_remaining_bytes`. For a transfer of 3 GiB of one-byte words at a
capacity of 256 words the claim requires 12582912 submissions; the function
makes one, of 256 words, adds 256 to the byte count and returns 0. -/
theorem dspi_dma_xfer_chunking_counterexample :
    0 < (dma_byte_dspi 3221225472).len ∧
    (dma_byte_dspi 3221225472).bytes_per_word ∣ (dma_byte_dspi 3221225472).len ∧
    dma_bytes_per_buffer sim_env (dma_byte_dspi 3221225472) = 256 ∧
    ceil_div 3221225472 (256 * 1) = 12582912 ∧
    (dspi_dma_xfer 10 sim_env (dma_byte_dspi 3221225472)).1 = some 0 ∧
    (dspi_dma_xfer 10 sim_env (dma_byte_dspi 3221225472)).2.dma_chunks = [256] ∧
    (dspi_dma_xfer 10 sim_env (dma_byte_dspi 3221225472)).2.actual_length = 256 := by
  decide


/-- C8 (amended). `dspi_dma_xfer` chunking: for every transfer of `L` bytes with
`L` a positive multiple of `bytes_per_word` and `L <= INT_MAX`, with a per-chunk
capacity of `W >= 1` words (`C = W * bytes_per_word` bytes) and every chunk
submission succeeding, the function returns 0 after exactly `ceil(L / C)` calls
of `dspi_next_xfer_dma_submit`; every chunk but the last has `W` words, no chunk
is empty or longer than `W`, the chunk lengths add up to `L` bytes, and
`message->actual_length` has grown by `L` (modulo 2^32, the width of the field). -/
theorem dspi_dma_xfer_chunking {σ : Type} (env : dspi_env σ) (d : fsl_dspi σ) (L W : Nat)
    (henv : dma_always_succeeds env)
    (hlen : d.len = L) (hLpos : 0 < L) (hdvd : d.bytes_per_word ∣ L)
    (hL : L ≤ 2147483647)
    (hW : dma_bytes_per_buffer env d = (W : Int)) (hW1 : 1 ≤ W)
    (hact : d.actual_length < 2 ^ 32) (fuel : Nat) (hfuel : L < fuel) :
    (dspi_dma_xfer fuel env d).1 = some 0 ∧
    ∃ chunks, (dspi_dma_xfer fuel env d).2.dma_chunks = d.dma_chunks ++ chunks ∧
      chunks = dma_chunk_list W (L / d.bytes_per_word) ∧
      chunks.length = ceil_div L (W * d.bytes_per_word) ∧
      (∀ i, i + 1 < chunks.length → chunks.getD i 0 = W) ∧
      (∀ i, i < chunks.length → 0 < chunks.getD i 0 ∧ chunks.getD i 0 ≤ W) ∧
      chunks.sum * d.bytes_per_word = L ∧
      (dspi_dma_xfer fuel env d).2.actual_length = (d.actual_length + L) % 2 ^ 32 := by
  obtain ⟨m, hm⟩ := hdvd
  have hb : 1 ≤ d.bytes_per_word := by
    rcases Nat.eq_zero_or_pos d.bytes_per_word with h0 | h0
    · rw [h0] at hm; omega
    · exact h0
  have hLm : L = m * d.bytes_per_word := by rw [hm, Nat.mul_comm]
  have hmL : m ≤ L := by rw [hLm]; exact Nat.le_mul_of_pos_right _ hb
  have hdiv : L / d.bytes_per_word = m := by rw [hLm]; exact Nat.mul_div_cancel _ hb
  obtain ⟨h1, h2, h3⟩ := dspi_dma_xfer_words env henv d m W (by rw [hlen, hLm]) hb
    (by rw [← hLm]; exact hL) hW hW1 hact fuel (by omega)
  refine ⟨h1, dma_chunk_list W m, h2, by rw [hdiv], ?_, ?_, ?_, ?_, ?_⟩
  · rw [dma_chunk_list_length W m hW1, hLm, ceil_div_mul_right m W _ hW1 hb]
  · intro i hi
    exact (dma_chunk_list_get W m hW1 i (by omega)).2.2 hi
  · intro i hi
    have := dma_chunk_list_get W m hW1 i hi
    exact ⟨this.2.1, this.1⟩
  · rw [dma_chunk_list_sum, hLm]
  · rw [h3, hLm]

/-- Witness of the amended C8, scenario B of the specification: a capacity of
256 words and a transfer of 300 two-byte words. -/
theorem dspi_dma_xfer_chunking_witness :
    (dspi_dma_xfer 601 sim_env scenario_B_dspi).1 = some 0 ∧
    ∃ chunks, (dspi_dma_xfer 601 sim_env scenario_B_dspi).2.dma_chunks =
        scenario_B_dspi.dma_chunks ++ chunks ∧
      chunks = dma_chunk_list 256 (600 / scenario_B_dspi.bytes_per_word) ∧
      chunks.length = ceil_div 600 (256 * scenario_B_dspi.bytes_per_word) ∧
      (∀ i, i + 1 < chunks.length → chunks.getD i 0 = 256) ∧
      (∀ i, i < chunks.length → 0 < chunks.getD i 0 ∧ chunks.getD i 0 ≤ 256) ∧
      chunks.sum * scenario_B_dspi.bytes_per_word = 600 ∧
      (dspi_dma_xfer 601 sim_env scenario_B_dspi).2.actual_length =
        (scenario_B_dspi.actual_length + 600) % 2 ^ 32 :=
  dspi_dma_xfer_chunking sim_env scenario_B_dspi 600 256 sim_env_dma_always_succeeds
    (by decide) (by decide) (by decide) (by decide) (by decide) (by decide) (by decide)
    601 (by decide)

/-- Scenario B in numbers: exactly 2 submissions, of 256 and 44 words, and a
byte count of `300 * bytes_per_word = 600`. -/
theorem scenario_B_chunks :
    dma_chunk_list 256 (600 / scenario_B_dspi.bytes_per_word) = [256, 44] ∧
    ceil_div 600 (256 * scenario_B_dspi.bytes_per_word) = 2 ∧
    (scenario_B_dspi.actual_length + 600) % 2 ^ 32 = 300 * scenario_B_dspi.bytes_per_word := by
  decide

/-- C9, as stated, fails: with one-byte words and DMA buffers of 1024 bytes the
claim puts the capacity at `1024 / 1 = 1024` words, but a transfer of 1024 words
is cut into four chunks of 256 words: the code divides the buffer size by
`DSPI_FIFO_SIZE`, not by `bytes_per_word`. -/
theorem dspi_dma_xfer_capacity_counterexample :
    DSPI_DMA_BUFSIZE (dma_byte_dspi 1024) / (dma_byte_dspi 1024).bytes_per_word = 1024 ∧
    (dspi_dma_xfer 1025 sim_env (dma_byte_dspi 1024)).1 = some 0 ∧
    (dspi_dma_xfer 1025 sim_env (dma_byte_dspi 1024)).2.dma_chunks = [256, 256, 256, 256] := by
  obtain ⟨h1, h2, _⟩ := dspi_dma_xfer_words sim_env sim_env_dma_always_succeeds
    (dma_byte_dspi 1024) 1024 256 (by decide) (by decide) (by decide) (by decide) (by decide)
    (by decide) 1025 (by decide)
  refine ⟨by decide, h1, ?_⟩
  rw [h2]
  decide

/-- C9 (amended). `dspi_dma_xfer` chunk capacity: for every word width
`bytes_per_word` in `{1, 2, 4}` and every FIFO size with `1 <= fifo_size` and
`fifo_size * 1024 <= INT_MAX`, the largest number of words `dspi_dma_xfer` puts
in one chunk equals the DMA buffer size in bytes (`DSPI_DMA_BUFSIZE =
fifo_size * 1024`) divided by the constant `DSPI_FIFO_SIZE` (4, or 16 under
`CONFIG_M5441x`), whatever the word width: no chunk of any transfer is longer,
and a transfer of that many words is put in one chunk when the submission
succeeds. -/
theorem dspi_dma_xfer_capacity {σ : Type} (env : dspi_env σ) (d : fsl_dspi σ)
    (hbpw : d.bytes_per_word = 1 ∨ d.bytes_per_word = 2 ∨ d.bytes_per_word = 4)
    (hfifo1 : 1 ≤ d.fifo_size) (hfifo : d.fifo_size * 1024 ≤ 2147483647)
    (hact : d.actual_length < 2 ^ 32) :
    (∀ fuel len c, c ∈ (dspi_dma_xfer fuel env { d with len := len, dma_chunks := [] }).2.dma_chunks →
      c ≤ DSPI_DMA_BUFSIZE d / DSPI_FIFO_SIZE env) ∧
    (dma_always_succeeds env → ∀ fuel,
      DSPI_DMA_BUFSIZE d / DSPI_FIFO_SIZE env < fuel →
      (dspi_dma_xfer fuel env
        { d with len := DSPI_DMA_BUFSIZE d / DSPI_FIFO_SIZE env * d.bytes_per_word,
                 dma_chunks := [] }).2.dma_chunks
        = [DSPI_DMA_BUFSIZE d / DSPI_FIFO_SIZE env]) := by
  have hbuf : DSPI_DMA_BUFSIZE d = d.fifo_size * 1024 := by
    unfold DSPI_DMA_BUFSIZE; omega
  have hF := DSPI_FIFO_SIZE_ge env
  have hF16 : DSPI_FIFO_SIZE env ≤ 16 := by unfold DSPI_FIFO_SIZE; split <;> omega
  generalize hWdef : DSPI_DMA_BUFSIZE d / DSPI_FIFO_SIZE env = W
  have hWle : W * 4 ≤ d.fifo_size * 1024 := by
    rw [← hWdef, hbuf]
    calc d.fifo_size * 1024 / DSPI_FIFO_SIZE env * 4
        ≤ d.fifo_size * 1024 / DSPI_FIFO_SIZE env * DSPI_FIFO_SIZE env :=
          Nat.mul_le_mul_left _ hF
      _ ≤ d.fifo_size * 1024 := Nat.div_mul_le_self _ _
  have hW1 : 1 ≤ W := by
    rw [← hWdef, hbuf]
    apply (Nat.le_div_iff_mul_le (by omega)).mpr
    omega
  constructor
  · intro fuel len c hc
    have := dspi_dma_xfer_chunk_le fuel env { d with len := len, dma_chunks := [] } rfl c hc
    rw [← hWdef]
    exact this
  · intro henv fuel hfuel
    have hWb : W * d.bytes_per_word ≤ 2147483647 := by
      rcases hbpw with h | h | h <;> rw [h] <;> omega
    have hB : dma_bytes_per_buffer env
        { d with len := W * d.bytes_per_word, dma_chunks := [] } = (W : Int) := by
      show to_int ((DSPI_DMA_BUFSIZE d / DSPI_FIFO_SIZE env : Nat) : Int) = (W : Int)
      rw [hWdef, to_int_of_range _ (by omega) (by omega)]
    obtain ⟨_, h2, _⟩ := dspi_dma_xfer_words env henv
      { d with len := W * d.bytes_per_word, dma_chunks := [] } W W rfl
      (by show 1 ≤ d.bytes_per_word; rcases hbpw with h | h | h <;> omega)
      hWb hB hW1 hact fuel hfuel
    rw [h2, dma_chunk_list_le W W hW1 (le_refl _)]
    rfl

set_option maxRecDepth 100000 in
/-- Witness of the amended C9: scenario B, two-byte words and buffers of 1024
bytes. The first chunk of the 300-word transfer has 256 words, the capacity,
and a transfer of 256 words goes in one chunk. -/
theorem dspi_dma_xfer_capacity_witness :
    (256 ∈ (dspi_dma_xfer 601 sim_env
        { scenario_B_dspi with len := 600, dma_chunks := [] }).2.dma_chunks ∧
      256 ≤ DSPI_DMA_BUFSIZE scenario_B_dspi / DSPI_FIFO_SIZE sim_env) ∧
    (dspi_dma_xfer 257 sim_env
        { scenario_B_dspi with
          len := DSPI_DMA_BUFSIZE scenario_B_dspi / DSPI_FIFO_SIZE sim_env *
            scenario_B_dspi.bytes_per_word,
          dma_chunks := [] }).2.dma_chunks
      = [DSPI_DMA_BUFSIZE scenario_B_dspi / DSPI_FIFO_SIZE sim_env] :=
  by
  have h := dspi_dma_xfer_capacity sim_env scenario_B_dspi (by decide) (by decide) (by decide)
    (by decide)
  refine ⟨⟨by decide, h.1 601 600 256 (by decide)⟩, ?_⟩
  have h2 := h.2 sim_env_dma_always_succeeds 257 (by decide)
  dsimp only at h2 ⊢
  exact h2

/-- The first loop of `dspi_next_xfer_dma_submit` writes `tx_dma_buf[i]` only for
`i` below the chunk length. -/
theorem dspi_tx_dma_loop_writes {σ : Type} (n : Nat) :
    ∀ (i : Nat) (d : fsl_dspi σ) (k : Nat), (k < i ∨ i + n ≤ k) →
      (dspi_tx_dma_loop n i d).tx_dma_buf k = d.tx_dma_buf k := by
  induction n with
  | zero => intro i d k _; rfl
  | succ n ih =>
    intro i d k hk
    unfold dspi_tx_dma_loop
    rw [ih (i + 1) _ k (by omega)]
    simp only
    rw [if_neg (by omega), dspi_pop_tx_pushr_state]
    rfl

/-- C10. DMA buffer bound: for every transfer length, word width, FIFO size and
DMA engine, every chunk built by `dspi_dma_xfer` has
`curr_xfer_len * 4 <= DSPI_DMA_BUFSIZE(dspi)`: every index `i < curr_xfer_len`
of a 32-bit entry lies inside the `fifo_size * 1024` byte buffers, and the fill
loop of `dspi_next_xfer_dma_submit` writes no entry of `tx_dma_buf` at or beyond
`curr_xfer_len`. -/
theorem dspi_dma_xfer_buffer_bound {σ : Type} (fuel : Nat) (env : dspi_env σ) (d : fsl_dspi σ)
    (c : Nat) (hc : c ∈ (dspi_dma_xfer fuel env { d with dma_chunks := [] }).2.dma_chunks) :
    c * 4 ≤ DSPI_DMA_BUFSIZE d ∧
    (∀ i, i < c → 4 * i + 4 ≤ DSPI_DMA_BUFSIZE d) ∧
    (∀ (d1 : fsl_dspi σ) (k : Nat), c ≤ k →
      (dspi_tx_dma_loop c 0 d1).tx_dma_buf k = d1.tx_dma_buf k) := by
  have h := dspi_dma_xfer_chunk_le fuel env { d with dma_chunks := [] } rfl c hc
  have hF := DSPI_FIFO_SIZE_ge env
  have hbuf : DSPI_DMA_BUFSIZE { d with dma_chunks := [] } = DSPI_DMA_BUFSIZE d := rfl
  rw [hbuf] at h
  have h4 : c * 4 ≤ DSPI_DMA_BUFSIZE d :=
    calc c * 4 ≤ DSPI_DMA_BUFSIZE d / DSPI_FIFO_SIZE env * 4 := Nat.mul_le_mul_right _ h
      _ ≤ DSPI_DMA_BUFSIZE d / DSPI_FIFO_SIZE env * DSPI_FIFO_SIZE env :=
          Nat.mul_le_mul_left _ hF
      _ ≤ DSPI_DMA_BUFSIZE d := Nat.div_mul_le_self _ _
  refine ⟨h4, fun i hi => by omega, fun d1 k hk => ?_⟩
  exact dspi_tx_dma_loop_writes c 0 d1 k (by omega)

set_option maxRecDepth 100000 in
/-- Witness of C10: the second chunk of scenario B, 44 words, in buffers of 1024
bytes. -/
theorem dspi_dma_xfer_buffer_bound_witness :
    44 * 4 ≤ DSPI_DMA_BUFSIZE scenario_B_dspi ∧
    (∀ i, i < 44 → 4 * i + 4 ≤ DSPI_DMA_BUFSIZE scenario_B_dspi) ∧
    (∀ (d1 : fsl_dspi sim_hw) (k : Nat), 44 ≤ k →
      (dspi_tx_dma_loop 44 0 d1).tx_dma_buf k = d1.tx_dma_buf k) :=
  dspi_dma_xfer_buffer_bound 601 sim_env scenario_B_dspi 44 (by decide)


/-! ## Theorems: the transfer orchestrator -/

theorem and_cont_of_lt (x : Nat) (hx : x < 32768) : x &&& 32768 = 0 := by
  have h := Nat.and_two_pow x 15
  rw [Nat.testBit_lt_two_pow (by norm_num; exact hx)] at h
  simpa using h

theorem or_cont_of_lt (x : Nat) (hx : x < 32768) : x ||| 32768 = 32768 + x := by
  have h := Nat.mul_add_lt_is_or (i := 15) (by norm_num; exact hx) 1
  simp only [Nat.mul_one] at h
  rw [Nat.lor_comm]
  norm_num at h ⊢
  exact h.symm

theorem or_cont_and_cont (x : Nat) : (x ||| 32768) &&& 32768 = 32768 := by
  have h := Nat.and_two_pow (x ||| 32768) 15
  have ht : (x ||| 32768).testBit 15 = true := by
    rw [Nat.testBit_or]
    have : (32768 : Nat).testBit 15 = true := by decide
    simp [this]
  rw [ht] at h
  simpa using h

/-- C5, as stated, fails when the chip-select bit lands on bit 15 of the 16-bit
command: with sixteen chip selects (`pcs_mask = 0xffff`) and `chip_select = 15`,
the command of a last transfer with `cs_change` clear is `0x8000`: its
continuation bit is set although the transfer is last and `cs_change` is clear. -/
theorem dspi_transfer_begin_tx_cmd_counterexample :
    (dspi_probe sim_env (sim_hw_init 0) 16 s32_data none false false 0).pcs_mask = 0xffff ∧
    (dspi_transfer_begin (dspi_probe sim_env (sim_hw_init 0) 16 s32_data none false false 0)
      ⟨15, 8, 1000000, 0, none⟩ ⟨0, 0, 0, 0⟩ ⟨0x1000, 0x2000, 4, false, 0⟩ true).tx_cmd = 0x8000 ∧
    (dspi_transfer_begin (dspi_probe sim_env (sim_hw_init 0) 16 s32_data none false false 0)
      ⟨15, 8, 1000000, 0, none⟩ ⟨0, 0, 0, 0⟩ ⟨0x1000, 0x2000, 4, false, 0⟩ true).tx_cmd
        &&& SPI_PUSHR_CMD_CONT ≠ 0 := by
  decide

/-- C5 (amended). `dspi_transfer_one_message`, base command of a transfer: for
every message and every transfer `t` in it (`rest` being the transfers after
it) for which the chip-select bits `BIT(chip_select) & pcs_mask` stay below bit
15 of the command, the continuation bit (`SPI_PUSHR_CMD_CONT`) of the command
`dspi->tx_cmd` prepared for that transfer is set if and only if either the
transfer is the last of the message and `cs_change` is set, or it is not the
last and `cs_change` is clear; and the rest of the command, its chip-select
field, is `BIT(chip_select) & pcs_mask`. -/
theorem dspi_transfer_begin_tx_cmd {σ : Type} (dspi : fsl_dspi σ) (message : spi_message)
    (chip : chip_data) (pre : List spi_transfer) (t : spi_transfer) (rest : List spi_transfer)
    (_hmsg : message.transfers = pre ++ t :: rest)
    (hpcs : SPI_PUSHR_CMD_PCS message.spi.chip_select dspi.pcs_mask < 2 ^ 15) :
    ((dspi_transfer_begin dspi message.spi chip t rest.isEmpty).tx_cmd &&& SPI_PUSHR_CMD_CONT ≠ 0
      ↔ (rest = [] ∧ t.cs_change = true) ∨ (rest ≠ [] ∧ t.cs_change = false)) ∧
    (dspi_transfer_begin dspi message.spi chip t rest.isEmpty).tx_cmd % 2 ^ 15 =
      SPI_PUSHR_CMD_PCS message.spi.chip_select dspi.pcs_mask := by
  have hctas : SPI_PUSHR_CMD_CTAS 0 = 0 := by decide
  have hcont : SPI_PUSHR_CMD_CONT = 32768 := by decide
  have hcmd : (dspi_transfer_begin dspi message.spi chip t rest.isEmpty).tx_cmd =
      if rest.isEmpty then
        (if t.cs_change then
          (0 ||| SPI_PUSHR_CMD_PCS message.spi.chip_select dspi.pcs_mask) % 2 ^ 16 ||| 32768
         else (0 ||| SPI_PUSHR_CMD_PCS message.spi.chip_select dspi.pcs_mask) % 2 ^ 16)
      else
        (if !t.cs_change then
          (0 ||| SPI_PUSHR_CMD_PCS message.spi.chip_select dspi.pcs_mask) % 2 ^ 16 ||| 32768
         else (0 ||| SPI_PUSHR_CMD_PCS message.spi.chip_select dspi.pcs_mask) % 2 ^ 16) := by
    rw [← hctas, ← hcont]
    rfl
  rw [hcmd, hcont, Nat.zero_or]
  generalize SPI_PUSHR_CMD_PCS message.spi.chip_select dspi.pcs_mask = x at hpcs
  norm_num at hpcs
  have hx16 : x % 2 ^ 16 = x := Nat.mod_eq_of_lt (by omega)
  have hx15 : x % 32768 = x := Nat.mod_eq_of_lt hpcs
  have h0 := and_cont_of_lt x hpcs
  have h1 := or_cont_and_cont x
  have h2 := or_cont_of_lt x hpcs
  have h3 : (32768 + x) % 32768 = x := by omega
  rw [hx16]
  rcases rest with _ | ⟨r, rs⟩ <;> rcases hcs : t.cs_change with _ | _ <;>
    simp [h0, h1, hx15] <;> rw [h2] <;> exact h3

/-- Witness of the amended C5: the first of two transfers on chip select 0 of a
controller with four chip selects. -/
theorem dspi_transfer_begin_tx_cmd_witness :
    ((dspi_transfer_begin (poll_dspi 0) (scenario_A_message 2).spi ⟨0, 0, 0, 0⟩
        scenario_A_transfer [scenario_A_transfer].isEmpty).tx_cmd &&& SPI_PUSHR_CMD_CONT ≠ 0
      ↔ ([scenario_A_transfer] = [] ∧ scenario_A_transfer.cs_change = true) ∨
        ([scenario_A_transfer] ≠ [] ∧ scenario_A_transfer.cs_change = false)) ∧
    (dspi_transfer_begin (poll_dspi 0) (scenario_A_message 2).spi ⟨0, 0, 0, 0⟩
        scenario_A_transfer [scenario_A_transfer].isEmpty).tx_cmd % 2 ^ 15 =
      SPI_PUSHR_CMD_PCS (scenario_A_message 2).spi.chip_select (poll_dspi 0).pcs_mask :=
  dspi_transfer_begin_tx_cmd (poll_dspi 0) (scenario_A_message 2) ⟨0, 0, 0, 0⟩ []
    scenario_A_transfer [scenario_A_transfer] (by decide) (by decide)

/-- The loop of `dspi_transfer_one_message` prepares the command of a transfer
with `dspi_transfer_begin`, `is_last` being "no transfer follows". -/
theorem dspi_transfer_loop_cons {σ : Type} (fuel : Nat) (env : dspi_env σ) (spi : spi_device)
    (chip : chip_data) (hchip : spi.ctldata = some chip)
    (t : spi_transfer) (rest : List spi_transfer) (status : Int) (dspi : fsl_dspi σ) :
    dspi_transfer_loop fuel env spi (t :: rest) status dspi =
      and_then (dspi_wait_stopped env fuel
        { dspi_transfer_begin dspi spi chip t rest.isEmpty with
          hw := env.regmap_update_bits (dspi_transfer_begin dspi spi chip t rest.isEmpty).hw
            SPI_MCR SPI_MCR_HALT SPI_MCR_HALT })
        (fun _ d =>
          let d := { d with hw := env.regmap_write d.hw SPI_CTAR0 d.cur_chip.ctar_val }
          let d :=
            if d.cur_chip.mcr_val &&& SPI_MCR_XSPI ≠ 0 then
              { d with hw := env.regmap_write d.hw SPI_CTARE0 d.cur_chip.ctare_val }
            else d
          if d.devtype_data.trans_mode > DSPI_DMA_MODE then (some (-EINVAL), d)
          else
            and_then (dspi_dispatch fuel env status d) (fun status d =>
              and_then (dspi_wait_complete fuel env status d) (fun status d =>
                let d := if status ≠ 0 then { d with err_log := d.err_log ++ [status] } else d
                dspi_transfer_loop fuel env spi rest status d))) := by
  rw [dspi_transfer_loop]
  simp only [hchip]

set_option maxRecDepth 100000 in
/-- C6 fails on the code: a fault does not end the loop over the transfers. On
a controller in poll mode whose hardware shows no completion flag during the
first 1001 status reads, a message of one transfer returns `-ETIMEDOUT`. In a
message of two transfers the first times out in the same way and the fault is
reported (`err_log` holds `-ETIMEDOUT`), yet the second transfer is still
configured (`SPI_CTAR` is written twice) and dispatched (eight frames are
pushed), and the status stored and returned is 0, that of the second. -/
theorem dspi_transfer_one_message_fault_not_propagated :
    (dspi_transfer_one_message 8 sim_env (poll_dspi 1001) (scenario_A_message 1)).1
      = some (-ETIMEDOUT) ∧
    (dspi_transfer_one_message 8 sim_env (poll_dspi 1001) (scenario_A_message 1)).2.hw.ctar_writes
      = 1 ∧
    (dspi_transfer_one_message 8 sim_env (poll_dspi 1001) (scenario_A_message 2)).2.err_log
      = [-ETIMEDOUT] ∧
    (dspi_transfer_one_message 8 sim_env (poll_dspi 1001) (scenario_A_message 2)).1 = some 0 ∧
    (dspi_transfer_one_message 8 sim_env (poll_dspi 1001) (scenario_A_message 2)).2.status = 0 ∧
    (dspi_transfer_one_message 8 sim_env (poll_dspi 1001) (scenario_A_message 2)).2.hw.ctar_writes
      = 2 ∧
    (dspi_transfer_one_message 8 sim_env (poll_dspi 1001)
      (scenario_A_message 2)).2.hw.pushr_writes.length = 8 := by
  decide

set_option maxRecDepth 100000 in
/-- C7 fails on the code, at scenario A itself: the device is set up by
`dspi_setup` for 8-bit words at 1 MHz on a 50 MHz clock, the message has one
transfer of 4 bytes, the controller is in poll mode. The message completes with
status 0 and the hardware counts 4 frames, but `actual_length` stays 0: the
count is multiplied by `dspi->bytes_per_word`, which no function of the driver
assigns and which is 0 since the probe. With a `bytes_per_word` of 1 the same
run gives 4. -/
theorem scenario_A_actual_length :
    dspi_setup (poll_dspi 0) scenario_A_spi 0 0 50000000 true
      = some (0, some ⟨2148469760, 939720707, 0, 0⟩) ∧
    (poll_dspi 0).bytes_per_word = 0 ∧
    (dspi_transfer_one_message 8 sim_env (poll_dspi 0) (scenario_A_message 1)).1 = some 0 ∧
    (dspi_transfer_one_message 8 sim_env (poll_dspi 0) (scenario_A_message 1)).2.status = 0 ∧
    (dspi_transfer_one_message 8 sim_env (poll_dspi 0) (scenario_A_message 1)).2.hw.tcnt = 4 ∧
    (dspi_transfer_one_message 8 sim_env (poll_dspi 0)
      (scenario_A_message 1)).2.actual_length = 0 ∧
    (dspi_transfer_one_message 8 sim_env { poll_dspi 0 with bytes_per_word := 1 }
      (scenario_A_message 1)).2.actual_length = 4 := by
  decide



/-! ## Theorems: the completion poll -/

section poll
variable {σ : Type}

theorem reads_of_append (reg : Nat) (l1 l2 : List reg_access) :
    reads_of reg (l1 ++ l2) = reads_of reg l1 ++ reads_of reg l2 := by
  simp [reads_of, List.filterMap_append]

theorem reads_of_sr_round_flatMap (vals : List Nat) :
    reads_of SPI_SR (vals.flatMap sr_round) = vals := by
  induction vals with
  | nil => rfl
  | cons v vs ih =>
    rw [List.flatMap_cons, reads_of_append, ih]
    simp [sr_round, reads_of]

/-- The loop of `dspi_poll` entered with `n` tries: it makes at most `n` rounds,
each a read of the status register and the write-back of the value read; it
leaves with `tries = 0` exactly when `n` rounds saw no flag, and otherwise at
the first value with a flag. -/
theorem dspi_poll_loop_rounds (env : dspi_env σ) :
    ∀ (n : Nat) (d : fsl_dspi (σ × List reg_access)),
      ∃ vals : List Nat,
        (dspi_poll_loop (traced env) n d).2.hw.2 = d.hw.2 ++ vals.flatMap sr_round ∧
        vals.length ≤ n ∧
        (((dspi_poll_loop (traced env) n d).1 = 0 ∧ vals.length = n ∧
            ∀ v ∈ vals, ¬ sr_flag v) ∨
         ((dspi_poll_loop (traced env) n d).1 ≠ 0 ∧
            ∃ pre v, vals = pre ++ [v] ∧ (∀ u ∈ pre, ¬ sr_flag u) ∧ sr_flag v)) := by
  intro n
  induction n with
  | zero =>
    intro d
    exact ⟨[], by simp [dspi_poll_loop], by simp, Or.inl ⟨rfl, rfl, by simp⟩⟩
  | succ n ih =>
    intro d
    obtain ⟨v, hv⟩ : ∃ v, (env.regmap_read d.hw.1 SPI_SR).1 = v := ⟨_, rfl⟩
    by_cases hf : sr_flag v
    · refine ⟨[v], ?_, by simp, Or.inr ⟨?_, [], v, rfl, by simp, hf⟩⟩
      · rw [dspi_poll_loop]
        have : ((traced env).regmap_read d.hw SPI_SR).1 = v := hv
        simp only [this, sr_flag] at hf ⊢
        rw [if_pos hf]
        simp [traced, sr_round, hv]
      · rw [dspi_poll_loop]
        have : ((traced env).regmap_read d.hw SPI_SR).1 = v := hv
        simp only [this, sr_flag] at hf ⊢
        rw [if_pos hf]
        simp
    · have hf2 : ¬ (v &&& (SPI_SR_EOQF ||| SPI_SR_TCFQF) ≠ 0) := hf
      have hv2 : ((traced env).regmap_read d.hw SPI_SR).1 = v := hv
      have hstep : ∃ d1 : fsl_dspi (σ × List reg_access),
          d1.hw.2 = d.hw.2 ++ sr_round v ∧
          dspi_poll_loop (traced env) (n + 1) d = dspi_poll_loop (traced env) n d1 := by
        refine ⟨?w, ?a, ?b⟩
        case b =>
          rw [dspi_poll_loop]
          simp only [hv2]
          rw [if_neg hf2]
          exact rfl
        case a => simp [traced, sr_round, hv]
      obtain ⟨d1, hlog, hstep⟩ := hstep
      obtain ⟨vals, h1, h2, h3⟩ := ih d1
      refine ⟨v :: vals, ?_, by simp; omega, ?_⟩
      · rw [hstep, h1, hlog, List.flatMap_cons, List.append_assoc]
      · rw [hstep]
        rcases h3 with ⟨ha, hb, hc⟩ | ⟨ha, pre, u, hb, hc, he⟩
        · refine Or.inl ⟨ha, by simp [hb], ?_⟩
          intro x hx
          rcases List.mem_cons.mp hx with rfl | hx
          · exact hf
          · exact hc x hx
        · refine Or.inr ⟨ha, v :: pre, u, by simp [hb], ?_, he⟩
          intro x hx
          rcases List.mem_cons.mp hx with rfl | hx
          · exact hf
          · exact hc x hx

end poll

section poll_frame
variable {σ : Type}

theorem reads_of_sr_read (l : List reg_access) (reg v : Nat) (h : reg ≠ SPI_SR) :
    reads_of SPI_SR (l ++ [.read reg v]) = reads_of SPI_SR l := by
  simp [reads_of, List.filterMap_append, h]

theorem reads_of_sr_write (l : List reg_access) (reg v : Nat) :
    reads_of SPI_SR (l ++ [.write reg v]) = reads_of SPI_SR l := by
  simp [reads_of, List.filterMap_append]

theorem reads_of_sr_pushr_write (l : List reg_access) (off v : Nat) :
    reads_of SPI_SR (l ++ [.pushr_write off v]) = reads_of SPI_SR l := by
  simp [reads_of, List.filterMap_append]

theorem reads_of_sr_writew (l : List reg_access) (off v : Nat) :
    reads_of SPI_SR (l ++ [.writew off v]) = reads_of SPI_SR l := by
  simp [reads_of, List.filterMap_append]

theorem get_frame_mode_reads_sr (env : dspi_env σ) (d : fsl_dspi (σ × List reg_access)) :
    reads_of SPI_SR (get_frame_mode (traced env) d).2.hw.2 = reads_of SPI_SR d.hw.2 := by
  have h1 : SPI_MCR ≠ SPI_SR := by decide
  have h2 : SPI_CTARE0 ≠ SPI_SR := by decide
  have h3 : SPI_CTAR0 ≠ SPI_SR := by decide
  unfold get_frame_mode
  simp only [traced]
  split_ifs <;> simp [reads_of, List.filterMap_append, h1, h2, h3]

theorem dspi_data_from_popr_reads_sr (env : dspi_env σ) (d : fsl_dspi (σ × List reg_access))
    (fm : frame_mode) :
    reads_of SPI_SR (dspi_data_from_popr (traced env) d fm).hw.2 = reads_of SPI_SR d.hw.2 := by
  have h1 : SPI_POPR ≠ SPI_SR := by decide
  simp [dspi_data_from_popr, traced, reads_of, List.filterMap_append, h1]

theorem dspi_eoq_read_loop_reads_sr (env : dspi_env σ) (fm : frame_mode) :
    ∀ (n c : Nat) (d : fsl_dspi (σ × List reg_access)),
      reads_of SPI_SR (dspi_eoq_read_loop (traced env) fm n c d).2.hw.2 =
        reads_of SPI_SR d.hw.2 := by
  intro n
  induction n with
  | zero => intro c d; rfl
  | succ n ih =>
    intro c d
    rw [dspi_eoq_read_loop]
    split
    · rw [ih, dspi_data_from_popr_reads_sr]
    · rfl

theorem dspi_eoq_read_reads_sr (env : dspi_env σ) (d : fsl_dspi (σ × List reg_access)) :
    reads_of SPI_SR (dspi_eoq_read (traced env) d).2.hw.2 = reads_of SPI_SR d.hw.2 := by
  unfold dspi_eoq_read
  simp only []
  rw [dspi_eoq_read_loop_reads_sr, get_frame_mode_reads_sr]

theorem dspi_data_to_pushr_hw (d : fsl_dspi σ) (tw : Nat) :
    (dspi_data_to_pushr d tw).2.hw = d.hw := rfl

theorem dspi_eoq_write_loop_succ (env : dspi_env σ) (fm : frame_mode) (e cmd fuel : Nat)
    (first : Bool) (used count : Nat) (d : fsl_dspi σ) :
    dspi_eoq_write_loop env fm e cmd (fuel + 1) first used count d =
      if d.len ≠ 0 ∧ to_ulong ((d.fifo_size : Int) - used) ≥ e then
        dspi_eoq_write_loop env fm e cmd fuel false
          (dspi_eoq_write_body env fm e cmd first used count d).1
          (dspi_eoq_write_body env fm e cmd first used count d).2.1
          (dspi_eoq_write_body env fm e cmd first used count d).2.2
      else (some (), d) := rfl

theorem dspi_eoq_write_body_reads_sr (env : dspi_env σ) (fm : frame_mode) (e cmd : Nat)
    (first : Bool) (used count : Nat) (d : fsl_dspi (σ × List reg_access)) :
    reads_of SPI_SR (dspi_eoq_write_body (traced env) fm e cmd first used count d).2.2.hw.2 =
      reads_of SPI_SR d.hw.2 := by
  unfold dspi_eoq_write_body
  cases fm <;> simp [traced, dspi_data_to_pushr, reads_of, List.filterMap_append] <;>
    split_ifs <;> simp

theorem dspi_eoq_write_loop_reads_sr (env : dspi_env σ) (fm : frame_mode) (e cmd : Nat) :
    ∀ (fuel : Nat) (first : Bool) (used count : Nat) (d : fsl_dspi (σ × List reg_access)),
      reads_of SPI_SR (dspi_eoq_write_loop (traced env) fm e cmd fuel first used count d).2.hw.2 =
        reads_of SPI_SR d.hw.2 := by
  intro fuel
  induction fuel with
  | zero => intro first used count d; rfl
  | succ fuel ih =>
    intro first used count d
    rw [dspi_eoq_write_loop_succ]
    split
    · rw [ih, dspi_eoq_write_body_reads_sr]
    · rfl

theorem dspi_eoq_write_reads_sr (env : dspi_env σ) (fuel : Nat)
    (d : fsl_dspi (σ × List reg_access)) :
    reads_of SPI_SR (dspi_eoq_write fuel (traced env) d).2.hw.2 = reads_of SPI_SR d.hw.2 := by
  unfold dspi_eoq_write and_then
  simp only []
  split
  · simp only []
    rw [dspi_eoq_write_loop_reads_sr, get_frame_mode_reads_sr]
  · simp only []
    rw [dspi_eoq_write_loop_reads_sr, get_frame_mode_reads_sr]

theorem dspi_tcfq_read_reads_sr (env : dspi_env σ) (d : fsl_dspi (σ × List reg_access)) :
    reads_of SPI_SR (dspi_tcfq_read (traced env) d).hw.2 = reads_of SPI_SR d.hw.2 := by
  have h1 : SPI_POPR ≠ SPI_SR := by decide
  unfold dspi_tcfq_read fifo_read dspi_push_rx
  simp only [traced]
  split <;> simp [reads_of, List.filterMap_append, h1]

theorem dspi_tcfq_write_reads_sr (env : dspi_env σ) (d : fsl_dspi (σ × List reg_access)) :
    reads_of SPI_SR (dspi_tcfq_write (traced env) d).hw.2 = reads_of SPI_SR d.hw.2 := by
  unfold dspi_tcfq_write
  simp only []
  split
  · simp [tx_fifo_write, cmd_fifo_write, dspi_pop_tx, traced, reads_of, List.filterMap_append]
  · simp only [fifo_write, dspi_pop_tx_pushr, dspi_pop_tx, traced]
    split <;> simp [reads_of, List.filterMap_append]

/-- Nothing in `dspi_rxtx` reads the status register. -/
theorem dspi_rxtx_reads_sr (env : dspi_env σ) (fuel : Nat) (d : fsl_dspi (σ × List reg_access)) :
    reads_of SPI_SR (dspi_rxtx fuel (traced env) d).2.hw.2 = reads_of SPI_SR d.hw.2 := by
  have h1 : SPI_TCR ≠ SPI_SR := by decide
  obtain ⟨d1, hd1⟩ : ∃ d1 : fsl_dspi (σ × List reg_access),
      d1 = { d with
        hw := ((traced env).regmap_read d.hw SPI_TCR).2,
        actual_length := to_u32 ((d.actual_length : Int) +
          to_u16 (SPI_TCR_GET_TCNT ((traced env).regmap_read d.hw SPI_TCR).1) *
            d.bytes_per_word) } := ⟨_, rfl⟩
  have e1 : reads_of SPI_SR d1.hw.2 = reads_of SPI_SR d.hw.2 := by
    rw [hd1]; simp [traced, reads_of, List.filterMap_append, h1]
  unfold dspi_rxtx
  simp only [← hd1]
  rw [← e1]
  generalize d1 = d1
  split_ifs <;> simp only [and_then] <;>
    first
    | rw [dspi_eoq_read_reads_sr]
    | rw [dspi_tcfq_read_reads_sr]
    | rfl
    | (split <;> simp only [] <;> rw [dspi_eoq_write_reads_sr, dspi_eoq_read_reads_sr])
    | (rw [dspi_tcfq_write_reads_sr, dspi_tcfq_read_reads_sr])

theorem dspi_rxtx_ne_etimedout (env : dspi_env σ) (fuel : Nat) (d : fsl_dspi σ) :
    (dspi_rxtx fuel env d).1 ≠ some (-ETIMEDOUT) := by
  unfold dspi_rxtx
  simp only []
  split_ifs <;> simp only [and_then] <;>
    first
    | decide
    | (split <;> simp; decide)

/-- C18: one call of `dspi_poll` makes at most 1000 rounds, each a read of the
status register with the value read written straight back, and reads the status
register nowhere else (the list `vals` of the values read has at most 1000
entries and is all the call reads from `SPI_SR`). It returns `-ETIMEDOUT`
exactly when 1000 values were read and none has `EOQF` or `TCFQF`; the state is
then the one the loop left, so `dspi_rxtx` was not called. Otherwise the last
value read is the first with one of the flags and the call is `dspi_rxtx` run on
the state the loop left. -/
theorem dspi_poll_retry_budget (env : dspi_env σ) (fuel : Nat)
    (d : fsl_dspi (σ × List reg_access)) :
    ∃ vals : List Nat,
      (dspi_poll_loop (traced env) 1000 d).2.hw.2 = d.hw.2 ++ vals.flatMap sr_round ∧
      reads_of SPI_SR (dspi_poll fuel (traced env) d).2.hw.2 = reads_of SPI_SR d.hw.2 ++ vals ∧
      vals.length ≤ 1000 ∧
      ((dspi_poll fuel (traced env) d).1 = some (-ETIMEDOUT) ↔
        (vals.length = 1000 ∧ ∀ v ∈ vals, ¬ sr_flag v)) ∧
      (((vals.length = 1000 ∧ ∀ v ∈ vals, ¬ sr_flag v) ∧
          dspi_poll fuel (traced env) d =
            (some (-ETIMEDOUT), (dspi_poll_loop (traced env) 1000 d).2)) ∨
       ((∃ pre v, vals = pre ++ [v] ∧ (∀ u ∈ pre, ¬ sr_flag u) ∧ sr_flag v) ∧
          dspi_poll fuel (traced env) d =
            dspi_rxtx fuel (traced env) (dspi_poll_loop (traced env) 1000 d).2)) := by
  obtain ⟨vals, h1, h2, h3⟩ := dspi_poll_loop_rounds env 1000 d
  refine ⟨vals, h1, ?_, h2, ?_⟩
  · rcases h3 with ⟨ha, _, _⟩ | ⟨ha, _⟩
    · unfold dspi_poll
      simp only [ha, if_true]
      rw [h1, reads_of_append, reads_of_sr_round_flatMap]
    · unfold dspi_poll
      simp only [ha, if_false]
      rw [dspi_rxtx_reads_sr, h1, reads_of_append, reads_of_sr_round_flatMap]
  · rcases h3 with ⟨ha, hb, hc⟩ | ⟨ha, pre, v, hb, hc, he⟩
    · have hp : dspi_poll fuel (traced env) d =
          (some (-ETIMEDOUT), (dspi_poll_loop (traced env) 1000 d).2) := by
        unfold dspi_poll
        simp only [ha, if_true]
      exact ⟨by rw [hp]; simp [hb, hc]; exact hc, Or.inl ⟨⟨hb, hc⟩, hp⟩⟩
    · have hp : dspi_poll fuel (traced env) d =
          dspi_rxtx fuel (traced env) (dspi_poll_loop (traced env) 1000 d).2 := by
        unfold dspi_poll
        simp only [ha, if_false]
      refine ⟨?_, Or.inr ⟨⟨pre, v, hb, hc, he⟩, hp⟩⟩
      constructor
      · intro h
        rw [hp] at h
        exact absurd h (dspi_rxtx_ne_etimedout _ _ _)
      · rintro ⟨_, hall⟩
        exact absurd he (hall v (by rw [hb]; simp))

end poll_frame

/-! ## Theorems: the transfer-count write -/

section tcfq
variable {σ : Type}

theorem read_u8_lt (mem : Nat → Nat) (p : Nat) : read_u8 mem p < 256 := by
  unfold read_u8; omega

theorem read_u16_lt (mem : Nat → Nat) (p : Nat) : read_u16 mem p < 65536 := by
  have h1 := read_u8_lt mem p
  have h2 := read_u8_lt mem (p + 1)
  unfold read_u16; omega

theorem read_u32_lt (mem : Nat → Nat) (p : Nat) : read_u32 mem p < 2 ^ 32 := by
  have h1 := read_u16_lt mem p
  have h2 := read_u16_lt mem (p + 2)
  unfold read_u32; omega

/-- The word `dspi_pop_tx` returns fits 32 bits. -/
theorem dspi_pop_tx_lt (d : fsl_dspi σ) : (dspi_pop_tx d).1 < 2 ^ 32 := by
  have h1 := read_u8_lt d.mem d.tx
  have h2 := read_u16_lt d.mem d.tx
  have h3 := read_u32_lt d.mem d.tx
  unfold dspi_pop_tx
  simp only
  split_ifs <;> omega

theorem to_u16_nat (n : Nat) : to_u16 (n : Int) = n % 2 ^ 16 := by
  unfold to_u16; omega

/-- A bit that is OR-ed in is set. -/
theorem or_two_pow_and_two_pow (x k : Nat) : (x ||| 2 ^ k) &&& 2 ^ k ≠ 0 := by
  have h := Nat.and_two_pow (x ||| 2 ^ k) k
  have ht : (x ||| 2 ^ k).testBit k = true := by
    rw [Nat.testBit_or, Nat.testBit_two_pow_self]
    simp
  rw [ht] at h
  rw [h]
  simp

/-- C19, as stated, fails on a controller in the slave role outside the XSPI
path: `dspi_pop_tx_pushr` then returns the data alone, so the single write to
`SPI_PUSHR` carries the byte `0xab` and no command (no counter-clear bit, no
continuation bit although a byte remains), where the same state in the master
role writes `command << 16 | data`. -/
theorem dspi_tcfq_write_one_frame_counterexample :
    (dspi_tcfq_write (traced sim_env) (tcfq_dspi true)).hw.2 = [.write SPI_PUSHR 0xab] ∧
    (0xab : Nat) ≠ (((1 ||| SPI_PUSHR_CMD_CTCNT ||| SPI_PUSHR_CMD_CONT) <<< 16) ||| 0xab) ∧
    (0xab : Nat) &&& SPI_PUSHR_CTCNT = 0 ∧
    (dspi_tcfq_write (traced sim_env) (tcfq_dspi true)).len = 1 ∧
    (dspi_tcfq_write (traced sim_env) (tcfq_dspi false)).hw.2 =
      [.write SPI_PUSHR (((1 ||| SPI_PUSHR_CMD_CTCNT ||| SPI_PUSHR_CMD_CONT) <<< 16) ||| 0xab)] := by
  decide

/-- C19 (amended). `dspi_tcfq_write` pushes one frame per call: for every state
with at least one word remaining, one call consumes exactly one word (`len`
decreases by `bytes_per_word`; the transmit cursor, when present, advances by
`bytes_per_word`); the command `cmd` it uses is the base command with the
counter-clear bit set, and with the continuation bit set when bytes remain
after the word. When the device type is in XSPI mode and `bits_per_word > 16`
the call writes the command entry first and then two data entries, the low 16
bits of the word followed by its high 16 bits. Otherwise it makes a single
write to `SPI_PUSHR`: of `cmd << 16 | data` on a controller in the master role,
of the data alone on a controller in the slave role. -/
theorem dspi_tcfq_write_one_frame (env : dspi_env σ) (d : fsl_dspi (σ × List reg_access))
    (hword : d.bytes_per_word ≤ d.len) (hlen : d.len < 2 ^ 64) :
    (dspi_tcfq_write (traced env) d).len = d.len - d.bytes_per_word ∧
    (dspi_tcfq_write (traced env) d).tx =
      (if d.tx ≠ 0 then d.tx + d.bytes_per_word else d.tx) ∧
    ∃ cmd word,
      word = (dspi_pop_tx d).1 ∧
      cmd = (if d.len - d.bytes_per_word > 0
              then d.tx_cmd ||| SPI_PUSHR_CMD_CTCNT ||| SPI_PUSHR_CMD_CONT
              else d.tx_cmd ||| SPI_PUSHR_CMD_CTCNT) ∧
      cmd &&& SPI_PUSHR_CMD_CTCNT ≠ 0 ∧
      (d.len - d.bytes_per_word > 0 → cmd &&& SPI_PUSHR_CMD_CONT ≠ 0) ∧
      (dspi_tcfq_write (traced env) d).hw.2 = d.hw.2 ++
        (if d.devtype_data.xspi_mode = true ∧ d.bits_per_word > 16 then
          [.pushr_write PUSHR_CMD cmd, .pushr_write PUSHR_TX (word % 2 ^ 16),
            .pushr_write PUSHR_TX (word / 2 ^ 16)]
        else if d.slave = true then [.write SPI_PUSHR (word % 2 ^ 16)]
        else [.write SPI_PUSHR (((cmd <<< 16) ||| word % 2 ^ 16) % 2 ^ 32)]) := by
  have hl : to_ulong ((d.len : Int) - d.bytes_per_word) = d.len - d.bytes_per_word := by
    unfold to_ulong; omega
  have hw32 := dspi_pop_tx_lt d
  have hct : ∀ x, (x ||| SPI_PUSHR_CMD_CTCNT) &&& SPI_PUSHR_CMD_CTCNT ≠ 0 :=
    fun x => or_two_pow_and_two_pow x 10
  have hcc : ∀ x, (x ||| SPI_PUSHR_CMD_CONT) &&& SPI_PUSHR_CMD_CONT ≠ 0 :=
    fun x => or_two_pow_and_two_pow x 15
  have hct2 : ∀ x, (x ||| SPI_PUSHR_CMD_CTCNT ||| SPI_PUSHR_CMD_CONT) &&& SPI_PUSHR_CMD_CTCNT
      ≠ 0 := by
    intro x
    rw [Nat.lor_assoc, Nat.lor_comm SPI_PUSHR_CMD_CTCNT, ← Nat.lor_assoc]
    exact hct _
  refine ⟨?_, ?_, _, _, rfl, rfl, ?_, ?_, ?_⟩
  · unfold dspi_tcfq_write
    simp only
    split
    · simp [tx_fifo_write, cmd_fifo_write, dspi_pop_tx, hl]
    · simp only [fifo_write, dspi_pop_tx_pushr, dspi_pop_tx]
      split <;> simp [hl]
  · unfold dspi_tcfq_write
    simp only
    split
    · simp [tx_fifo_write, cmd_fifo_write, dspi_pop_tx]
    · simp only [fifo_write, dspi_pop_tx_pushr, dspi_pop_tx]
      split <;> simp
  · split
    · exact hct2 _
    · exact hct _
  · intro h
    rw [if_pos h]
    exact hcc _
  · obtain ⟨r, hr⟩ : ∃ r, r = dspi_pop_tx { d with tx_cmd := d.tx_cmd ||| SPI_PUSHR_CMD_CTCNT } :=
      ⟨_, rfl⟩
    have e3 : r.1 = (dspi_pop_tx d).1 := by rw [hr]; rfl
    have e4 : r.2.len = d.len - d.bytes_per_word := by rw [hr]; exact hl
    have e5 : r.2.tx_cmd = d.tx_cmd ||| SPI_PUSHR_CMD_CTCNT := by rw [hr]; rfl
    have e6 : r.2.hw = d.hw := by rw [hr]; rfl
    have e7 : r.2.slave = d.slave := by rw [hr]; rfl
    have e1 : ((dspi_pop_tx d).1 &&& 0xFFFF) % 2 ^ 16 = (dspi_pop_tx d).1 % 2 ^ 16 := by
      have := Nat.and_pow_two_sub_one_eq_mod (dspi_pop_tx d).1 16
      norm_num at this ⊢
      rw [this]
      omega
    have e2 : ((dspi_pop_tx d).1 >>> 16) % 2 ^ 16 = (dspi_pop_tx d).1 / 2 ^ 16 := by
      rw [Nat.shiftRight_eq_div_pow]
      omega
    by_cases hx : d.devtype_data.xspi_mode = true ∧ d.bits_per_word > 16
    · rw [if_pos hx]
      unfold dspi_tcfq_write
      simp only
      rw [if_pos hx, ← hr]
      simp only [tx_fifo_write, cmd_fifo_write, traced, e1, e2, e3, e4, e5, e6]
      split <;> simp
    · rw [if_neg hx]
      unfold dspi_tcfq_write
      simp only
      rw [if_neg hx]
      simp only [fifo_write, dspi_pop_tx_pushr, ← hr]
      simp only [traced, e3, e4, e5, e6, e7, to_u16_nat]
      by_cases hs : d.slave = true
      · simp [hs, e6]
      · simp only [hs, if_false]
        split <;> simp [e6]

/-- C19 (amended) on a master in transfer-count mode with one-byte words and two
bytes pending. -/
theorem dspi_tcfq_write_one_frame_witness :
    (tcfq_dspi false).bytes_per_word ≤ (tcfq_dspi false).len ∧
    (tcfq_dspi false).len < 2 ^ 64 ∧
    (dspi_tcfq_write (traced sim_env) (tcfq_dspi false)).len =
      (tcfq_dspi false).len - (tcfq_dspi false).bytes_per_word :=
  ⟨by decide, by decide,
    (dspi_tcfq_write_one_frame sim_env (tcfq_dspi false) (by decide) (by decide)).1⟩

end tcfq

/-! ## Theorems: the delay search as coded -/

/-- For a non-negative delay whose required scale fits an `int`, the
`scale_needed` of `ns_delay_scale` is the ceiling of
`delay_ns * clkrate / NSEC_PER_SEC`. -/
theorem delay_scale_needed_eq_of_fit (delay_ns : Int) (clkrate : Nat) (hpos : 0 ≤ delay_ns)
    (hneed : (ceil_div (delay_ns.toNat * clkrate) NSEC_PER_SEC : Int) ≤ INT_MAX) :
    delay_scale_needed delay_ns clkrate =
      (ceil_div (delay_ns.toNat * clkrate) NSEC_PER_SEC : Int) := by
  have hc := div_add_rem_eq_ceil_div (delay_ns.toNat * clkrate) NSEC_PER_SEC (by decide)
  unfold INT_MAX at hneed
  have hprod : (to_ulong delay_ns * clkrate) % 2 ^ 64 = delay_ns.toNat * clkrate := by
    rcases Nat.eq_zero_or_pos clkrate with h0 | h1
    · simp [h0]
    · have hle : delay_ns.toNat ≤ delay_ns.toNat * clkrate := Nat.le_mul_of_pos_right _ h1
      have hX : delay_ns.toNat * clkrate < 2 ^ 64 := by
        unfold NSEC_PER_SEC at hc hneed
        generalize delay_ns.toNat * clkrate = X at hc hneed
        generalize ceil_div X 1000000000 = n at hc hneed
        split at hc <;> omega
      rw [to_ulong_of_range _ hpos (by omega)]
      exact Nat.mod_eq_of_lt hX
  unfold delay_scale_needed
  simp only [hprod]
  unfold NSEC_PER_SEC at hc hneed ⊢
  generalize delay_ns.toNat * clkrate = X at hc hneed ⊢
  generalize ceil_div X 1000000000 = n at hc hneed ⊢
  by_cases hr : X % 1000000000 = 0
  · simp only [hr, ne_eq, not_true_eq_false, if_false] at hc ⊢
    rw [to_int_of_range _ (by omega) (by omega)]
    omega
  · simp only [hr, ne_eq, not_false_eq_true, if_true] at hc ⊢
    rw [to_int_of_range (X / 1000000000 : Nat) (by omega) (by omega)]
    rw [to_int_of_range _ (by omega) (by omega)]
    omega

/-- The indices `ns_delay_scale` returns are table indices, whatever the
arguments. -/
theorem ns_delay_scale_range (psc sc : Nat) (delay_ns : Int) (clkrate : Nat) :
    (ns_delay_scale psc sc delay_ns clkrate).1 < 4 ∧
    (ns_delay_scale psc sc delay_ns clkrate).2 < 16 := by
  unfold ns_delay_scale
  simp only
  rcases delay_search_inv (delay_scale_needed delay_ns clkrate) psc sc with
    ⟨hacc, _⟩ | ⟨ho, hi, _, _, _⟩
  · rw [hacc]; simp
  · split
    · simp
    · exact ⟨(mem_idx4 _).mp ho, (mem_idx16 _).mp hi⟩

/-- A requirement above every table product that fits an `int` gives the
fallback indices. -/
theorem ns_delay_scale_unreachable (psc sc : Nat) (delay_ns : Int) (clkrate : Nat)
    (need : Int) (hn : delay_scale_needed delay_ns clkrate = need)
    (hneed : 7 * 2 ^ 16 < need) :
    ns_delay_scale psc sc delay_ns clkrate = (3, 15) := by
  have hbound : ∀ i ∈ idx4, ∀ j ∈ idx16, delay_scale i j ≤ 458752 := by decide
  unfold ns_delay_scale
  rw [hn]
  simp only
  rcases delay_search_inv need psc sc with ⟨hacc, _⟩ | ⟨ho, hi, hm, hge, _⟩
  · rw [hacc]; simp
  · have := hbound _ ho _ hi
    omega

/-- C20, as stated, fails where the required scale does not fit the `int`
`scale_needed`: for a delay of `2^31 - 1` ns on a 2 GHz clock the requirement is
`2^32 - 2 > 7 * 2^16`, the `int` holds `-2`, every table product passes and the
function returns `psc = 0`, `sc = 0` instead of `psc = 3`, `sc = 15`. -/
theorem ns_delay_scale_as_coded_counterexample :
    (0 : Int) ≤ 2147483647 ∧
    7 * 2 ^ 16 < ceil_div ((2147483647 : Int).toNat * 2000000000) NSEC_PER_SEC ∧
    delay_scale_needed 2147483647 2000000000 = -2 ∧
    ns_delay_scale 0 0 2147483647 2000000000 = (0, 0) ∧
    ns_delay_scale 0 0 2147483647 2000000000 ≠ (3, 15) := by
  decide

/-- C20 (amended). `ns_delay_scale` as coded: for every `delay_ns >= 0` and
`clkrate`, with `need = ceil(delay_ns * clkrate / 10^9)`: if `need <= 7 * 2^16`
the returned `(psc, sc)` satisfy `{1, 3, 5, 7}[psc] * 2^(sc+1) >= need` and no
pair `(i, j)` with `i` in `0 .. 3`, `j` in `0 .. 15` gives a product `>= need`
that is smaller; if `need > 7 * 2^16` and `need` fits an `int`
(`need <= INT_MAX`) the result is `psc = 3`, `sc = 15`. In every case
`0 <= psc <= 3` and `0 <= sc <= 15`, and a zero delay yields `psc = 0`,
`sc = 0`. -/
theorem ns_delay_scale_as_coded (psc sc : Nat) (delay_ns : Int) (clkrate : Nat)
    (hpos : 0 ≤ delay_ns) :
    (ceil_div (delay_ns.toNat * clkrate) NSEC_PER_SEC ≤ 7 * 2 ^ 16 →
      (ceil_div (delay_ns.toNat * clkrate) NSEC_PER_SEC : Int) ≤
        pscale_tbl.getD (ns_delay_scale psc sc delay_ns clkrate).1 0 *
          2 ^ ((ns_delay_scale psc sc delay_ns clkrate).2 + 1) ∧
      ∀ i j, i < 4 → j < 16 →
        (ceil_div (delay_ns.toNat * clkrate) NSEC_PER_SEC : Int) ≤
          pscale_tbl.getD i 0 * 2 ^ (j + 1) →
        pscale_tbl.getD (ns_delay_scale psc sc delay_ns clkrate).1 0 *
          2 ^ ((ns_delay_scale psc sc delay_ns clkrate).2 + 1) ≤
          pscale_tbl.getD i 0 * 2 ^ (j + 1)) ∧
    (7 * 2 ^ 16 < ceil_div (delay_ns.toNat * clkrate) NSEC_PER_SEC →
      (ceil_div (delay_ns.toNat * clkrate) NSEC_PER_SEC : Int) ≤ INT_MAX →
      ns_delay_scale psc sc delay_ns clkrate = (3, 15)) ∧
    (ns_delay_scale psc sc delay_ns clkrate).1 < 4 ∧
    (ns_delay_scale psc sc delay_ns clkrate).2 < 16 ∧
    (delay_ns = 0 → ns_delay_scale psc sc delay_ns clkrate = (0, 0)) := by
  refine ⟨?_, ?_, (ns_delay_scale_range psc sc delay_ns clkrate).1,
    (ns_delay_scale_range psc sc delay_ns clkrate).2, ?_⟩
  · intro hneed
    have hn := delay_scale_needed_eq delay_ns clkrate hpos hneed
    obtain ⟨_, _, h3, h4⟩ := ns_delay_scale_found psc sc delay_ns clkrate _ hn
      (by exact_mod_cast hneed)
    simp only [delay_scale_eq] at h3 h4
    exact ⟨h3, h4⟩
  · intro hneed hfit
    have hn := delay_scale_needed_eq_of_fit delay_ns clkrate hpos hfit
    exact ns_delay_scale_unreachable psc sc delay_ns clkrate _ hn (by exact_mod_cast hneed)
  · intro h0
    subst h0
    have hn : delay_scale_needed 0 clkrate = 0 := by
      unfold delay_scale_needed
      have : to_ulong 0 = 0 := by decide
      simp [this]
      decide
    obtain ⟨h1, h2, _, h4⟩ := ns_delay_scale_found psc sc 0 clkrate 0 hn (by norm_num)
    have hmin := h4 0 0 (by norm_num) (by norm_num) (by decide)
    have htab : ∀ i ∈ idx4, ∀ j ∈ idx16, delay_scale i j ≤ delay_scale 0 0 → i = 0 ∧ j = 0 := by
      decide
    have := htab _ ((mem_idx4 _).mpr h1) _ ((mem_idx16 _).mpr h2) hmin
    exact Prod.ext this.1 this.2

/-- C20 (amended) at a delay of 100 ns on a 50 MHz clock. -/
theorem ns_delay_scale_as_coded_witness :
    (0 : Int) ≤ 100 ∧
    (ns_delay_scale 0 0 100 50000000).1 < 4 ∧
    (ns_delay_scale 0 0 100 50000000).2 < 16 :=
  ⟨by decide, (ns_delay_scale_as_coded 0 0 100 50000000 (by decide)).2.2.1,
    (ns_delay_scale_as_coded 0 0 100 50000000 (by decide)).2.2.2.1⟩

/-! ## Theorems: receive decode, word-size validation, completion wait -/

section decode
variable {σ : Type}

/-- Without a receive buffer `dspi_push_rx` changes nothing. -/
theorem dspi_push_rx_no_buffer (d : fsl_dspi σ) (rxdata : Nat) (hrx : d.rx = 0) :
    dspi_push_rx d rxdata = d := by
  unfold dspi_push_rx
  rw [if_pos hrx]

/-- The completion wait without interrupt line is the poll loop, whatever the
transfer mode. -/
theorem dspi_wait_complete_no_irq (fuel : Nat) (env : dspi_env σ) (status : Int)
    (d : fsl_dspi σ) (h : d.irq = 0) :
    dspi_wait_complete fuel env status d = dspi_poll_until env fuel fuel d := by
  unfold dspi_wait_complete
  rw [if_pos h]

end decode

/-- C14 at `bits_per_word = 32`: the mask `(1 << 32) - 1` is computed with a
shift by the width of `int`; with the shift count taken modulo 32 it is 0, and
the value stored for `rxdata = 0x12345678` is 0, not `rxdata mod 2^32`. At 31
bits the same value is stored whole. -/
theorem dspi_push_rx_width_32 :
    rx_mask 32 = 0 ∧
    read_u32 (dspi_push_rx (push_rx_dspi 32 4) 0x12345678).mem 0x2000 = 0 ∧
    0x12345678 % 2 ^ 32 = 0x12345678 ∧
    (dspi_push_rx (push_rx_dspi 32 4) 0x12345678).rx = 0x2004 ∧
    read_u32 (dspi_push_rx (push_rx_dspi 31 4) 0x12345678).mem 0x2000 = 0x12345678 := by
  decide

set_option maxRecDepth 100000 in
/-- C17 without interrupt line: on a DMA-mode controller with `irq = 0` and a
DMA engine that completes every chunk, `dspi_dma_xfer` returns 0 for a transfer
of 4 bytes and `actual_length` is 4, but `dspi_transfer_one_message` then runs
the `dspi_poll` loop, which sees no flag in 1000 reads: the status of the
transfer, stored and returned, is `-ETIMEDOUT`. The same holds for a transfer of
length 0 on the controller as probed. With an interrupt line the value of
`dspi_dma_xfer` is kept. -/
theorem dspi_transfer_one_message_dma_polls :
    (dspi_dma_xfer 2000 sim_env
        { dma_poll_dspi 1 with len := 4, tx := 0x1000, rx := 0x2000 }).1 = some 0 ∧
    (dspi_transfer_one_message 2000 sim_env (dma_poll_dspi 1) (scenario_A_message 1)).1 =
      some (-ETIMEDOUT) ∧
    (dspi_transfer_one_message 2000 sim_env (dma_poll_dspi 1) (scenario_A_message 1)).2.status =
      -ETIMEDOUT ∧
    (dspi_transfer_one_message 2000 sim_env (dma_poll_dspi 1)
        (scenario_A_message 1)).2.actual_length = 4 ∧
    (dspi_transfer_one_message 2000 sim_env (dma_poll_dspi 0)
        ⟨[⟨0x1000, 0x2000, 0, false, 0⟩], (scenario_A_message 1).spi⟩).1 = some (-ETIMEDOUT) ∧
    (dspi_transfer_one_message 2000 sim_env { dma_poll_dspi 1 with irq := 1 }
        (scenario_A_message 1)).1 = some 0 := by
  decide

/-! ## Theorems: the end-of-queue strategy on concrete transfers -/

set_option maxRecDepth 100000 in
/-- C15 for 4-byte frames: in a message of one transfer of 4 bytes (one 32-bit
frame, `cs_change` clear, so the base command has the continuation bit clear)
the only frame is pushed with the continuation bit set (command half `0x8c01`);
with 8 bytes both frames carry it (`0x8401`, `0x8801`). `dspi_eoq_write` leaves
the decision to the first `dspi_data_to_pushr`, which sees the 2 bytes of the
second half of the frame still to come. With one-byte frames the last of four
frames is pushed with the bit clear (`0x0801`). -/
theorem dspi_eoq_write_cont_last_frame :
    (dspi_transfer_one_message 2000 (traced sim_env) (logged_dspi true)
        (logged_message true 32 4)).1 = some 0 ∧
    (dspi_transfer_one_message 2000 (traced sim_env) (logged_dspi true)
        (logged_message true 32 4)).2.tx_cmd &&& SPI_PUSHR_CMD_CONT = 0 ∧
    (writes_of SPI_PUSHR (dspi_transfer_one_message 2000 (traced sim_env) (logged_dspi true)
        (logged_message true 32 4)).2.hw.2).map (fun v => v >>> 16) = [0x8c01] ∧
    0x8c01 &&& SPI_PUSHR_CMD_CONT ≠ 0 ∧
    (writes_of SPI_PUSHR (dspi_transfer_one_message 2000 (traced sim_env) (logged_dspi true)
        (logged_message true 32 8)).2.hw.2).map (fun v => v >>> 16) = [0x8401, 0x8801] ∧
    0x8801 &&& SPI_PUSHR_CMD_CONT ≠ 0 ∧
    (writes_of SPI_PUSHR (dspi_transfer_one_message 2000 (traced sim_env) (logged_dspi false)
        (logged_message false 8 4)).2.hw.2).map (fun v => v >>> 16) =
      [0x8401, 0x8001, 0x8001, 0x0801] ∧
    0x0801 &&& SPI_PUSHR_CMD_CONT = 0 := by
  decide

set_option maxRecDepth 100000 in
/-- C12 fails on the code for a transfer of 3 bytes to a device with 5-bit words,
which is served in two-byte frame mode. Entered with `rx_end - rx = len = 3`,
`dspi_eoq_write` marks the first frame as the end of the queue (its branch
`tx_frame_mode == FM_BYTES_2 && dspi->len == 1`) but goes on: `len` wraps below
zero and frames are pushed until the FIFO is full, 4 frames queued
(`queue_size = 4`, command halves `0x8c01`, `0x8001`, `0x8001`, `0x8801`). The
following `dspi_eoq_read` pops only 2 values, stops at `rx >= rx_end` and
returns 4; the claim gives 4 values popped, `rx` advanced by 8 and 8 returned.
The same happens inside a message: the device is set up by `dspi_setup` for
5-bit words, the message has one transfer of 3 bytes, and `len` never reaches
zero: every retry queues 4 more frames and pops none, so that with a fuel of 6
`dspi_transfer_one_message` pushes 28 frames and pops 2. -/
theorem dspi_eoq_read_drains_less_than_queued :
    (get_frame_mode (traced sim_env) eoq_odd_dspi).1 = .FM_BYTES_2 ∧
    eoq_odd_dspi.rx_end - eoq_odd_dspi.rx = eoq_odd_dspi.len ∧
    (writes_of SPI_PUSHR (dspi_eoq_write 10 (traced sim_env) eoq_odd_dspi).2.hw.2).length = 4 ∧
    (writes_of SPI_PUSHR (dspi_eoq_write 10 (traced sim_env) eoq_odd_dspi).2.hw.2).map
      (fun v => v >>> 16) = [0x8c01, 0x8001, 0x8001, 0x8801] ∧
    (dspi_eoq_write 10 (traced sim_env) eoq_odd_dspi).2.queue_size = 4 ∧
    (dspi_eoq_write 10 (traced sim_env) eoq_odd_dspi).2.len = 2 ^ 64 - 5 ∧
    (reads_of SPI_POPR (dspi_eoq_read (traced sim_env)
        (dspi_eoq_write 10 (traced sim_env) eoq_odd_dspi).2).2.hw.2).length = 2 ∧
    (dspi_eoq_read (traced sim_env) (dspi_eoq_write 10 (traced sim_env) eoq_odd_dspi).2).1 = 4 ∧
    (dspi_eoq_read (traced sim_env) (dspi_eoq_write 10 (traced sim_env) eoq_odd_dspi).2).2.rx =
      eoq_odd_dspi.rx + 4 ∧
    dspi_setup (logged_dspi false) ⟨0, 5, 1000000, 0, none⟩ 0 0 50000000 true =
      some (0, some ⟨2148469760, 537067523, 0, 0⟩) ∧
    (logged_message false 5 3).transfers = [⟨0x1000, 0x2000, 3, false, 0⟩] ∧
    (writes_of SPI_PUSHR (dspi_transfer_one_message 6 (traced sim_env) (logged_dspi false)
        (logged_message false 5 3)).2.hw.2).length = 28 ∧
    ((writes_of SPI_PUSHR (dspi_transfer_one_message 6 (traced sim_env) (logged_dspi false)
        (logged_message false 5 3)).2.hw.2).take 4).map (fun v => v >>> 16) =
      [0x8c01, 0x8001, 0x8001, 0x8801] ∧
    reads_of SPI_POPR (dspi_transfer_one_message 6 (traced sim_env) (logged_dspi false)
        (logged_message false 5 3)).2.hw.2 = [0x0100, 0x0302] := by
  decide

/-! ## Theorems: the end-of-queue write -/

section eoq
variable {σ : Type}

theorem writes_of_append (reg : Nat) (l1 l2 : List reg_access) :
    writes_of reg (l1 ++ l2) = writes_of reg l1 ++ writes_of reg l2 := by
  simp [writes_of, List.filterMap_append]

/-- Bit 27 of a push-register value is the end-of-queue bit. -/
theorem and_eoq_ne_zero_iff (v : Nat) : v &&& SPI_PUSHR_EOQ ≠ 0 ↔ v.testBit 27 = true := by
  have h := Nat.and_two_pow v 27
  have e : SPI_PUSHR_EOQ = 2 ^ 27 := by decide
  rw [e, h]
  cases v.testBit 27 <;> simp

/-- The end-of-queue bit of the value `dspi_data_to_pushr` returns is bit 11 of
the base command. -/
theorem dspi_data_to_pushr_eoq_bit (d : fsl_dspi σ) (tw : Nat) :
    (dspi_data_to_pushr d tw).1.testBit 27 = d.tx_cmd.testBit 11 := by
  have hc : ∀ c data : Nat, (((c <<< 16) ||| SPI_PUSHR_TXDATA data) % 2 ^ 32).testBit 27 =
      c.testBit 11 := by
    intro c data
    rw [Nat.testBit_mod_two_pow, Nat.testBit_or, Nat.testBit_shiftLeft]
    have : (SPI_PUSHR_TXDATA data).testBit 27 = false := by
      unfold SPI_PUSHR_TXDATA
      rw [Nat.testBit_and]
      have : (0x0000ffff : Nat).testBit 27 = false := by decide
      simp [this]
    simp [this]
  have hk : ∀ c : Nat, (c ||| SPI_PUSHR_CMD_CONT).testBit 11 = c.testBit 11 := by
    intro c
    rw [Nat.testBit_or]
    have : SPI_PUSHR_CMD_CONT.testBit 11 = false := by decide
    simp [this]
  unfold dspi_data_to_pushr
  simp only
  rw [hc]
  split
  · exact hk _
  · rfl

theorem or_eoq_testBit (v : Nat) : (v ||| SPI_PUSHR_EOQ).testBit 27 = true := by
  rw [Nat.testBit_or]
  have : SPI_PUSHR_EOQ.testBit 27 = true := by decide
  simp [this]

theorem or_ctcnt_testBit (v : Nat) : (v ||| SPI_PUSHR_CTCNT).testBit 27 = v.testBit 27 := by
  rw [Nat.testBit_or]
  have : SPI_PUSHR_CTCNT.testBit 27 = false := by decide
  simp [this]

end eoq

section eoq2
variable {σ : Type}

theorem to_u32_succ (x : Nat) (h : x + 1 < 2 ^ 32) : to_u32 ((x : Int) + 1) = x + 1 := by
  unfold to_u32; omega

theorem to_ulong_sub (a b : Nat) (h : b ≤ a) (ha : a < 2 ^ 64) :
    to_ulong ((a : Int) - b) = a - b := by
  unfold to_ulong; omega

theorem to_ulong_sub_lit (a b : Nat) (h : b ≤ a) (ha : a < 2 ^ 64) :
    to_ulong ((a : Int) - ((b : Nat) : Int)) = a - b := to_ulong_sub a b h ha

/-- One pass of the loop of `dspi_eoq_write` in one-byte frame mode. -/
theorem dspi_eoq_write_body_spec_1 (env : dspi_env σ) (cmd : Nat) (first : Bool)
    (used count : Nat) (d : fsl_dspi (σ × List reg_access)) (m D : Nat)
    (hlen : d.len = m * 1) (hm : 1 ≤ m) (hmax : m * 1 < 2 ^ 64)
    (hD : d.fifo_size = D) (hD64 : D < 2 ^ 64) (hu : used + 1 ≤ D) (hu32 : used + 1 < 2 ^ 32)
    (hc : count ≤ used) :
    (dspi_eoq_write_body (traced env) .FM_BYTES_1 1 cmd first used count d).1 = used + 1 ∧
    (dspi_eoq_write_body (traced env) .FM_BYTES_1 1 cmd first used count d).2.1 = count + 1 ∧
    (dspi_eoq_write_body (traced env) .FM_BYTES_1 1 cmd first used count d).2.2.len =
      (m - 1) * 1 ∧
    (dspi_eoq_write_body (traced env) .FM_BYTES_1 1 cmd first used count d).2.2.fifo_size = D ∧
    (dspi_eoq_write_body (traced env) .FM_BYTES_1 1 cmd first used count d).2.2.queue_size =
      (if m = 1 ∨ D - (used + 1) < 1 then count + 1 else d.queue_size) ∧
    ∃ v, writes_of SPI_PUSHR
        (dspi_eoq_write_body (traced env) .FM_BYTES_1 1 cmd first used count d).2.2.hw.2 =
          writes_of SPI_PUSHR d.hw.2 ++ [v] ∧
      (v.testBit 27 = true ↔
        ((m = 1 ∨ D - (used + 1) < 1) ∨ cmd.testBit 11 = true)) := by
  obtain ⟨r, hr⟩ : ∃ r, r = dspi_data_to_pushr { d with tx_cmd := cmd } 0 := ⟨_, rfl⟩
  have e_len : r.2.len = m - 1 := by
    rw [hr]
    show to_ulong ((d.len : Int) - ((0 : Nat) + 1 : Nat)) = _
    rw [hlen]; unfold to_ulong; omega
  have e_fifo : r.2.fifo_size = D := by rw [hr]; exact hD
  have e_q : r.2.queue_size = d.queue_size := by rw [hr]; rfl
  have e_hw : r.2.hw = d.hw := by rw [hr]; rfl
  have e_bit : r.1.testBit 27 = cmd.testBit 11 := by
    rw [hr, dspi_data_to_pushr_eoq_bit]
  have e_u : to_u32 ((used : Int) + 1) = used + 1 := to_u32_succ _ (by omega)
  have e_c : to_u32 ((count : Int) + 1) = count + 1 := to_u32_succ _ (by omega)
  have e_s : to_ulong ((D : Int) - ((used + 1 : Nat) : Int)) = D - (used + 1) :=
    to_ulong_sub _ _ hu (by omega)
  unfold dspi_eoq_write_body
  simp only [← hr]
  simp only [e_len, e_fifo, e_u, e_c, reduceCtorEq, if_false, false_and, or_false]
  simp only [e_s]
  have hcond : (m - 1 = 0 ∨ D - (used + 1) < 1) ↔ (m = 1 ∨ D - (used + 1) < 1) := by omega
  simp only [hcond]
  have hw1 : ∀ (l : List reg_access) (v : Nat),
      writes_of SPI_PUSHR (l ++ [.write SPI_PUSHR v]) = writes_of SPI_PUSHR l ++ [v] := by
    intro l v; simp [writes_of, List.filterMap_append]
  by_cases hlast : m = 1 ∨ D - (used + 1) < 1
  · simp only [if_pos hlast, true_and, e_hw, traced, hw1]
    refine ⟨by omega, _, rfl, ?_⟩
    cases first
    · simp only [Bool.false_eq_true, if_false]
      exact ⟨fun _ => Or.inl hlast, fun _ => or_eoq_testBit _⟩
    · simp only [if_true]
      rw [or_ctcnt_testBit]
      exact ⟨fun _ => Or.inl hlast, fun _ => or_eoq_testBit _⟩
  · simp only [if_neg hlast, true_and, e_hw, e_len, e_fifo, e_q, traced, hw1]
    refine ⟨by omega, _, rfl, ?_⟩
    cases first
    · simp only [Bool.false_eq_true, if_false]
      rw [e_bit]
      exact ⟨fun h => Or.inr h, fun h => h.elim (fun h => absurd h hlast) id⟩
    · simp only [if_true]
      rw [or_ctcnt_testBit, e_bit]
      exact ⟨fun h => Or.inr h, fun h => h.elim (fun h => absurd h hlast) id⟩

/-- One pass of the loop of `dspi_eoq_write` in two-byte frame mode. -/
theorem dspi_eoq_write_body_spec_2 (env : dspi_env σ) (cmd : Nat) (first : Bool)
    (used count : Nat) (d : fsl_dspi (σ × List reg_access)) (m D : Nat)
    (hlen : d.len = m * 2) (hm : 1 ≤ m) (hmax : m * 2 < 2 ^ 64)
    (hD : d.fifo_size = D) (hD64 : D < 2 ^ 64) (hu : used + 1 ≤ D) (hu32 : used + 1 < 2 ^ 32)
    (hc : count ≤ used) :
    (dspi_eoq_write_body (traced env) .FM_BYTES_2 1 cmd first used count d).1 = used + 1 ∧
    (dspi_eoq_write_body (traced env) .FM_BYTES_2 1 cmd first used count d).2.1 = count + 1 ∧
    (dspi_eoq_write_body (traced env) .FM_BYTES_2 1 cmd first used count d).2.2.len =
      (m - 1) * 2 ∧
    (dspi_eoq_write_body (traced env) .FM_BYTES_2 1 cmd first used count d).2.2.fifo_size = D ∧
    (dspi_eoq_write_body (traced env) .FM_BYTES_2 1 cmd first used count d).2.2.queue_size =
      (if m = 1 ∨ D - (used + 1) < 1 then count + 1 else d.queue_size) ∧
    ∃ v, writes_of SPI_PUSHR
        (dspi_eoq_write_body (traced env) .FM_BYTES_2 1 cmd first used count d).2.2.hw.2 =
          writes_of SPI_PUSHR d.hw.2 ++ [v] ∧
      (v.testBit 27 = true ↔
        ((m = 1 ∨ D - (used + 1) < 1) ∨ cmd.testBit 11 = true)) := by
  obtain ⟨r, hr⟩ : ∃ r, r = dspi_data_to_pushr { d with tx_cmd := cmd } 1 := ⟨_, rfl⟩
  have e_len : r.2.len = (m - 1) * 2 := by
    rw [hr]
    show to_ulong ((d.len : Int) - ((1 : Nat) + 1 : Nat)) = _
    rw [hlen]; unfold to_ulong; omega
  have e_fifo : r.2.fifo_size = D := by rw [hr]; exact hD
  have e_q : r.2.queue_size = d.queue_size := by rw [hr]; rfl
  have e_hw : r.2.hw = d.hw := by rw [hr]; rfl
  have e_bit : r.1.testBit 27 = cmd.testBit 11 := by
    rw [hr, dspi_data_to_pushr_eoq_bit]
  have e_u : to_u32 ((used : Int) + 1) = used + 1 := to_u32_succ _ (by omega)
  have e_c : to_u32 ((count : Int) + 1) = count + 1 := to_u32_succ _ (by omega)
  have e_s : to_ulong ((D : Int) - ((used + 1 : Nat) : Int)) = D - (used + 1) :=
    to_ulong_sub _ _ hu (by omega)
  unfold dspi_eoq_write_body
  simp only [← hr]
  simp only [e_len, e_fifo, e_u, e_c, reduceCtorEq, if_false, false_and, or_false, true_and]
  simp only [e_s]
  have hcond : ((((m - 1) * 2 = 0 ∨ D - (used + 1) < 1) ∨ (m - 1) * 2 = 1)) ↔
      (m = 1 ∨ D - (used + 1) < 1) := by omega
  simp only [hcond]
  have hw1 : ∀ (l : List reg_access) (v : Nat),
      writes_of SPI_PUSHR (l ++ [.write SPI_PUSHR v]) = writes_of SPI_PUSHR l ++ [v] := by
    intro l v; simp [writes_of, List.filterMap_append]
  by_cases hlast : m = 1 ∨ D - (used + 1) < 1
  · simp only [if_pos hlast, true_and, e_hw, traced, hw1]
    refine ⟨_, rfl, ?_⟩
    cases first
    · simp only [Bool.false_eq_true, if_false]
      exact ⟨fun _ => Or.inl hlast, fun _ => or_eoq_testBit _⟩
    · simp only [if_true]
      rw [or_ctcnt_testBit]
      exact ⟨fun _ => Or.inl hlast, fun _ => or_eoq_testBit _⟩
  · simp only [if_neg hlast, true_and, e_hw, e_len, e_fifo, e_q, traced, hw1]
    refine ⟨_, rfl, ?_⟩
    cases first
    · simp only [Bool.false_eq_true, if_false]
      rw [e_bit]
      exact ⟨fun h => Or.inr h, fun h => h.elim (fun h => absurd h hlast) id⟩
    · simp only [if_true]
      rw [or_ctcnt_testBit, e_bit]
      exact ⟨fun h => Or.inr h, fun h => h.elim (fun h => absurd h hlast) id⟩


/-- One pass of the loop of `dspi_eoq_write` in four-byte frame mode. -/
theorem dspi_eoq_write_body_spec_4 (env : dspi_env σ) (cmd : Nat) (first : Bool)
    (used count : Nat) (d : fsl_dspi (σ × List reg_access)) (m D : Nat)
    (hlen : d.len = m * 4) (hm : 1 ≤ m) (hmax : m * 4 < 2 ^ 64)
    (hD : d.fifo_size = D) (hD64 : D < 2 ^ 64) (hu : used + 2 ≤ D) (hu32 : used + 2 < 2 ^ 32)
    (hc : count ≤ used) :
    (dspi_eoq_write_body (traced env) .FM_BYTES_4 2 cmd first used count d).1 = used + 2 ∧
    (dspi_eoq_write_body (traced env) .FM_BYTES_4 2 cmd first used count d).2.1 = count + 1 ∧
    (dspi_eoq_write_body (traced env) .FM_BYTES_4 2 cmd first used count d).2.2.len =
      (m - 1) * 4 ∧
    (dspi_eoq_write_body (traced env) .FM_BYTES_4 2 cmd first used count d).2.2.fifo_size = D ∧
    (dspi_eoq_write_body (traced env) .FM_BYTES_4 2 cmd first used count d).2.2.queue_size =
      (if m = 1 ∨ D - (used + 2) < 2 then count + 1 else d.queue_size) ∧
    ∃ v, writes_of SPI_PUSHR
        (dspi_eoq_write_body (traced env) .FM_BYTES_4 2 cmd first used count d).2.2.hw.2 =
          writes_of SPI_PUSHR d.hw.2 ++ [v] ∧
      (v.testBit 27 = true ↔
        ((m = 1 ∨ D - (used + 2) < 2) ∨ cmd.testBit 11 = true)) := by
  obtain ⟨r, hr⟩ : ∃ r, r = dspi_data_to_pushr { d with tx_cmd := cmd } 1 := ⟨_, rfl⟩
  have e_len : r.2.len = m * 4 - 2 := by
    rw [hr]
    show to_ulong ((d.len : Int) - ((1 : Nat) + 1 : Nat)) = _
    rw [hlen]; unfold to_ulong; omega
  have e_fifo : r.2.fifo_size = D := by rw [hr]; exact hD
  have e_q : r.2.queue_size = d.queue_size := by rw [hr]; rfl
  have e_hw : r.2.hw = d.hw := by rw [hr]; rfl
  have e_bit : r.1.testBit 27 = cmd.testBit 11 := by
    rw [hr, dspi_data_to_pushr_eoq_bit]
  have e_u : to_u32 ((used : Int) + 1) = used + 1 := to_u32_succ _ (by omega)
  have e_u2 : to_u32 (((used + 1 : Nat) : Int) + 1) = used + 2 := to_u32_succ _ (by omega)
  have e_c : to_u32 ((count : Int) + 1) = count + 1 := to_u32_succ _ (by omega)
  have e_s : to_ulong ((D : Int) - ((used + 2 : Nat) : Int)) = D - (used + 2) :=
    to_ulong_sub _ _ hu (by omega)
  have p_len : ∀ (x : fsl_dspi (σ × List reg_access)) (tw : Nat),
      (dspi_data_to_pushr x tw).2.len = to_ulong ((x.len : Int) - ((tw + 1 : Nat) : Int)) :=
    fun _ _ => rfl
  have p_fifo : ∀ (x : fsl_dspi (σ × List reg_access)) (tw : Nat),
      (dspi_data_to_pushr x tw).2.fifo_size = x.fifo_size := fun _ _ => rfl
  have p_q : ∀ (x : fsl_dspi (σ × List reg_access)) (tw : Nat),
      (dspi_data_to_pushr x tw).2.queue_size = x.queue_size := fun _ _ => rfl
  have p_hw : ∀ (x : fsl_dspi (σ × List reg_access)) (tw : Nat),
      (dspi_data_to_pushr x tw).2.hw = x.hw := fun _ _ => rfl
  have e_l2 : to_ulong (((m * 4 - 2 : Nat) : Int) - ((1 + 1 : Nat) : Int)) = (m - 1) * 4 := by
    unfold to_ulong; omega
  unfold dspi_eoq_write_body
  simp only [← hr]
  simp only [e_len, e_fifo, e_u, e_u2, e_c, reduceCtorEq, if_false, if_true, false_and, or_false,
    true_and, false_or]
  simp only [e_s]
  have hcond : ((m * 4 - 2 = 0 ∨ D - (used + 2) < 2) ∨ m * 4 - 2 < 4) ↔
      (m = 1 ∨ D - (used + 2) < 2) := by omega
  simp only [hcond]
  have hw1 : ∀ (l : List reg_access) (v : Nat),
      writes_of SPI_PUSHR (l ++ [.write SPI_PUSHR v]) = writes_of SPI_PUSHR l ++ [v] := by
    intro l v; simp [writes_of, List.filterMap_append]
  have hw2 : ∀ (l : List reg_access) (a v : Nat),
      writes_of SPI_PUSHR (l ++ [.writew a v]) = writes_of SPI_PUSHR l := by
    intro l a v; simp [writes_of, List.filterMap_append]
  by_cases hlast : m = 1 ∨ D - (used + 2) < 2
  · simp only [if_pos hlast, p_len, p_fifo, p_q, p_hw, e_hw, traced, hw1, hw2, e_l2, true_and]
    refine ⟨_, rfl, ?_⟩
    cases first
    · simp only [Bool.false_eq_true, if_false]
      exact ⟨fun _ => Or.inl hlast, fun _ => or_eoq_testBit _⟩
    · simp only [if_true]
      rw [or_ctcnt_testBit]
      exact ⟨fun _ => Or.inl hlast, fun _ => or_eoq_testBit _⟩
  · simp only [if_neg hlast, p_len, p_fifo, p_q, p_hw, e_hw, e_len, e_fifo, e_q, traced, hw1, hw2,
      e_l2, true_and]
    refine ⟨_, rfl, ?_⟩
    cases first
    · simp only [Bool.false_eq_true, if_false]
      rw [e_bit]
      exact ⟨fun h => Or.inr h, fun h => h.elim (fun h => absurd h hlast) id⟩
    · simp only [if_true]
      rw [or_ctcnt_testBit, e_bit]
      exact ⟨fun h => Or.inr h, fun h => h.elim (fun h => absurd h hlast) id⟩

/-- One pass of the loop of `dspi_eoq_write` with `m >= 1` whole frames left and
room for a frame in the FIFO: one frame is consumed and one value written to
`SPI_PUSHR`; the value has the end-of-queue bit, and `queue_size` is set to the
frame count, exactly when no frame is left or the FIFO has no room for another. -/
theorem dspi_eoq_write_body_spec (env : dspi_env σ) (fm : frame_mode) (cmd : Nat)
    (first : Bool) (used count : Nat) (d : fsl_dspi (σ × List reg_access)) (m D : Nat)
    (hlen : d.len = m * bytes_per_frame fm) (hm : 1 ≤ m)
    (hmax : m * bytes_per_frame fm < 2 ^ 64)
    (hD : d.fifo_size = D) (hD64 : D < 2 ^ 64) (hu : used + fifo_entries_per_frm fm ≤ D)
    (hu32 : used + fifo_entries_per_frm fm < 2 ^ 32)
    (hc : count ≤ used) :
    (dspi_eoq_write_body (traced env) fm (fifo_entries_per_frm fm) cmd first used count d).1 =
      used + fifo_entries_per_frm fm ∧
    (dspi_eoq_write_body (traced env) fm (fifo_entries_per_frm fm) cmd first used count d).2.1 =
      count + 1 ∧
    (dspi_eoq_write_body (traced env) fm (fifo_entries_per_frm fm) cmd first used count d).2.2.len =
      (m - 1) * bytes_per_frame fm ∧
    (dspi_eoq_write_body (traced env) fm (fifo_entries_per_frm fm) cmd first used count
      d).2.2.fifo_size = D ∧
    (dspi_eoq_write_body (traced env) fm (fifo_entries_per_frm fm) cmd first used count
      d).2.2.queue_size =
      (if m = 1 ∨ D - (used + fifo_entries_per_frm fm) < fifo_entries_per_frm fm
        then count + 1 else d.queue_size) ∧
    ∃ v, writes_of SPI_PUSHR
        (dspi_eoq_write_body (traced env) fm (fifo_entries_per_frm fm) cmd first used count
          d).2.2.hw.2 = writes_of SPI_PUSHR d.hw.2 ++ [v] ∧
      (v.testBit 27 = true ↔
        ((m = 1 ∨ D - (used + fifo_entries_per_frm fm) < fifo_entries_per_frm fm) ∨
          cmd.testBit 11 = true)) := by
  cases fm
  · exact dspi_eoq_write_body_spec_1 env cmd first used count d m D hlen hm hmax hD hD64 hu hu32 hc
  · exact dspi_eoq_write_body_spec_2 env cmd first used count d m D hlen hm hmax hD hD64 hu hu32 hc
  · exact dspi_eoq_write_body_spec_4 env cmd first used count d m D hlen hm hmax hD hD64 hu hu32 hc

theorem fifo_entries_per_frm_cases (fm : frame_mode) :
    fifo_entries_per_frm fm = 1 ∨ fifo_entries_per_frm fm = 2 := by
  cases fm <;> simp [fifo_entries_per_frm]

theorem bytes_per_frame_pos (fm : frame_mode) : 1 ≤ bytes_per_frame fm := by
  cases fm <;> simp [bytes_per_frame]

/-- The number of frames one call of `dspi_eoq_write` pushes: the frames left,
or as many as fit the FIFO entries still free. -/
theorem eoq_batch_step (m D used e : Nat) (he : e = 1 ∨ e = 2) (hm : 1 ≤ m)
    (hroom : e ≤ D - used) :
    min (m - 1) ((D - (used + e)) / e) + 1 = min m ((D - used) / e) ∧
    ((m = 1 ∨ D - (used + e) < e) ↔ min m ((D - used) / e) = 1) := by
  rcases he with rfl | rfl <;> constructor <;> omega

theorem eoq_batch_zero (m D used e : Nat) (he : e = 1 ∨ e = 2)
    (hstop : ¬ (1 ≤ m ∧ e ≤ D - used)) : min m ((D - used) / e) = 0 := by
  rcases he with rfl | rfl <;> omega

/-- The loop of `dspi_eoq_write` entered with `m` whole frames left,
`fifo_entries_used = used` and `tx_frames_count = count`: it pushes
`n = min(m, (D - used) / e)` frames and ends; the end-of-queue bit is on the last
of them, and on the others only if the base command `cmd` has it; `queue_size`
is the frame count reached (unchanged when no frame is pushed). -/
theorem dspi_eoq_write_loop_spec (env : dspi_env σ) (fm : frame_mode) (cmd D : Nat)
    (hD64 : D < 2 ^ 64) :
    ∀ (fuel m : Nat) (first : Bool) (used count : Nat) (d : fsl_dspi (σ × List reg_access)),
      d.len = m * bytes_per_frame fm → m * bytes_per_frame fm < 2 ^ 64 →
      d.fifo_size = D → used ≤ D → count ≤ used →
      used + 2 * min m ((D - used) / fifo_entries_per_frm fm) < 2 ^ 32 →
      min m ((D - used) / fifo_entries_per_frm fm) < fuel →
      (dspi_eoq_write_loop (traced env) fm (fifo_entries_per_frm fm) cmd fuel first used count
        d).1 = some () ∧
      (dspi_eoq_write_loop (traced env) fm (fifo_entries_per_frm fm) cmd fuel first used count
        d).2.len = (m - min m ((D - used) / fifo_entries_per_frm fm)) * bytes_per_frame fm ∧
      (dspi_eoq_write_loop (traced env) fm (fifo_entries_per_frm fm) cmd fuel first used count
        d).2.queue_size =
        (if min m ((D - used) / fifo_entries_per_frm fm) = 0 then d.queue_size
          else count + min m ((D - used) / fifo_entries_per_frm fm)) ∧
      ∃ frames : List Nat,
        writes_of SPI_PUSHR (dspi_eoq_write_loop (traced env) fm (fifo_entries_per_frm fm) cmd
          fuel first used count d).2.hw.2 = writes_of SPI_PUSHR d.hw.2 ++ frames ∧
        frames.length = min m ((D - used) / fifo_entries_per_frm fm) ∧
        ∀ k, k < frames.length →
          ((frames.getD k 0).testBit 27 = true ↔
            (k + 1 = frames.length ∨ cmd.testBit 11 = true)) := by
  have he := fifo_entries_per_frm_cases fm
  have hw := bytes_per_frame_pos fm
  generalize he0 : fifo_entries_per_frm fm = e at he
  generalize hw0 : bytes_per_frame fm = w at hw
  intro fuel
  induction fuel with
  | zero => intro m first used count d _ _ _ _ _ _ hf; exact absurd hf (Nat.not_lt_zero _)
  | succ fuel ih =>
    intro m first used count d hlen hmax hD hu hc h32 hf
    have e_s : to_ulong ((d.fifo_size : Int) - (used : Int)) = D - used := by
      rw [hD]; exact to_ulong_sub _ _ hu (by omega)
    rw [dspi_eoq_write_loop_succ]
    by_cases hgo : 1 ≤ m ∧ e ≤ D - used
    · have hcond : d.len ≠ 0 ∧ to_ulong ((d.fifo_size : Int) - (used : Int)) ≥ e := by
        rw [e_s, hlen]
        exact ⟨Nat.mul_ne_zero (by omega) (by omega), hgo.2⟩
      rw [if_pos hcond]
      obtain ⟨hstep, hlast⟩ := eoq_batch_step m D used e he hgo.1 hgo.2
      have hspec := dspi_eoq_write_body_spec env fm cmd first used count d m D
        (by rw [hw0]; exact hlen) hgo.1 (by rw [hw0]; exact hmax) hD hD64
        (by rw [he0]; omega)
        (by rw [he0]; rw [← hstep] at h32; rcases he with rfl | rfl <;> omega) hc
      rw [he0, hw0] at hspec
      obtain ⟨b, hb⟩ : ∃ b, b = dspi_eoq_write_body (traced env) fm e cmd first used count d :=
        ⟨_, rfl⟩
      rw [← hb] at hspec ⊢
      obtain ⟨h1, h2, h3, h4, h5, v, h6, h7⟩ := hspec
      have hmax2 : (m - 1) * w < 2 ^ 64 :=
        lt_of_le_of_lt (Nat.mul_le_mul_right w (Nat.sub_le m 1)) hmax
      have hih := ih (m - 1) false b.1 b.2.1 b.2.2 h3 hmax2 h4 (by rw [h1]; omega)
        (by rw [h1, h2]; rcases he with rfl | rfl <;> omega)
        (by rw [h1]; rw [← hstep] at h32; rcases he with rfl | rfl <;> omega)
        (by rw [h1]; omega)
      rw [h1] at hih ⊢
      generalize hn' : min (m - 1) ((D - (used + e)) / e) = n' at hih hstep
      generalize hn : min m ((D - used) / e) = n at hstep hlast hf h32 ⊢
      obtain ⟨i1, i2, i3, frames, i4, i5, i6⟩ := hih
      refine ⟨i1, ?_, ?_, v :: frames, ?_, ?_, ?_⟩
      · rw [i2]
        have : m - 1 - n' = m - n := by omega
        rw [this]
      · rw [i3, h2, h5]
        have hn0 : n ≠ 0 := by omega
        rw [if_neg hn0]
        by_cases hz : n' = 0
        · rw [if_pos hz, if_pos (hlast.mpr (by omega))]
          omega
        · rw [if_neg hz]
          omega
      · rw [i4, h6, List.append_assoc]
        rfl
      · simp only [List.length_cons, i5]
        omega
      · intro k hk
        simp only [List.length_cons, i5] at hk ⊢
        rcases k with _ | k
        · simp only [List.getD_cons_zero]
          rw [h7, hlast]
          have : n = 1 ↔ 0 + 1 = n' + 1 := by omega
          rw [this]
        · simp only [List.getD_cons_succ]
          rw [i6 k (by omega), i5]
          have : k + 1 = n' ↔ k + 1 + 1 = n' + 1 := by omega
          rw [this]
    · have hcond : ¬ (d.len ≠ 0 ∧ to_ulong ((d.fifo_size : Int) - (used : Int)) ≥ e) := by
        rw [e_s, hlen]
        intro hc2
        apply hgo
        refine ⟨?_, hc2.2⟩
        rcases Nat.eq_zero_or_pos m with h0 | h0
        · exact absurd (by rw [h0, Nat.zero_mul]) hc2.1
        · exact h0
      rw [if_neg hcond]
      have hz := eoq_batch_zero m D used e he hgo
      rw [hz]
      refine ⟨rfl, by simpa using hlen, by simp, [], by simp, rfl, ?_⟩
      intro k hk
      simp at hk

/-- `get_frame_mode` changes the hardware state only. -/
theorem get_frame_mode_state (env : dspi_env σ) (d : fsl_dspi σ) :
    (get_frame_mode env d).2 = { d with hw := (get_frame_mode env d).2.hw } := by
  unfold get_frame_mode
  simp only
  split_ifs <;> rfl

theorem get_frame_mode_writes (env : dspi_env σ) (d : fsl_dspi (σ × List reg_access)) :
    writes_of SPI_PUSHR (get_frame_mode (traced env) d).2.hw.2 = writes_of SPI_PUSHR d.hw.2 := by
  unfold get_frame_mode
  simp only [traced]
  split_ifs <;> simp [writes_of, List.filterMap_append]

theorem and_cmd_eoq_eq_zero_iff (c : Nat) :
    c &&& SPI_PUSHR_CMD_EOQ = 0 ↔ c.testBit 11 = false := by
  have h := Nat.and_two_pow c 11
  have e : SPI_PUSHR_CMD_EOQ = 2 ^ 11 := by decide
  rw [e, h]
  cases c.testBit 11 <;> simp

/-- What one call of `dspi_eoq_write` does when `L` whole frames are left:
it pushes `n = min(L, D / e)` frames; the last of them has the end-of-queue
bit, the others only if the base command has it; `len` goes down by `n` frames;
`queue_size` is `n` (unchanged when nothing is pushed); the value returned is the
byte count pushed, converted to `int`. -/
theorem dspi_eoq_write_spec (env : dspi_env σ) (fuel : Nat)
    (d : fsl_dspi (σ × List reg_access)) (fm : frame_mode) (L D : Nat)
    (hfm : (get_frame_mode (traced env) d).1 = fm)
    (hlen : d.len = L * bytes_per_frame fm) (hmax : L * bytes_per_frame fm < 2 ^ 64)
    (hD : d.fifo_size = D) (hD64 : D < 2 ^ 64)
    (h32 : 2 * min L (D / fifo_entries_per_frm fm) < 2 ^ 32)
    (hfuel : min L (D / fifo_entries_per_frm fm) < fuel) :
    (dspi_eoq_write fuel (traced env) d).1 =
      some (to_int ((min L (D / fifo_entries_per_frm fm) * bytes_per_frame fm : Nat) : Int)) ∧
    (dspi_eoq_write fuel (traced env) d).2.len =
      (L - min L (D / fifo_entries_per_frm fm)) * bytes_per_frame fm ∧
    (dspi_eoq_write fuel (traced env) d).2.queue_size =
      (if min L (D / fifo_entries_per_frm fm) = 0 then d.queue_size
        else min L (D / fifo_entries_per_frm fm)) ∧
    ∃ frames : List Nat,
      writes_of SPI_PUSHR (dspi_eoq_write fuel (traced env) d).2.hw.2 =
        writes_of SPI_PUSHR d.hw.2 ++ frames ∧
      frames.length = min L (D / fifo_entries_per_frm fm) ∧
      ∀ k, k < frames.length →
        ((frames.getD k 0).testBit 27 = true ↔
          (k + 1 = frames.length ∨ d.tx_cmd.testBit 11 = true)) := by
  obtain ⟨d1, hd1⟩ : ∃ d1, d1 = (get_frame_mode (traced env) d).2 := ⟨_, rfl⟩
  have hst := get_frame_mode_state (traced env) d
  rw [← hd1] at hst
  have g1 : d1.len = L * bytes_per_frame fm := by rw [hst]; exact hlen
  have g2 : d1.fifo_size = D := by rw [hst]; exact hD
  have g3 : d1.queue_size = d.queue_size := by rw [hst]
  have g4 : writes_of SPI_PUSHR d1.hw.2 = writes_of SPI_PUSHR d.hw.2 := by
    rw [hd1]; exact get_frame_mode_writes env d
  have hloop := dspi_eoq_write_loop_spec env fm d.tx_cmd D hD64 fuel L true 0 0 d1 g1 hmax
    g2 (Nat.zero_le _) (Nat.le_refl _) (by simpa using h32) (by simpa using hfuel)
  simp only [Nat.sub_zero, Nat.zero_add] at hloop
  generalize hn : min L (D / fifo_entries_per_frm fm) = n at hloop h32 hfuel ⊢
  have hnL : n ≤ L := by rw [← hn]; exact Nat.min_le_left _ _
  obtain ⟨r, hr⟩ : ∃ r, r = dspi_eoq_write_loop (traced env) fm (fifo_entries_per_frm fm)
      d.tx_cmd fuel true 0 0 d1 := ⟨_, rfl⟩
  rw [← hr] at hloop
  obtain ⟨l1, l2, l3, frames, l4, l5, l6⟩ := hloop
  have hw : dspi_eoq_write fuel (traced env) d =
      (some (to_int ((to_ulong ((d.len : Int) - r.2.len) : Nat) : Int)), r.2) := by
    unfold dspi_eoq_write and_then
    simp only [hfm, ← hd1]
    have : fifo_entries_per_frm fm = (if fm = .FM_BYTES_4 then 2 else 1) := rfl
    rw [← this, ← hr, l1]
  rw [hw]
  refine ⟨?_, l2, by rw [l3, g3], frames, by rw [l4, g4], l5, l6⟩
  simp only
  rw [l2, hlen, Nat.sub_mul]
  have hle : n * bytes_per_frame fm ≤ L * bytes_per_frame fm := Nat.mul_le_mul_right _ hnL
  generalize n * bytes_per_frame fm = a at hle ⊢
  generalize L * bytes_per_frame fm = b at hle hmax ⊢
  have : to_ulong ((b : Int) - ((b - a : Nat) : Int)) = a := by
    unfold to_ulong; omega
  rw [this]

/-- C11, as stated, fails in two places. With twelve chip selects the base
command of chip select 11 is `BIT(11) & pcs_mask = 0x0800`, the very bit of
`SPI_PUSHR_CMD_EOQ`: of the two one-byte frames pushed, the first carries the
end-of-queue bit as well as the last. And the value returned is an `int`: with
two-byte frames, `2^30` frames left and a FIFO depth of `2^30`, the call pushes
`2^30` frames (`2^31` bytes) and returns `-2^31`, not `2 * 2^30`. -/
theorem dspi_eoq_write_batch_counterexample :
    (eoq_state (SPI_CTAR_FMSZ 7) 12 4 2 (SPI_PUSHR_CMD_PCS 11 0xfff)).tx_cmd = 0x0800 ∧
    (get_frame_mode (traced sim_env)
      (eoq_state (SPI_CTAR_FMSZ 7) 12 4 2 (SPI_PUSHR_CMD_PCS 11 0xfff))).1 = .FM_BYTES_1 ∧
    (writes_of SPI_PUSHR (dspi_eoq_write 10 (traced sim_env)
      (eoq_state (SPI_CTAR_FMSZ 7) 12 4 2 (SPI_PUSHR_CMD_PCS 11 0xfff))).2.hw.2).map
        (fun v => decide (v &&& SPI_PUSHR_EOQ ≠ 0)) = [true, true] ∧
    (get_frame_mode (traced sim_env)
      (eoq_state (SPI_CTAR_FMSZ 15) 4 (2 ^ 30) (2 ^ 31) 1)).1 = .FM_BYTES_2 ∧
    (dspi_eoq_write (2 ^ 30 + 1) (traced sim_env)
      (eoq_state (SPI_CTAR_FMSZ 15) 4 (2 ^ 30) (2 ^ 31) 1)).1 = some (-2 ^ 31) ∧
    (dspi_eoq_write (2 ^ 30 + 1) (traced sim_env)
      (eoq_state (SPI_CTAR_FMSZ 15) 4 (2 ^ 30) (2 ^ 31) 1)).2.queue_size = 2 ^ 30 := by
  have hfm : (get_frame_mode (traced sim_env)
      (eoq_state (SPI_CTAR_FMSZ 15) 4 (2 ^ 30) (2 ^ 31) 1)).1 = .FM_BYTES_2 := by decide
  have hn : min (2 ^ 30) (2 ^ 30 / fifo_entries_per_frm .FM_BYTES_2) = 2 ^ 30 := by decide
  have hs := dspi_eoq_write_spec sim_env (2 ^ 30 + 1)
    (eoq_state (SPI_CTAR_FMSZ 15) 4 (2 ^ 30) (2 ^ 31) 1) .FM_BYTES_2 (2 ^ 30) (2 ^ 30) hfm
    (by decide) (by decide) (by decide) (by decide)
    (by rw [hn]; decide) (by rw [hn]; decide)
  rw [hn] at hs
  refine ⟨by decide, by decide, by decide, hfm, ?_, ?_⟩
  · rw [hs.1]
    decide
  · rw [hs.2.2.1]
    decide

/-- C11 (amended). `dspi_eoq_write` batch size: for every frame width `w` in
`{1, 2, 4}` (`e = 2` FIFO entries per frame when `w = 4`, else `e = 1`), every
FIFO depth `D >= e` and every remaining length of `L >= 1` whole frames
(`len = L * w`), with a base command `dspi->tx_cmd` that has the end-of-queue bit
clear and a byte count `w * min(L, D / e)` that fits an `int`: one call pushes
exactly `n = min(L, floor(D / e))` frames, the end-of-queue bit is set on the
last frame pushed and on no other, `dspi->queue_size` afterwards is `n`, and the
return value and the decrease of `dspi->len` both equal `w * n`. -/
theorem dspi_eoq_write_batch (env : dspi_env σ) (fuel : Nat)
    (d : fsl_dspi (σ × List reg_access)) (fm : frame_mode) (L D : Nat)
    (hfm : (get_frame_mode (traced env) d).1 = fm)
    (hlen : d.len = L * bytes_per_frame fm) (hL : 1 ≤ L) (hmax : d.len < 2 ^ 64)
    (hD : d.fifo_size = D) (hDe : fifo_entries_per_frm fm ≤ D) (hD64 : D < 2 ^ 64)
    (hcmd : d.tx_cmd &&& SPI_PUSHR_CMD_EOQ = 0)
    (hint : ((min L (D / fifo_entries_per_frm fm) * bytes_per_frame fm : Nat) : Int) ≤ INT_MAX)
    (hfuel : min L (D / fifo_entries_per_frm fm) < fuel) :
    1 ≤ min L (D / fifo_entries_per_frm fm) ∧
    (dspi_eoq_write fuel (traced env) d).1 =
      some ((min L (D / fifo_entries_per_frm fm) * bytes_per_frame fm : Nat) : Int) ∧
    d.len - (dspi_eoq_write fuel (traced env) d).2.len =
      min L (D / fifo_entries_per_frm fm) * bytes_per_frame fm ∧
    (dspi_eoq_write fuel (traced env) d).2.queue_size = min L (D / fifo_entries_per_frm fm) ∧
    ∃ frames : List Nat,
      writes_of SPI_PUSHR (dspi_eoq_write fuel (traced env) d).2.hw.2 =
        writes_of SPI_PUSHR d.hw.2 ++ frames ∧
      frames.length = min L (D / fifo_entries_per_frm fm) ∧
      ∀ k, k < frames.length →
        (frames.getD k 0 &&& SPI_PUSHR_EOQ ≠ 0 ↔ k + 1 = frames.length) := by
  have he := fifo_entries_per_frm_cases fm
  have hw := bytes_per_frame_pos fm
  have hn1 : 1 ≤ min L (D / fifo_entries_per_frm fm) := by
    rcases he with h | h <;> rw [h] at hDe ⊢ <;> omega
  have hnw : min L (D / fifo_entries_per_frm fm) ≤
      min L (D / fifo_entries_per_frm fm) * bytes_per_frame fm := Nat.le_mul_of_pos_right _ hw
  unfold INT_MAX at hint
  have hs := dspi_eoq_write_spec env fuel d fm L D hfm hlen (by rw [← hlen]; exact hmax) hD hD64
    (by omega) hfuel
  have hbit := (and_cmd_eoq_eq_zero_iff _).mp hcmd
  obtain ⟨s1, s2, s3, frames, s4, s5, s6⟩ := hs
  refine ⟨hn1, ?_, ?_, ?_, frames, s4, s5, ?_⟩
  · rw [s1, to_int_of_range _ (by omega) (by omega)]
  · rw [s2, hlen, Nat.sub_mul]
    have hle : min L (D / fifo_entries_per_frm fm) * bytes_per_frame fm ≤
        L * bytes_per_frame fm := Nat.mul_le_mul_right _ (Nat.min_le_left _ _)
    omega
  · rw [s3, if_neg (by omega)]
  · intro k hk
    rw [and_eoq_ne_zero_iff, s6 k hk, hbit]
    simp

/-- C11 (amended) on the simulated hardware: one-byte frames, 6 bytes left, a
FIFO of 4 entries: 4 frames are pushed. -/
theorem dspi_eoq_write_batch_witness :
    (get_frame_mode (traced sim_env) (eoq_state (SPI_CTAR_FMSZ 7) 4 4 6 1)).1 = .FM_BYTES_1 ∧
    (eoq_state (SPI_CTAR_FMSZ 7) 4 4 6 1).len = 6 * bytes_per_frame .FM_BYTES_1 ∧
    (eoq_state (SPI_CTAR_FMSZ 7) 4 4 6 1).tx_cmd &&& SPI_PUSHR_CMD_EOQ = 0 ∧
    (dspi_eoq_write 5 (traced sim_env) (eoq_state (SPI_CTAR_FMSZ 7) 4 4 6 1)).2.queue_size =
      min 6 (4 / fifo_entries_per_frm .FM_BYTES_1) :=
  ⟨by decide, by decide, by decide,
    (dspi_eoq_write_batch sim_env 5 (eoq_state (SPI_CTAR_FMSZ 7) 4 4 6 1) .FM_BYTES_1 6 4
      (by decide) (by decide) (by decide) (by decide) (by decide) (by decide) (by decide)
      (by decide) (by decide) (by decide)).2.2.2.1⟩

end eoq2

/-! ## Theorems: the frame codec -/

section codec
variable {σ : Type}

theorem write_u8_same (m : Nat → Nat) (p v : Nat) : write_u8 m p v p = v % 256 := by
  simp [write_u8]

theorem write_u8_other (m : Nat → Nat) (p v a : Nat) (h : a ≠ p) : write_u8 m p v a = m a := by
  simp [write_u8, h]

theorem read_u16_write_u16 (m : Nat → Nat) (p v : Nat) :
    read_u16 (write_u16 m p v) p = v % 65536 := by
  unfold read_u16 read_u8 write_u16
  rw [write_u8_other _ _ _ p (by omega), write_u8_same, write_u8_same]
  omega

theorem write_u16_other (m : Nat → Nat) (p v a : Nat) (h : a < p ∨ p + 2 ≤ a) :
    write_u16 m p v a = m a := by
  unfold write_u16
  rw [write_u8_other _ _ _ a (by omega), write_u8_other _ _ _ a (by omega)]

end codec

/-! ## Theorems: the end-of-queue read after a write of whole frames -/

section eoq_read
variable {σ : Type}

/-- The fields of the receive side, which the end-of-queue write leaves alone. -/
theorem dspi_eoq_write_body_rx (env : dspi_env σ) (fm : frame_mode) (e cmd : Nat)
    (first : Bool) (used count : Nat) (d : fsl_dspi σ) :
    (dspi_eoq_write_body env fm e cmd first used count d).2.2.rx = d.rx ∧
    (dspi_eoq_write_body env fm e cmd first used count d).2.2.rx_end = d.rx_end ∧
    (dspi_eoq_write_body env fm e cmd first used count d).2.2.dataflags = d.dataflags ∧
    (dspi_eoq_write_body env fm e cmd first used count d).2.2.mem = d.mem := by
  unfold dspi_eoq_write_body
  cases fm <;> simp [dspi_data_to_pushr] <;> split_ifs <;> simp

theorem dspi_eoq_write_loop_rx (env : dspi_env σ) (fm : frame_mode) (e cmd : Nat) :
    ∀ (fuel : Nat) (first : Bool) (used count : Nat) (d : fsl_dspi σ),
      (dspi_eoq_write_loop env fm e cmd fuel first used count d).2.rx = d.rx ∧
      (dspi_eoq_write_loop env fm e cmd fuel first used count d).2.rx_end = d.rx_end ∧
      (dspi_eoq_write_loop env fm e cmd fuel first used count d).2.dataflags = d.dataflags ∧
      (dspi_eoq_write_loop env fm e cmd fuel first used count d).2.mem = d.mem := by
  intro fuel
  induction fuel with
  | zero => intro first used count d; exact ⟨rfl, rfl, rfl, rfl⟩
  | succ fuel ih =>
    intro first used count d
    rw [dspi_eoq_write_loop_succ]
    split
    · obtain ⟨b1, b2, b3, b4⟩ := dspi_eoq_write_body_rx env fm e cmd first used count d
      obtain ⟨i1, i2, i3, i4⟩ := ih false
        (dspi_eoq_write_body env fm e cmd first used count d).1
        (dspi_eoq_write_body env fm e cmd first used count d).2.1
        (dspi_eoq_write_body env fm e cmd first used count d).2.2
      exact ⟨i1.trans b1, i2.trans b2, i3.trans b3, i4.trans b4⟩
    · exact ⟨rfl, rfl, rfl, rfl⟩

theorem dspi_eoq_write_rx (env : dspi_env σ) (fuel : Nat) (d : fsl_dspi σ) :
    (dspi_eoq_write fuel env d).2.rx = d.rx ∧
    (dspi_eoq_write fuel env d).2.rx_end = d.rx_end ∧
    (dspi_eoq_write fuel env d).2.dataflags = d.dataflags ∧
    (dspi_eoq_write fuel env d).2.mem = d.mem := by
  have hst := get_frame_mode_state env d
  obtain ⟨l1, l2, l3, l4⟩ := dspi_eoq_write_loop_rx env (get_frame_mode env d).1
    (if (get_frame_mode env d).1 = .FM_BYTES_4 then 2 else 1) d.tx_cmd fuel true 0 0
    (get_frame_mode env d).2
  have g1 : (get_frame_mode env d).2.rx = d.rx := by rw [hst]
  have g2 : (get_frame_mode env d).2.rx_end = d.rx_end := by rw [hst]
  have g3 : (get_frame_mode env d).2.dataflags = d.dataflags := by rw [hst]
  have g4 : (get_frame_mode env d).2.mem = d.mem := by rw [hst]
  unfold dspi_eoq_write and_then
  simp only
  split
  · exact ⟨l1.trans g1, l2.trans g2, l3.trans g3, l4.trans g4⟩
  · exact ⟨l1.trans g1, l2.trans g2, l3.trans g3, l4.trans g4⟩

theorem read_u16_congr (m1 m2 : Nat → Nat) (p : Nat)
    (h : ∀ a, p ≤ a → a < p + 2 → m1 a = m2 a) : read_u16 m1 p = read_u16 m2 p := by
  unfold read_u16 read_u8
  rw [h p (by omega) (by omega), h (p + 1) (by omega) (by omega)]

theorem read_u32_write_u32 (m : Nat → Nat) (p v : Nat) :
    read_u32 (write_u32 m p v) p = v % 2 ^ 32 := by
  unfold read_u32 write_u32
  have h1 : read_u16 (write_u16 (write_u16 m p v) (p + 2) (v / 65536)) p =
      read_u16 (write_u16 m p v) p :=
    read_u16_congr _ _ p (fun a h1 h2 => write_u16_other _ _ _ a (by omega))
  rw [h1, read_u16_write_u16, read_u16_write_u16]
  omega

theorem write_u32_other (m : Nat → Nat) (p v a : Nat) (h : a < p ∨ p + 4 ≤ a) :
    write_u32 m p v a = m a := by
  unfold write_u32
  rw [write_u16_other _ _ _ a (by omega), write_u16_other _ _ _ a (by omega)]

theorem read_frame_congr (fm : frame_mode) (m1 m2 : Nat → Nat) (p : Nat)
    (h : ∀ a, p ≤ a → a < p + bytes_per_frame fm → m1 a = m2 a) :
    read_frame fm m1 p = read_frame fm m2 p := by
  cases fm
  · simp only [read_frame, read_u8]
    rw [h p (by omega) (by simp [bytes_per_frame])]
  · exact read_u16_congr m1 m2 p (fun a h1 h2 => h a h1 (by simpa [bytes_per_frame] using h2))
  · simp only [read_frame, read_u32]
    rw [read_u16_congr m1 m2 p (fun a h1 h2 => h a h1 (by simp [bytes_per_frame]; omega)),
      read_u16_congr m1 m2 (p + 2)
        (fun a h1 h2 => h a (by omega) (by simp [bytes_per_frame]; omega))]

/-- One `dspi_data_from_popr`: one value is read from `SPI_POPR`; with a receive
buffer its low `8 * w` bits are stored at the receive cursor, at the width of
the frame mode, and nothing else is written; the cursor advances by `w`. -/
theorem dspi_data_from_popr_spec (env : dspi_env σ) (d : fsl_dspi (σ × List reg_access))
    (fm : frame_mode) :
    (dspi_data_from_popr (traced env) d fm).rx = d.rx + bytes_per_frame fm ∧
    (dspi_data_from_popr (traced env) d fm).rx_end = d.rx_end ∧
    (dspi_data_from_popr (traced env) d fm).dataflags = d.dataflags ∧
    ∃ v, reads_of SPI_POPR (dspi_data_from_popr (traced env) d fm).hw.2 =
        reads_of SPI_POPR d.hw.2 ++ [v] ∧
      (d.dataflags &&& TRAN_STATE_RX_VOID ≠ 0 →
        (dspi_data_from_popr (traced env) d fm).mem = d.mem) ∧
      (d.dataflags &&& TRAN_STATE_RX_VOID = 0 →
        read_frame fm (dspi_data_from_popr (traced env) d fm).mem d.rx =
          v % 2 ^ (8 * bytes_per_frame fm) ∧
        ∀ a, a < d.rx ∨ d.rx + bytes_per_frame fm ≤ a →
          (dspi_data_from_popr (traced env) d fm).mem a = d.mem a) := by
  refine ⟨rfl, rfl, rfl, (env.regmap_read d.hw.1 SPI_POPR).1, ?_, ?_, ?_⟩
  · simp [dspi_data_from_popr, traced, reads_of, List.filterMap_append]
  · intro hv
    simp [dspi_data_from_popr, hv]
  · intro hv
    have m8 : ∀ x : Nat, x &&& 0xff = x % 256 := fun x => by
      have := Nat.and_pow_two_sub_one_eq_mod x 8
      norm_num at this ⊢
      exact this
    have m16 : ∀ x : Nat, x &&& 0xffff = x % 65536 := fun x => by
      have := Nat.and_pow_two_sub_one_eq_mod x 16
      norm_num at this ⊢
      exact this
    have m32 : ∀ x : Nat, x &&& 0xffffffff = x % 4294967296 := fun x => by
      have := Nat.and_pow_two_sub_one_eq_mod x 32
      norm_num at this ⊢
      exact this
    cases fm
    · simp only [dspi_data_from_popr, hv, traced, ne_eq, not_true_eq_false, if_false,
        read_frame, bytes_per_frame, SPI_POPR_RXDATA_8, m8]
      refine ⟨?_, fun a ha => write_u8_other _ _ _ a (by omega)⟩
      simp only [read_u8, write_u8_same]
      omega
    · simp only [dspi_data_from_popr, hv, traced, ne_eq, not_true_eq_false, if_false,
        read_frame, bytes_per_frame, SPI_POPR_RXDATA_16, m16]
      refine ⟨?_, fun a ha => write_u16_other _ _ _ a ha⟩
      rw [read_u16_write_u16]
      omega
    · simp only [dspi_data_from_popr, hv, traced, ne_eq, not_true_eq_false, if_false,
        read_frame, bytes_per_frame, SPI_POPR_RXDATA_32, m32]
      refine ⟨?_, fun a ha => write_u32_other _ _ _ a ha⟩
      rw [read_u32_write_u32]
      omega

/-- The loop of `dspi_eoq_read` with `q` frames to go and room for them before
`rx_end`: it pops exactly `q` values, counts `q * w` bytes and advances the
receive cursor by as much; with a receive buffer the values are stored in order
at the width of the frame mode, and nothing else is written. -/
theorem dspi_eoq_read_loop_spec (env : dspi_env σ) (fm : frame_mode) :
    ∀ (q c : Nat) (d : fsl_dspi (σ × List reg_access)),
      d.rx + q * bytes_per_frame fm ≤ d.rx_end → c + q * bytes_per_frame fm < 2 ^ 32 →
      (dspi_eoq_read_loop (traced env) fm q c d).1 = c + q * bytes_per_frame fm ∧
      (dspi_eoq_read_loop (traced env) fm q c d).2.rx = d.rx + q * bytes_per_frame fm ∧
      ∃ vals : List Nat,
        reads_of SPI_POPR (dspi_eoq_read_loop (traced env) fm q c d).2.hw.2 =
          reads_of SPI_POPR d.hw.2 ++ vals ∧
        vals.length = q ∧
        (d.dataflags &&& TRAN_STATE_RX_VOID ≠ 0 →
          (dspi_eoq_read_loop (traced env) fm q c d).2.mem = d.mem) ∧
        (d.dataflags &&& TRAN_STATE_RX_VOID = 0 →
          (∀ k, k < q →
            read_frame fm (dspi_eoq_read_loop (traced env) fm q c d).2.mem
              (d.rx + k * bytes_per_frame fm) = vals.getD k 0 % 2 ^ (8 * bytes_per_frame fm)) ∧
          ∀ a, a < d.rx ∨ d.rx + q * bytes_per_frame fm ≤ a →
            (dspi_eoq_read_loop (traced env) fm q c d).2.mem a = d.mem a) := by
  have hw := bytes_per_frame_pos fm
  generalize hw0 : bytes_per_frame fm = w at hw
  intro q
  induction q with
  | zero =>
    intro c d _ _
    refine ⟨by simp [dspi_eoq_read_loop], by simp [dspi_eoq_read_loop], [], by
      simp [dspi_eoq_read_loop], rfl, fun _ => rfl, fun _ => ⟨fun k hk => absurd hk
      (Nat.not_lt_zero _), fun a _ => rfl⟩⟩
  | succ q ih =>
    intro c d hroom hc
    have hqw : (q + 1) * w = q * w + w := by rw [Nat.add_mul, Nat.one_mul]
    rw [hqw] at hroom hc ⊢
    obtain ⟨p1, p2, p3, v, p4, p5, p6⟩ := dspi_data_from_popr_spec env d fm
    obtain ⟨d1, hd1⟩ : ∃ d1, d1 = dspi_data_from_popr (traced env) d fm := ⟨_, rfl⟩
    rw [← hd1] at p1 p2 p3 p4 p5 p6
    rw [hw0] at p1 p6
    have hlt : d.rx < d.rx_end := by omega
    have hcw : to_u32 ((c : Int) + (w : Int)) = c + w := by unfold to_u32; omega
    have hstep : dspi_eoq_read_loop (traced env) fm (q + 1) c d =
        dspi_eoq_read_loop (traced env) fm q (c + w) d1 := by
      rw [dspi_eoq_read_loop, if_pos hlt, hw0, hcw, hd1]
    obtain ⟨i1, i2, vals, i3, i4, i5, i6⟩ := ih (c + w) d1 (by rw [p1, p2]; omega) (by omega)
    rw [hstep]
    refine ⟨by rw [i1]; omega, by rw [i2, p1]; omega, v :: vals, ?_, by simp [i4], ?_, ?_⟩
    · rw [i3, p4, List.append_assoc]
      rfl
    · intro hv
      rw [i5 (by rw [p3]; exact hv), p5 hv]
    · intro hv
      obtain ⟨j1, j2⟩ := i6 (by rw [p3]; exact hv)
      obtain ⟨k1, k2⟩ := p6 hv
      constructor
      · intro k hk
        rcases k with _ | k
        · simp only [Nat.zero_mul, Nat.add_zero, List.getD_cons_zero]
          rw [← k1]
          apply read_frame_congr
          intro a ha1 ha2
          rw [hw0] at ha2
          exact j2 a (Or.inl (by rw [p1]; omega))
        · have := j1 k (by omega)
          rw [p1] at this
          simp only [List.getD_cons_succ]
          rw [show d.rx + (k + 1) * w = d.rx + w + k * w by
            rw [Nat.add_mul, Nat.one_mul]; omega]
          exact this
      · intro a ha
        rw [j2 a (by rw [p1]; omega), k2 a (by omega)]

theorem get_frame_mode_reads_popr (env : dspi_env σ) (d : fsl_dspi (σ × List reg_access)) :
    reads_of SPI_POPR (get_frame_mode (traced env) d).2.hw.2 = reads_of SPI_POPR d.hw.2 := by
  have h1 : SPI_MCR ≠ SPI_POPR := by decide
  have h2 : SPI_CTARE0 ≠ SPI_POPR := by decide
  have h3 : SPI_CTAR0 ≠ SPI_POPR := by decide
  unfold get_frame_mode
  simp only [traced]
  split_ifs <;> simp [reads_of, List.filterMap_append, h1, h2, h3]

/-- The drain count of `dspi_eoq_read` where the transfer is a whole number of
frames (what is left of C12 outside its failing inputs): for every frame width
`w` in `{1, 2, 4}`, whenever `dspi_eoq_write` is entered with a whole number `L >= 1`
of frames of width `w` left (`len = L * w`), `rx_end - rx = len` and a FIFO with
room for a frame, and has queued its `q = min(L, D / e)` frames (`q * w` fitting
an `int`), the `dspi_eoq_read` that follows, reading the same frame mode, pops
exactly `q` values from `SPI_POPR`, advances the receive cursor by `q * w` and
returns `q * w`, both with a receive buffer and without (`TRAN_STATE_RX_VOID`,
the memory is then left as it was); with a receive buffer the `q` popped values
are stored in order at the width of the frame. -/
theorem dspi_eoq_read_after_write (env : dspi_env σ) (fuel : Nat)
    (d : fsl_dspi (σ × List reg_access)) (fm : frame_mode) (L D : Nat)
    (hfm : (get_frame_mode (traced env) d).1 = fm)
    (hfm2 : (get_frame_mode (traced env) (dspi_eoq_write fuel (traced env) d).2).1 = fm)
    (hlen : d.len = L * bytes_per_frame fm) (hL : 1 ≤ L) (hmax : d.len < 2 ^ 64)
    (hD : d.fifo_size = D) (hDe : fifo_entries_per_frm fm ≤ D) (hD64 : D < 2 ^ 64)
    (hrx : d.rx_end = d.rx + d.len)
    (hint : ((min L (D / fifo_entries_per_frm fm) * bytes_per_frame fm : Nat) : Int) ≤ INT_MAX)
    (hfuel : min L (D / fifo_entries_per_frm fm) < fuel) :
    (dspi_eoq_write fuel (traced env) d).2.queue_size = min L (D / fifo_entries_per_frm fm) ∧
    (dspi_eoq_read (traced env) (dspi_eoq_write fuel (traced env) d).2).1 =
      ((min L (D / fifo_entries_per_frm fm) * bytes_per_frame fm : Nat) : Int) ∧
    (dspi_eoq_read (traced env) (dspi_eoq_write fuel (traced env) d).2).2.rx =
      d.rx + min L (D / fifo_entries_per_frm fm) * bytes_per_frame fm ∧
    ∃ vals : List Nat,
      reads_of SPI_POPR
          (dspi_eoq_read (traced env) (dspi_eoq_write fuel (traced env) d).2).2.hw.2 =
        reads_of SPI_POPR (dspi_eoq_write fuel (traced env) d).2.hw.2 ++ vals ∧
      vals.length = min L (D / fifo_entries_per_frm fm) ∧
      (d.dataflags &&& TRAN_STATE_RX_VOID ≠ 0 →
        (dspi_eoq_read (traced env) (dspi_eoq_write fuel (traced env) d).2).2.mem = d.mem) ∧
      (d.dataflags &&& TRAN_STATE_RX_VOID = 0 →
        ∀ k, k < min L (D / fifo_entries_per_frm fm) →
          read_frame fm (dspi_eoq_read (traced env) (dspi_eoq_write fuel (traced env) d).2).2.mem
            (d.rx + k * bytes_per_frame fm) =
              vals.getD k 0 % 2 ^ (8 * bytes_per_frame fm)) := by
  have he := fifo_entries_per_frm_cases fm
  have hw := bytes_per_frame_pos fm
  have hn1 : 1 ≤ min L (D / fifo_entries_per_frm fm) := by
    rcases he with h | h <;> rw [h] at hDe ⊢ <;> omega
  have hnw : min L (D / fifo_entries_per_frm fm) ≤
      min L (D / fifo_entries_per_frm fm) * bytes_per_frame fm := Nat.le_mul_of_pos_right _ hw
  have hle : min L (D / fifo_entries_per_frm fm) * bytes_per_frame fm ≤
      L * bytes_per_frame fm := Nat.mul_le_mul_right _ (Nat.min_le_left _ _)
  unfold INT_MAX at hint
  obtain ⟨_, _, s3, _⟩ := dspi_eoq_write_spec env fuel d fm L D hfm hlen
    (by rw [← hlen]; exact hmax) hD hD64 (by omega) hfuel
  rw [if_neg (by omega)] at s3
  obtain ⟨w1, w2, w3, w4⟩ := dspi_eoq_write_rx (traced env) fuel d
  obtain ⟨d1, hd1⟩ : ∃ d1, d1 = (dspi_eoq_write fuel (traced env) d).2 := ⟨_, rfl⟩
  rw [← hd1] at s3 w1 w2 w3 w4 hfm2 ⊢
  have hst := get_frame_mode_state (traced env) d1
  obtain ⟨d2, hd2⟩ : ∃ d2, d2 = (get_frame_mode (traced env) d1).2 := ⟨_, rfl⟩
  rw [← hd2] at hst
  have g1 : d2.rx = d.rx := by rw [hst]; exact w1
  have g2 : d2.rx_end = d.rx_end := by rw [hst]; exact w2
  have g3 : d2.dataflags = d.dataflags := by rw [hst]; exact w3
  have g4 : d2.mem = d.mem := by rw [hst]; exact w4
  have g5 : d2.queue_size = min L (D / fifo_entries_per_frm fm) := by rw [hst]; exact s3
  have g6 : reads_of SPI_POPR d2.hw.2 = reads_of SPI_POPR d1.hw.2 := by
    rw [hd2]; exact get_frame_mode_reads_popr env d1
  have hread : dspi_eoq_read (traced env) d1 =
      (to_int (dspi_eoq_read_loop (traced env) fm d2.queue_size 0 d2).1,
        (dspi_eoq_read_loop (traced env) fm d2.queue_size 0 d2).2) := by
    unfold dspi_eoq_read
    simp only [hfm2, ← hd2]
  rw [hread, g5]
  generalize hn : min L (D / fifo_entries_per_frm fm) = n at *
  obtain ⟨l1, l2, vals, l3, l4, l5, l6⟩ := dspi_eoq_read_loop_spec env fm n 0 d2
    (by rw [g1, g2, hrx, hlen]; omega) (by omega)
  refine ⟨s3, ?_, by rw [l2, g1], vals, by rw [l3, g6], l4, ?_, ?_⟩
  · simp only
    rw [l1, Nat.zero_add, to_int_of_range _ (by omega) (by omega)]
  · intro hv
    rw [l5 (by rw [g3]; exact hv), g4]
  · intro hv k hk
    have := (l6 (by rw [g3]; exact hv)).1 k hk
    rw [g1] at this
    exact this

/-- The whole-frame drain count on the simulated hardware: one-byte frames,
6 bytes left, a FIFO of 4 entries: 4 frames are queued and 4 values popped. -/
theorem dspi_eoq_read_after_write_witness :
    (get_frame_mode (traced sim_env) (eoq_state (SPI_CTAR_FMSZ 7) 4 4 6 1)).1 = .FM_BYTES_1 ∧
    (eoq_state (SPI_CTAR_FMSZ 7) 4 4 6 1).len = 6 * bytes_per_frame .FM_BYTES_1 ∧
    (eoq_state (SPI_CTAR_FMSZ 7) 4 4 6 1).rx_end =
      (eoq_state (SPI_CTAR_FMSZ 7) 4 4 6 1).rx + (eoq_state (SPI_CTAR_FMSZ 7) 4 4 6 1).len ∧
    (dspi_eoq_read (traced sim_env)
      (dspi_eoq_write 5 (traced sim_env) (eoq_state (SPI_CTAR_FMSZ 7) 4 4 6 1)).2).2.rx =
      (eoq_state (SPI_CTAR_FMSZ 7) 4 4 6 1).rx +
        min 6 (4 / fifo_entries_per_frm .FM_BYTES_1) * bytes_per_frame .FM_BYTES_1 :=
  ⟨by decide, by decide, by decide,
    (dspi_eoq_read_after_write sim_env 5 (eoq_state (SPI_CTAR_FMSZ 7) 4 4 6 1) .FM_BYTES_1 6 4
      (by decide) (by decide) (by decide) (by decide) (by decide) (by decide) (by decide)
      (by decide) (by decide) (by decide) (by decide)).2.2.1⟩

end eoq_read

/-! ## Theorems: the word-width fields are not written -/

section width
variable {σ : Type}

theorem same_width_refl (d : fsl_dspi σ) : same_width d d := ⟨rfl, rfl⟩

theorem same_width_trans {d1 d2 d3 : fsl_dspi σ} (h1 : same_width d1 d2)
    (h2 : same_width d2 d3) : same_width d1 d3 :=
  ⟨h2.1.trans h1.1, h2.2.trans h1.2⟩

/-- Sequencing keeps the word-width fields when both steps do. -/
theorem and_then_width {α β : Type} (d : fsl_dspi σ) (r : Option α × fsl_dspi σ)
    (f : α → fsl_dspi σ → Option β × fsl_dspi σ) (hr : same_width d r.2)
    (hf : ∀ a d1, same_width d d1 → same_width d (f a d1).2) :
    same_width d (and_then r f).2 := by
  unfold and_then
  split
  · exact hr
  · exact hf _ _ hr

theorem get_frame_mode_width (env : dspi_env σ) (d : fsl_dspi σ) :
    same_width d (get_frame_mode env d).2 := by
  unfold get_frame_mode
  simp only
  split_ifs <;> exact ⟨rfl, rfl⟩

theorem dspi_pop_tx_width (d : fsl_dspi σ) : same_width d (dspi_pop_tx d).2 := ⟨rfl, rfl⟩

theorem dspi_pop_tx_pushr_width (d : fsl_dspi σ) : same_width d (dspi_pop_tx_pushr d).2 := by
  unfold dspi_pop_tx_pushr
  simp only
  split <;> exact ⟨rfl, rfl⟩

theorem dspi_push_rx_width (d : fsl_dspi σ) (rxdata : Nat) :
    same_width d (dspi_push_rx d rxdata) := by
  unfold dspi_push_rx
  split <;> exact ⟨rfl, rfl⟩

theorem dspi_data_to_pushr_width (d : fsl_dspi σ) (tw : Nat) :
    same_width d (dspi_data_to_pushr d tw).2 := ⟨rfl, rfl⟩

theorem dspi_data_from_popr_width (env : dspi_env σ) (d : fsl_dspi σ) (fm : frame_mode) :
    same_width d (dspi_data_from_popr env d fm) := ⟨rfl, rfl⟩

theorem dspi_eoq_write_body_width (env : dspi_env σ) (fm : frame_mode) (e cmd : Nat)
    (first : Bool) (used count : Nat) (d : fsl_dspi σ) :
    same_width d (dspi_eoq_write_body env fm e cmd first used count d).2.2 := by
  unfold dspi_eoq_write_body same_width
  cases fm <;> simp [dspi_data_to_pushr] <;> split_ifs <;> simp

theorem dspi_eoq_write_loop_width (env : dspi_env σ) (fm : frame_mode) (e cmd : Nat) :
    ∀ (fuel : Nat) (first : Bool) (used count : Nat) (d : fsl_dspi σ),
      same_width d (dspi_eoq_write_loop env fm e cmd fuel first used count d).2 := by
  intro fuel
  induction fuel with
  | zero => intro first used count d; exact ⟨rfl, rfl⟩
  | succ fuel ih =>
    intro first used count d
    rw [dspi_eoq_write_loop_succ]
    split
    · exact same_width_trans (dspi_eoq_write_body_width env fm e cmd first used count d)
        (ih _ _ _ _)
    · exact ⟨rfl, rfl⟩

theorem dspi_eoq_write_width (fuel : Nat) (env : dspi_env σ) (d : fsl_dspi σ) :
    same_width d (dspi_eoq_write fuel env d).2 := by
  unfold dspi_eoq_write
  simp only
  apply and_then_width
  · exact same_width_trans (get_frame_mode_width env d) (dspi_eoq_write_loop_width _ _ _ _ _ _ _ _ _)
  · intro _ d1 h; exact h

theorem dspi_eoq_read_loop_width (env : dspi_env σ) (fm : frame_mode) :
    ∀ (n c : Nat) (d : fsl_dspi σ), same_width d (dspi_eoq_read_loop env fm n c d).2 := by
  intro n
  induction n with
  | zero => intro c d; exact ⟨rfl, rfl⟩
  | succ n ih =>
    intro c d
    rw [dspi_eoq_read_loop]
    split
    · exact same_width_trans (dspi_data_from_popr_width env d fm) (ih _ _)
    · exact ⟨rfl, rfl⟩

theorem dspi_eoq_read_width (env : dspi_env σ) (d : fsl_dspi σ) :
    same_width d (dspi_eoq_read env d).2 := by
  unfold dspi_eoq_read
  simp only
  exact same_width_trans (get_frame_mode_width env d) (dspi_eoq_read_loop_width _ _ _ _ _)

theorem dspi_tcfq_write_width (env : dspi_env σ) (d : fsl_dspi σ) :
    same_width d (dspi_tcfq_write env d) := by
  unfold dspi_tcfq_write same_width
  simp only
  split
  · exact ⟨rfl, rfl⟩
  · simp only [fifo_write, dspi_pop_tx_pushr]
    split <;> exact ⟨rfl, rfl⟩

theorem dspi_tcfq_read_width (env : dspi_env σ) (d : fsl_dspi σ) :
    same_width d (dspi_tcfq_read env d) := by
  unfold dspi_tcfq_read fifo_read
  exact dspi_push_rx_width _ _

theorem dspi_rxtx_width (fuel : Nat) (env : dspi_env σ) (d : fsl_dspi σ) :
    same_width d (dspi_rxtx fuel env d).2 := by
  obtain ⟨d1, hd1⟩ : ∃ d1 : fsl_dspi σ,
      d1 = { d with
        hw := (env.regmap_read d.hw SPI_TCR).2,
        actual_length := to_u32 ((d.actual_length : Int) +
          to_u16 (SPI_TCR_GET_TCNT (env.regmap_read d.hw SPI_TCR).1) * d.bytes_per_word) } :=
    ⟨_, rfl⟩
  have h1 : same_width d d1 := by rw [hd1]; exact ⟨rfl, rfl⟩
  unfold dspi_rxtx
  simp only [← hd1]
  refine same_width_trans h1 ?_
  generalize d1 = d1
  have hr := dspi_eoq_read_width env d1
  have ht := dspi_tcfq_read_width env d1
  split_ifs
  · exact hr
  · refine and_then_width _ _ _ (same_width_trans hr (dspi_eoq_write_width _ _ _)) ?_
    intro _ d2 h; exact h
  · exact ht
  · exact same_width_trans ht (dspi_tcfq_write_width _ _)
  · exact ⟨rfl, rfl⟩
  · exact ⟨rfl, rfl⟩

theorem dspi_poll_loop_width (env : dspi_env σ) :
    ∀ (n : Nat) (d : fsl_dspi σ), same_width d (dspi_poll_loop env n d).2 := by
  intro n
  induction n with
  | zero => intro d; exact ⟨rfl, rfl⟩
  | succ n ih =>
    intro d
    rw [dspi_poll_loop]
    split
    · exact ⟨rfl, rfl⟩
    · refine same_width_trans ?_ (ih _)
      exact ⟨rfl, rfl⟩

theorem dspi_poll_width (fuel : Nat) (env : dspi_env σ) (d : fsl_dspi σ) :
    same_width d (dspi_poll fuel env d).2 := by
  unfold dspi_poll
  simp only
  split
  · exact dspi_poll_loop_width env 1000 d
  · exact same_width_trans (dspi_poll_loop_width env 1000 d) (dspi_rxtx_width _ _ _)

theorem dspi_interrupt_width (fuel : Nat) (env : dspi_env σ) (d : fsl_dspi σ) :
    same_width d (dspi_interrupt fuel env d).2 := by
  unfold dspi_interrupt
  simp only
  split
  · exact ⟨rfl, rfl⟩
  · refine and_then_width _ _ _ ?_ ?_
    · refine same_width_trans ?_ (dspi_rxtx_width _ _ _)
      exact ⟨rfl, rfl⟩
    · intro ret d2 h
      simp only
      split
      · exact ⟨h.1, h.2⟩
      · exact h

theorem dspi_next_xfer_dma_submit_width (env : dspi_env σ) (d : fsl_dspi σ) :
    same_width d (dspi_next_xfer_dma_submit env d).2 :=
  ⟨(dspi_next_xfer_dma_submit_frame env d).1, (dspi_next_xfer_dma_submit_frame env d).2.1⟩

theorem dspi_dma_xfer_loop_width (env : dspi_env σ) (B : Int) :
    ∀ (fuel : Nat) (rem : Int) (d : fsl_dspi σ),
      same_width d (dspi_dma_xfer_loop env B fuel rem d).2 := by
  intro fuel
  induction fuel with
  | zero => intro rem d; exact ⟨rfl, rfl⟩
  | succ fuel ih =>
    intro rem d
    by_cases hrem : rem = 0
    · rw [dspi_dma_xfer_loop, if_pos hrem]
      exact ⟨rfl, rfl⟩
    · by_cases hb : d.bytes_per_word = 0
      · rw [dspi_dma_xfer_loop, if_neg hrem, if_pos hb]
        exact ⟨rfl, rfl⟩
      · obtain ⟨n, hn⟩ : ∃ n, (if to_u32 (Int.tdiv rem d.bytes_per_word) > to_u32 B
            then to_u32 B else to_u32 (Int.tdiv rem d.bytes_per_word)) = n := ⟨_, rfl⟩
        obtain ⟨r, hr⟩ : ∃ r, dspi_next_xfer_dma_submit env { d with curr_xfer_len := n } = r :=
          ⟨_, rfl⟩
        have h1 : same_width d r.2 := by
          rw [← hr]
          refine same_width_trans ?_ (dspi_next_xfer_dma_submit_width _ _)
          exact ⟨rfl, rfl⟩
        rw [dspi_dma_xfer_loop_step env B fuel rem d hrem hb n hn r hr _ rfl _ rfl _ rfl]
        split
        · exact h1
        · refine same_width_trans (same_width_trans h1 ?_) (ih _ _)
          exact ⟨rfl, rfl⟩

theorem dspi_dma_xfer_width (fuel : Nat) (env : dspi_env σ) (d : fsl_dspi σ) :
    same_width d (dspi_dma_xfer fuel env d).2 :=
  dspi_dma_xfer_loop_width env _ fuel _ d

end width

section width_message
variable {σ : Type}

theorem dspi_transfer_begin_width (d : fsl_dspi σ) (spi : spi_device) (chip : chip_data)
    (t : spi_transfer) (is_last : Bool) :
    same_width d (dspi_transfer_begin d spi chip t is_last) := ⟨rfl, rfl⟩

theorem dspi_wait_stopped_width (env : dspi_env σ) :
    ∀ (fuel : Nat) (d : fsl_dspi σ), same_width d (dspi_wait_stopped env fuel d).2 := by
  intro fuel
  induction fuel with
  | zero => intro d; exact ⟨rfl, rfl⟩
  | succ fuel ih =>
    intro d
    rw [dspi_wait_stopped]
    split
    · refine same_width_trans ?_ (ih _)
      exact ⟨rfl, rfl⟩
    · exact ⟨rfl, rfl⟩

theorem dspi_poll_until_width (env : dspi_env σ) (fuel : Nat) :
    ∀ (n : Nat) (d : fsl_dspi σ), same_width d (dspi_poll_until env fuel n d).2 := by
  intro n
  induction n with
  | zero => intro d; exact ⟨rfl, rfl⟩
  | succ n ih =>
    intro d
    rw [dspi_poll_until]
    refine and_then_width _ _ _ (dspi_poll_width _ _ _) ?_
    intro st d1 h
    split
    · exact same_width_trans h (ih _)
    · exact h

theorem wait_event_interruptible_width (env : dspi_env σ) (fuel : Nat) :
    ∀ (n : Nat) (d : fsl_dspi σ),
      same_width d (wait_event_interruptible env fuel n d).2 := by
  intro n
  induction n with
  | zero => intro d; exact ⟨rfl, rfl⟩
  | succ n ih =>
    intro d
    rw [wait_event_interruptible]
    split
    · exact ⟨rfl, rfl⟩
    · simp only
      split
      · exact ⟨rfl, rfl⟩
      · refine and_then_width _ _ _ ?_ ?_
        · refine same_width_trans ?_ (dspi_interrupt_width _ _ _)
          exact ⟨rfl, rfl⟩
        · intro _ d1 h
          exact same_width_trans h (ih _)

theorem dspi_dispatch_width (fuel : Nat) (env : dspi_env σ) (status : Int) (d : fsl_dspi σ) :
    same_width d (dspi_dispatch fuel env status d).2 := by
  unfold dspi_dispatch
  simp only
  split_ifs
  · refine and_then_width _ _ _ ?_ ?_
    · refine same_width_trans ?_ (dspi_eoq_write_width _ _ _)
      exact ⟨rfl, rfl⟩
    · intro _ d1 h; exact h
  · refine same_width_trans ?_ (dspi_tcfq_write_width _ _)
    exact ⟨rfl, rfl⟩
  · refine same_width_trans ?_ (dspi_dma_xfer_width _ _ _)
    exact ⟨rfl, rfl⟩

theorem dspi_wait_complete_width (fuel : Nat) (env : dspi_env σ) (status : Int)
    (d : fsl_dspi σ) : same_width d (dspi_wait_complete fuel env status d).2 := by
  unfold dspi_wait_complete
  split_ifs
  · exact dspi_poll_until_width _ _ _ _
  · refine and_then_width _ _ _ (wait_event_interruptible_width _ _ _ _) ?_
    intro _ d1 h
    exact ⟨h.1, h.2⟩
  · exact ⟨rfl, rfl⟩

theorem dspi_transfer_loop_width (fuel : Nat) (env : dspi_env σ) (spi : spi_device) :
    ∀ (ts : List spi_transfer) (status : Int) (d : fsl_dspi σ),
      same_width d (dspi_transfer_loop fuel env spi ts status d).2 := by
  intro ts
  induction ts with
  | nil => intro status d; exact ⟨rfl, rfl⟩
  | cons t rest ih =>
    intro status d
    rw [dspi_transfer_loop]
    split
    · exact ⟨rfl, rfl⟩
    · simp only
      refine and_then_width _ _ _ ?_ ?_
      · refine same_width_trans ?_ (dspi_wait_stopped_width _ _ _)
        exact ⟨rfl, rfl⟩
      · intro _ d1 h1
        have key : ∀ d2 : fsl_dspi σ, same_width d d2 →
            same_width d
              (if d2.devtype_data.trans_mode > DSPI_DMA_MODE then (some (-EINVAL), d2)
               else
                and_then (dspi_dispatch fuel env status d2) (fun status d =>
                  and_then (dspi_wait_complete fuel env status d) (fun status d =>
                    dspi_transfer_loop fuel env spi rest status
                      (if status ≠ 0 then { d with err_log := d.err_log ++ [status] }
                       else d)))).2 := by
          intro d2 h2
          split
          · exact h2
          · refine and_then_width _ _ _ (same_width_trans h2 (dspi_dispatch_width _ _ _ _)) ?_
            intro st d3 h3
            refine and_then_width _ _ _
              (same_width_trans h3 (dspi_wait_complete_width _ _ _ _)) ?_
            intro st2 d4 h4
            refine same_width_trans ?_ (ih _ _)
            split <;> exact ⟨h4.1, h4.2⟩
        refine key _ ?_
        split <;> exact ⟨h1.1, h1.2⟩

theorem dspi_transfer_one_message_width (fuel : Nat) (env : dspi_env σ) (d : fsl_dspi σ)
    (message : spi_message) :
    same_width d (dspi_transfer_one_message fuel env d message).2 := by
  unfold dspi_transfer_one_message
  refine and_then_width _ _ _ ?_ ?_
  · refine same_width_trans ?_ (dspi_transfer_loop_width _ _ _ _ _ _)
    exact ⟨rfl, rfl⟩
  · intro _ d1 h
    exact ⟨h.1, h.2⟩

end width_message

section width_claim
variable {σ : Type}

/-- The loop over the transfers reads only `chip_select` and the controller data
of the device: two devices that agree on these give the same run, whatever their
`bits_per_word`, `mode` and `max_speed_hz`. -/
theorem dspi_transfer_loop_device (fuel : Nat) (env : dspi_env σ) (spi spi' : spi_device)
    (hcs : spi.chip_select = spi'.chip_select) (hct : spi.ctldata = spi'.ctldata) :
    ∀ (ts : List spi_transfer) (status : Int) (d : fsl_dspi σ),
      dspi_transfer_loop fuel env spi ts status d =
        dspi_transfer_loop fuel env spi' ts status d := by
  intro ts
  induction ts with
  | nil => intro status d; rfl
  | cons t rest ih =>
    intro status d
    rw [dspi_transfer_loop, dspi_transfer_loop, hct]
    have hb : ∀ chip, dspi_transfer_begin d spi chip t rest.isEmpty =
        dspi_transfer_begin d spi' chip t rest.isEmpty := by
      intro chip
      unfold dspi_transfer_begin
      rw [hcs]
    cases spi'.ctldata with
    | none => rfl
    | some chip =>
      simp only [hb, ih]

/-- C21: the transfer path never writes the word-width fields. For every
controller state `d`, every hardware `env`, every fuel and every message (any
device, any word size configured for it, any controller data, any transfers)
the state left by `dspi_transfer_one_message` has the `bytes_per_word` and
`bits_per_word` that `d` had; so has the state left by a message that follows an
accepted or refused `dspi_setup` of its device (`dspi_setup` has no controller
state among its results: the source function assigns only to the chip data and
to the device's controller data); `dspi_pop_tx`, `dspi_push_rx`, `dspi_dma_xfer`
and `dspi_rxtx`, which read the two fields, leave them as they are, and so does
the interrupt handler `dspi_interrupt`, from whatever state they are entered;
and the whole run is the same for two devices that differ in the configured
`bits_per_word` only. -/
theorem word_width_fields_unchanged (fuel : Nat) (env : dspi_env σ) (d : fsl_dspi σ)
    (message : spi_message) (cs_sck_delay sck_cs_delay clkrate : Nat) (alloc_ok : Bool)
    (rxdata b : Nat) :
    same_width d (dspi_transfer_one_message fuel env d message).2 ∧
    (∀ r ∈ dspi_setup d message.spi cs_sck_delay sck_cs_delay clkrate alloc_ok,
      same_width d (dspi_transfer_one_message fuel env d
        ⟨message.transfers,
          ⟨message.spi.chip_select, message.spi.bits_per_word, message.spi.max_speed_hz,
            message.spi.mode, r.2⟩⟩).2) ∧
    same_width d (dspi_pop_tx d).2 ∧
    same_width d (dspi_push_rx d rxdata) ∧
    same_width d (dspi_dma_xfer fuel env d).2 ∧
    same_width d (dspi_rxtx fuel env d).2 ∧
    same_width d (dspi_interrupt fuel env d).2 ∧
    dspi_transfer_one_message fuel env d
        ⟨message.transfers,
          ⟨message.spi.chip_select, b, message.spi.max_speed_hz, message.spi.mode,
            message.spi.ctldata⟩⟩ =
      dspi_transfer_one_message fuel env d message := by
  refine ⟨dspi_transfer_one_message_width _ _ _ _,
    fun _ _ => dspi_transfer_one_message_width _ _ _ _,
    dspi_pop_tx_width _, dspi_push_rx_width _ _, dspi_dma_xfer_width _ _ _,
    dspi_rxtx_width _ _ _, dspi_interrupt_width _ _ _, ?_⟩
  unfold dspi_transfer_one_message
  exact congrArg (fun r => and_then r _)
    (dspi_transfer_loop_device fuel env
      ⟨message.spi.chip_select, b, message.spi.max_speed_hz, message.spi.mode,
        message.spi.ctldata⟩ message.spi rfl rfl _ _ _)

/-- C21 at scenario A: the device is set up for 8-bit words, the message has one
transfer of 4 bytes, and the two fields after the message are those of the
controller state the probe left. -/
theorem word_width_fields_unchanged_witness :
    dspi_setup (poll_dspi 0) scenario_A_spi 0 0 50000000 true
      = some (0, some ⟨2148469760, 939720707, 0, 0⟩) ∧
    same_width (poll_dspi 0)
      (dspi_transfer_one_message 8 sim_env (poll_dspi 0)
        ⟨[scenario_A_transfer],
          ⟨0, 8, 1000000, 0, some ⟨2148469760, 939720707, 0, 0⟩⟩⟩).2 :=
  ⟨by decide,
    (word_width_fields_unchanged 8 sim_env (poll_dspi 0)
      ⟨[scenario_A_transfer], scenario_A_spi⟩ 0 0 50000000 true 0 16).2.1
      (0, some ⟨2148469760, 939720707, 0, 0⟩) (by decide)⟩

end width_claim

/-! ## Theorems: the register values built by `dspi_setup` -/

section setup_values
variable {σ : Type}

/-- The bits of `v` selected by the mask `(2^w - 1) << k`. -/
theorem and_shifted_mask (v k w : Nat) :
    v &&& ((2 ^ w - 1) <<< k) = ((v >>> k) % 2 ^ w) <<< k := by
  apply Nat.eq_of_testBit_eq
  intro i
  simp only [Nat.testBit_and, Nat.testBit_shiftLeft, Nat.testBit_two_pow_sub_one,
    Nat.testBit_mod_two_pow, Nat.testBit_shiftRight]
  by_cases h : k ≤ i
  · have e : k + (i - k) = i := by omega
    simp [h, e, Bool.and_comm]
  · simp [h]

/-- A field macro `((x) << k) & GENMASK(k + w - 1, k)` keeps the low `w` bits of
`x`, at position `k`. -/
theorem shl_and_mask (x k w : Nat) :
    (x <<< k) &&& ((2 ^ w - 1) <<< k) = (x % 2 ^ w) * 2 ^ k := by
  rw [and_shifted_mask, Nat.shiftLeft_shiftRight, Nat.shiftLeft_eq]

theorem SPI_CTAR_FMSZ_eq (x : Nat) : SPI_CTAR_FMSZ x = (x % 16) * 2 ^ 27 := by
  unfold SPI_CTAR_FMSZ
  rw [show GENMASK 30 27 = (2 ^ 4 - 1) <<< 27 by decide, shl_and_mask]
  norm_num

theorem SPI_CTAR_PCSSCK_eq (x : Nat) : SPI_CTAR_PCSSCK x = (x % 4) * 2 ^ 22 := by
  unfold SPI_CTAR_PCSSCK
  rw [show GENMASK 23 22 = (2 ^ 2 - 1) <<< 22 by decide, shl_and_mask]
  norm_num

theorem SPI_CTAR_PASC_eq (x : Nat) : SPI_CTAR_PASC x = (x % 4) * 2 ^ 20 := by
  unfold SPI_CTAR_PASC
  rw [show GENMASK 21 20 = (2 ^ 2 - 1) <<< 20 by decide, shl_and_mask]
  norm_num

theorem SPI_CTAR_PBR_eq (x : Nat) : SPI_CTAR_PBR x = (x % 4) * 2 ^ 16 := by
  unfold SPI_CTAR_PBR
  rw [show GENMASK 17 16 = (2 ^ 2 - 1) <<< 16 by decide, shl_and_mask]
  norm_num

theorem SPI_CTAR_CSSCK_eq (x : Nat) : SPI_CTAR_CSSCK x = (x % 16) * 2 ^ 12 := by
  unfold SPI_CTAR_CSSCK
  rw [show GENMASK 15 12 = (2 ^ 4 - 1) <<< 12 by decide, shl_and_mask]
  norm_num

theorem SPI_CTAR_ASC_eq (x : Nat) : SPI_CTAR_ASC x = (x % 16) * 2 ^ 8 := by
  unfold SPI_CTAR_ASC
  rw [show GENMASK 11 8 = (2 ^ 4 - 1) <<< 8 by decide, shl_and_mask]
  norm_num

theorem SPI_CTAR_BR_eq (x : Nat) : SPI_CTAR_BR x = x % 16 := by
  unfold SPI_CTAR_BR
  rw [show GENMASK 3 0 = 2 ^ 4 - 1 by decide, Nat.and_pow_two_sub_one_eq_mod]

/-- A value below `2^k` fills the low bits under a multiple of `2^k`: the OR is
the sum. -/
theorem lor_eq_add (a b k : Nat) (hb : b < 2 ^ k) : a * 2 ^ k ||| b = a * 2 ^ k + b := by
  rw [Nat.mul_comm a, Nat.mul_add_lt_is_or hb]

/-- The fields of `SPI_CTAR` do not overlap: the OR that `dspi_setup` builds in
the master role is the sum of the fields at their positions. -/
theorem ctar_pack_master (f p h l pc pa pb cs asc br : Nat) (hf : f < 16) (hp : p < 2)
    (hh : h < 2) (hl : l < 2) (hpc : pc < 4) (hpa : pa < 4) (hpb : pb < 4) (hcs : cs < 16)
    (hasc : asc < 16) (hbr : br < 16) :
    ((SPI_CTAR_FMSZ f ||| SPI_CTAR_CPOL p ||| SPI_CTAR_CPHA h) |||
        (SPI_CTAR_PCSSCK pc ||| SPI_CTAR_CSSCK cs ||| SPI_CTAR_PASC pa ||| SPI_CTAR_ASC asc |||
          SPI_CTAR_PBR pb ||| SPI_CTAR_BR br)) ||| SPI_CTAR_LSBFE l =
      f * 2 ^ 27 + p * 2 ^ 26 + h * 2 ^ 25 + l * 2 ^ 24 + pc * 2 ^ 22 + pa * 2 ^ 20 +
        pb * 2 ^ 16 + cs * 2 ^ 12 + asc * 2 ^ 8 + br := by
  rw [SPI_CTAR_FMSZ_eq, SPI_CTAR_PCSSCK_eq, SPI_CTAR_CSSCK_eq, SPI_CTAR_PASC_eq,
    SPI_CTAR_ASC_eq, SPI_CTAR_PBR_eq, SPI_CTAR_BR_eq]
  unfold SPI_CTAR_CPOL SPI_CTAR_CPHA SPI_CTAR_LSBFE
  rw [Nat.shiftLeft_eq, Nat.shiftLeft_eq, Nat.shiftLeft_eq, Nat.mod_eq_of_lt hf,
    Nat.mod_eq_of_lt hpc, Nat.mod_eq_of_lt hpa, Nat.mod_eq_of_lt hpb, Nat.mod_eq_of_lt hcs,
    Nat.mod_eq_of_lt hasc, Nat.mod_eq_of_lt hbr]
  have e : ((f * 2 ^ 27 ||| p * 2 ^ 26 ||| h * 2 ^ 25) |||
        (pc * 2 ^ 22 ||| cs * 2 ^ 12 ||| pa * 2 ^ 20 ||| asc * 2 ^ 8 ||| pb * 2 ^ 16 ||| br)) |||
        l * 2 ^ 24 =
      f * 2 ^ 27 ||| (p * 2 ^ 26 ||| (h * 2 ^ 25 ||| (l * 2 ^ 24 ||| (pc * 2 ^ 22 |||
        (pa * 2 ^ 20 ||| (pb * 2 ^ 16 ||| (cs * 2 ^ 12 ||| (asc * 2 ^ 8 ||| br)))))))) := by
    ac_rfl
  rw [e, lor_eq_add asc br 8 (by omega), lor_eq_add cs _ 12 (by omega),
    lor_eq_add pb _ 16 (by omega), lor_eq_add pa _ 20 (by omega),
    lor_eq_add pc _ 22 (by omega), lor_eq_add l _ 24 (by omega),
    lor_eq_add h _ 25 (by omega), lor_eq_add p _ 26 (by omega),
    lor_eq_add f _ 27 (by omega)]
  omega

/-- In the slave role only the frame size and the two clock-mode bits are set. -/
theorem ctar_pack_slave (f p h : Nat) (hp : p < 2) (hh : h < 2) :
    SPI_CTAR_FMSZ f ||| SPI_CTAR_CPOL p ||| SPI_CTAR_CPHA h =
      (f % 16) * 2 ^ 27 + p * 2 ^ 26 + h * 2 ^ 25 := by
  rw [SPI_CTAR_FMSZ_eq]
  unfold SPI_CTAR_CPOL SPI_CTAR_CPHA
  rw [Nat.shiftLeft_eq, Nat.shiftLeft_eq, Nat.lor_assoc, lor_eq_add p _ 26 (by omega),
    lor_eq_add _ _ 27 (by omega)]
  omega

/-- What a successful `dspi_setup` leaves in the chip configuration: the word
size passed the test, `hz_to_spi_baud` returned a pair of indices, and the three
register values are the expressions of the source over these indices and those
of the two `ns_delay_scale` calls. -/
theorem dspi_setup_ok_chip (d : fsl_dspi σ) (spi : spi_device)
    (cs_sck_delay sck_cs_delay clkrate : Nat) (alloc_ok : Bool) (chip : chip_data)
    (h : dspi_setup d spi cs_sck_delay sck_cs_delay clkrate alloc_ok = some (0, some chip)) :
    ((4 ≤ spi.bits_per_word ∧ spi.bits_per_word ≤ 16) ∨
      (d.extended_mode = true ∧ spi.bits_per_word ≤ 32)) ∧
    ∃ pbr br, hz_to_spi_baud 0 0 (to_int spi.max_speed_hz) clkrate = some (pbr, br) ∧
      chip.mcr_val =
        (if d.extended_mode = true ∧ to_u8 ((spi.bits_per_word : Int) - 1) ≥ 16 then
          (SPI_MCR_MASTER ||| SPI_MCR_PCSIS d.pcs_mask ||| SPI_MCR_CLR_TXF |||
            SPI_MCR_CLR_RXF) ||| SPI_MCR_XSPI
        else
          SPI_MCR_MASTER ||| SPI_MCR_PCSIS d.pcs_mask ||| SPI_MCR_CLR_TXF |||
            SPI_MCR_CLR_RXF) ∧
      chip.ctar_val =
        (if (!d.slave) = true then
          ((SPI_CTAR_FMSZ (to_u8 ((spi.bits_per_word : Int) - 1)) |||
              SPI_CTAR_CPOL (if spi.mode &&& SPI_CPOL ≠ 0 then 1 else 0) |||
              SPI_CTAR_CPHA (if spi.mode &&& SPI_CPHA ≠ 0 then 1 else 0)) |||
            (SPI_CTAR_PCSSCK (ns_delay_scale 0 0 (to_int cs_sck_delay) clkrate).1 |||
              SPI_CTAR_CSSCK (ns_delay_scale 0 0 (to_int cs_sck_delay) clkrate).2 |||
              SPI_CTAR_PASC (ns_delay_scale 0 0 (to_int sck_cs_delay) clkrate).1 |||
              SPI_CTAR_ASC (ns_delay_scale 0 0 (to_int sck_cs_delay) clkrate).2 |||
              SPI_CTAR_PBR pbr ||| SPI_CTAR_BR br)) |||
            SPI_CTAR_LSBFE (if spi.mode &&& SPI_LSB_FIRST ≠ 0 then 1 else 0)
        else
          SPI_CTAR_FMSZ (to_u8 ((spi.bits_per_word : Int) - 1)) |||
            SPI_CTAR_CPOL (if spi.mode &&& SPI_CPOL ≠ 0 then 1 else 0) |||
            SPI_CTAR_CPHA (if spi.mode &&& SPI_CPHA ≠ 0 then 1 else 0)) ∧
      (d.extended_mode = true ∧ to_u8 ((spi.bits_per_word : Int) - 1) ≥ 16 →
        chip.ctare_val =
          SPI_CTARE_FMSZE (to_u8 ((spi.bits_per_word : Int) - 1)) ||| SPI_CTARE_DTCP 1) := by
  have e1 : (-ENOMEM : Int) ≠ 0 := by decide
  have e2 : (-ENODEV : Int) ≠ 0 := by decide
  by_cases hacc : (4 ≤ spi.bits_per_word ∧ spi.bits_per_word ≤ 16) ∨
      (d.extended_mode = true ∧ spi.bits_per_word ≤ 32)
  · refine ⟨hacc, ?_⟩
    unfold dspi_setup at h
    generalize hbaud : hz_to_spi_baud 0 0 (to_int spi.max_speed_hz) clkrate = hb at h
    generalize ns_delay_scale 0 0 (to_int cs_sck_delay) clkrate = d1 at h ⊢
    generalize ns_delay_scale 0 0 (to_int sck_cs_delay) clkrate = d2 at h ⊢
    rw [if_pos hacc] at h
    rcases hc : spi.ctldata with _ | c
    · rw [hc] at h
      rcases alloc_ok with _ | _
      · exact absurd (congrArg Prod.fst (Option.some.inj h)) e1
      · rcases hb with _ | b
        · exact Option.noConfusion h
        · simp only [↓reduceIte, Option.some.injEq, Prod.mk.injEq, true_and] at h
          subst h
          exact ⟨b.1, b.2, rfl, rfl, rfl, fun hx => if_pos hx⟩
    · rw [hc] at h
      rcases hb with _ | b
      · exact Option.noConfusion h
      · simp only [Option.some.injEq, Prod.mk.injEq, true_and] at h
        subst h
        exact ⟨b.1, b.2, rfl, rfl, rfl, fun hx => if_pos hx⟩
  · unfold dspi_setup at h
    rw [if_neg hacc] at h
    exact absurd (congrArg Prod.fst (Option.some.inj h)) e2

/-- The indices `hz_to_spi_baud` returns are table indices, whatever the
arguments. -/
theorem hz_to_spi_baud_range (pbr br : Nat) (speed_hz : Int) (clkrate : Nat) (p b : Nat)
    (h : hz_to_spi_baud pbr br speed_hz clkrate = some (p, b)) : p < 4 ∧ b < 16 := by
  unfold hz_to_spi_baud at h
  rcases hn : baud_scale_needed speed_hz clkrate with _ | need
  · rw [hn] at h
    exact Option.noConfusion h
  · rw [hn] at h
    simp only at h
    rcases baud_search_inv need br pbr with ⟨hacc, _⟩ | ⟨ho, hi, _, _, _⟩
    · rw [hacc] at h
      simp only [↓reduceIte, Option.some.injEq, Prod.mk.injEq] at h
      omega
    · split at h
      · simp only [Option.some.injEq, Prod.mk.injEq] at h
        omega
      · simp only [Option.some.injEq, Prod.mk.injEq] at h
        rw [← h.1, ← h.2]
        exact ⟨(mem_idx4 _).mp hi, (mem_idx16 _).mp ho⟩


/-- A `u32` speed other than 0 is not 0 as the `unsigned long` divisor. -/
theorem to_ulong_to_int_ne_zero (speed : Nat) (h : speed % 2 ^ 32 ≠ 0) :
    to_ulong (to_int speed) ≠ 0 := by
  unfold to_ulong to_int
  omega

/-- The requirement of `hz_to_spi_baud` is computed unless the speed is 0. -/
theorem baud_scale_needed_returns (speed clkrate : Nat) (h : speed % 2 ^ 32 ≠ 0) :
    ∃ need, baud_scale_needed (to_int speed) clkrate = some need := by
  have hs := to_ulong_to_int_ne_zero speed h
  unfold baud_scale_needed
  simp only [hs, if_false]
  exact ⟨_, rfl⟩


/-- Once the requirement is computed, `hz_to_spi_baud` returns a pair. -/
theorem hz_to_spi_baud_some (pbr br : Nat) (s : Int) (clkrate : Nat) (need : Int)
    (hn : baud_scale_needed s clkrate = some need) :
    ∃ p b, hz_to_spi_baud pbr br s clkrate = some (p, b) := by
  generalize hr : hz_to_spi_baud pbr br s clkrate = r
  unfold hz_to_spi_baud at hr
  rw [hn] at hr
  simp only at hr
  split at hr
  · exact ⟨3, 15, hr.symm⟩
  · exact ⟨_, _, hr.symm⟩

/-- The division of `hz_to_spi_baud` is by the speed converted to `unsigned
long`: the function returns unless the `u32` speed is 0. -/
theorem hz_to_spi_baud_returns (pbr br : Nat) (speed clkrate : Nat)
    (h : speed % 2 ^ 32 ≠ 0) :
    ∃ p b, hz_to_spi_baud pbr br (to_int speed) clkrate = some (p, b) := by
  obtain ⟨need, hn⟩ := baud_scale_needed_returns speed clkrate h
  exact hz_to_spi_baud_some pbr br _ clkrate need hn


/-- With an accepted word size, a chip configuration at hand (allocated before,
or now) and a speed that does not divide by zero, `dspi_setup` returns 0 and
leaves a chip configuration. -/
theorem dspi_setup_returns (d : fsl_dspi σ) (spi : spi_device)
    (cs_sck_delay sck_cs_delay clkrate : Nat) (alloc_ok : Bool)
    (hacc : (4 ≤ spi.bits_per_word ∧ spi.bits_per_word ≤ 16) ∨
      (d.extended_mode = true ∧ spi.bits_per_word ≤ 32))
    (hchip : spi.ctldata ≠ none ∨ alloc_ok = true)
    (hspeed : spi.max_speed_hz % 2 ^ 32 ≠ 0) :
    ∃ chip, dspi_setup d spi cs_sck_delay sck_cs_delay clkrate alloc_ok =
      some (0, some chip) := by
  obtain ⟨p, b, hbaud⟩ := hz_to_spi_baud_returns 0 0 spi.max_speed_hz clkrate hspeed
  generalize hr : dspi_setup d spi cs_sck_delay sck_cs_delay clkrate alloc_ok = r
  unfold dspi_setup at hr
  rw [if_pos hacc, hbaud] at hr
  rcases hc : spi.ctldata with _ | c
  · rcases hchip with hchip | hchip
    · exact absurd hc hchip
    · rw [hc, hchip] at hr
      exact ⟨_, hr.symm⟩
  · rw [hc] at hr
    exact ⟨_, hr.symm⟩

end setup_values

/-! ## Theorems: the packing of `SPI_CTAR` -/

section ctar_fields
variable {σ : Type}

/-- The frame size `bits_per_word - 1` fits the `unsigned char` it is stored in. -/
theorem to_u8_fmsz (b : Nat) (h1 : 1 ≤ b) (h2 : b ≤ 256) : to_u8 ((b : Int) - 1) = b - 1 := by
  unfold to_u8
  omega

/-- The fields of a sum of ten fields at the positions of `SPI_CTAR`. -/
theorem ctar_fields_of_sum (v f p h l pc pa pb cs asc br : Nat) (hf : f < 16) (hp : p < 2)
    (hh : h < 2) (hl : l < 2) (hpc : pc < 4) (hpa : pa < 4) (hpb : pb < 4) (hcs : cs < 16)
    (hasc : asc < 16) (hbr : br < 16)
    (hv : v = f * 2 ^ 27 + p * 2 ^ 26 + h * 2 ^ 25 + l * 2 ^ 24 + pc * 2 ^ 22 + pa * 2 ^ 20 +
        pb * 2 ^ 16 + cs * 2 ^ 12 + asc * 2 ^ 8 + br) :
    reg_field v 30 27 = f ∧ reg_field v 26 26 = p ∧ reg_field v 25 25 = h ∧ v < 2 ^ 31 ∧
    reg_field v 24 24 = l ∧ reg_field v 23 22 = pc ∧ reg_field v 21 20 = pa ∧
    reg_field v 19 18 = 0 ∧ reg_field v 17 16 = pb ∧ reg_field v 15 12 = cs ∧
    reg_field v 11 8 = asc ∧ reg_field v 7 4 = 0 ∧ reg_field v 3 0 = br := by
  unfold reg_field
  simp only [Nat.shiftRight_eq_div_pow]
  norm_num
  refine ⟨?_, ?_, ?_, ?_, ?_, ?_, ?_, ?_, ?_, ?_, ?_, ?_, ?_⟩ <;> omega

/-- The fields of the `ctar_val` of a chip configuration that `dspi_setup`
returned for a word size in `4 .. 16`. -/
theorem dspi_setup_ctar_decode (d : fsl_dspi σ) (spi : spi_device)
    (cs_sck_delay sck_cs_delay clkrate : Nat) (alloc_ok : Bool)
    (hb4 : 4 ≤ spi.bits_per_word) (hb16 : spi.bits_per_word ≤ 16) (chip : chip_data)
    (hs : dspi_setup d spi cs_sck_delay sck_cs_delay clkrate alloc_ok =
      some (0, some chip)) :
      ∃ pbr br, hz_to_spi_baud 0 0 (to_int spi.max_speed_hz) clkrate = some (pbr, br) ∧
        reg_field chip.ctar_val 30 27 = spi.bits_per_word - 1 ∧
        reg_field chip.ctar_val 26 26 = (if spi.mode &&& SPI_CPOL ≠ 0 then 1 else 0) ∧
        reg_field chip.ctar_val 25 25 = (if spi.mode &&& SPI_CPHA ≠ 0 then 1 else 0) ∧
        chip.ctar_val < 2 ^ 31 ∧
        (d.slave = false →
          reg_field chip.ctar_val 24 24 =
            (if spi.mode &&& SPI_LSB_FIRST ≠ 0 then 1 else 0) ∧
          reg_field chip.ctar_val 23 22 =
            (ns_delay_scale 0 0 (to_int cs_sck_delay) clkrate).1 ∧
          reg_field chip.ctar_val 21 20 =
            (ns_delay_scale 0 0 (to_int sck_cs_delay) clkrate).1 ∧
          reg_field chip.ctar_val 19 18 = 0 ∧
          reg_field chip.ctar_val 17 16 = pbr ∧
          reg_field chip.ctar_val 15 12 =
            (ns_delay_scale 0 0 (to_int cs_sck_delay) clkrate).2 ∧
          reg_field chip.ctar_val 11 8 =
            (ns_delay_scale 0 0 (to_int sck_cs_delay) clkrate).2 ∧
          reg_field chip.ctar_val 7 4 = 0 ∧
          reg_field chip.ctar_val 3 0 = br) ∧
        (d.slave = true → reg_field chip.ctar_val 24 0 = 0) := by
  obtain ⟨_, pbr, br, hbaud, _, hctar, _⟩ :=
    dspi_setup_ok_chip d spi cs_sck_delay sck_cs_delay clkrate alloc_ok chip hs
  obtain ⟨hpbr, hbr⟩ := hz_to_spi_baud_range 0 0 _ clkrate pbr br hbaud
  obtain ⟨hpc, hcs⟩ := ns_delay_scale_range 0 0 (to_int cs_sck_delay) clkrate
  obtain ⟨hpa, hasc⟩ := ns_delay_scale_range 0 0 (to_int sck_cs_delay) clkrate
  rw [to_u8_fmsz _ (by omega) (by omega)] at hctar
  generalize (ns_delay_scale 0 0 (to_int cs_sck_delay) clkrate).1 = pc at hctar hpc ⊢
  generalize (ns_delay_scale 0 0 (to_int cs_sck_delay) clkrate).2 = cs at hctar hcs ⊢
  generalize (ns_delay_scale 0 0 (to_int sck_cs_delay) clkrate).1 = pa at hctar hpa ⊢
  generalize (ns_delay_scale 0 0 (to_int sck_cs_delay) clkrate).2 = asc at hctar hasc ⊢
  generalize hp : (if spi.mode &&& SPI_CPOL ≠ 0 then 1 else 0 : Nat) = p at hctar ⊢
  generalize hh : (if spi.mode &&& SPI_CPHA ≠ 0 then 1 else 0 : Nat) = h at hctar ⊢
  generalize hl : (if spi.mode &&& SPI_LSB_FIRST ≠ 0 then 1 else 0 : Nat) = l at hctar ⊢
  have hp2 : p < 2 := by rw [← hp]; split <;> omega
  have hh2 : h < 2 := by rw [← hh]; split <;> omega
  have hl2 : l < 2 := by rw [← hl]; split <;> omega
  have hf : spi.bits_per_word - 1 < 16 := by omega
  refine ⟨pbr, br, hbaud, ?_⟩
  generalize chip.ctar_val = v at hctar ⊢
  rcases hslave : d.slave with _ | _
  · rw [hslave] at hctar
    simp only [Bool.not_false, ↓reduceIte] at hctar
    rw [ctar_pack_master _ _ _ _ _ _ _ _ _ _ hf hp2 hh2 hl2 hpc hpa hpbr hcs hasc hbr] at hctar
    obtain ⟨h1, h2, h3, h4, h5, h6, h7, h8, h9, h10, h11, h12, h13⟩ :=
      ctar_fields_of_sum v _ _ _ _ _ _ _ _ _ _ hf hp2 hh2 hl2 hpc hpa hpbr hcs hasc hbr hctar
    exact ⟨h1, h2, h3, h4, fun _ => ⟨h5, h6, h7, h8, h9, h10, h11, h12, h13⟩,
      fun hc => Bool.noConfusion hc⟩
  · rw [hslave] at hctar
    simp only [Bool.not_true, Bool.false_eq_true, ↓reduceIte] at hctar
    rw [ctar_pack_slave _ _ _ hp2 hh2, Nat.mod_eq_of_lt hf] at hctar
    have hz : (0 : Nat) < 2 := by omega
    have h4 : (0 : Nat) < 4 := by omega
    have h16 : (0 : Nat) < 16 := by omega
    obtain ⟨h1, h2, h3, h4, -⟩ :=
      ctar_fields_of_sum v _ p h 0 0 0 0 0 0 0 hf hp2 hh2 hz h4 h4 h4 h16 h16 h16
        (by rw [hctar]; omega)
    refine ⟨h1, h2, h3, h4, fun hc => Bool.noConfusion hc, fun _ => ?_⟩
    unfold reg_field
    rw [hctar, Nat.shiftRight_zero]
    norm_num
    omega

/-- C23: the timing register value built by `dspi_setup` is a lossless packing.
For a word size `b` in `4 .. 16`, whatever the mode flags, clock rate, speed and
delays: `dspi_setup` returns 0 with a chip configuration as soon as the speed is
not 0 (no division by zero) and a chip configuration is at hand; and for every
chip configuration it returns, `hz_to_spi_baud` returned a pair `(pbr, br)` and
`ctar_val` has bits `30..27 = b - 1`, bit 26 = CPOL, bit 25 = CPHA and nothing
from bit 31 up; in the master role bit 24 = LSB-first, bits `23..22 = pcssck`,
`21..20 = pasc`, `17..16 = pbr`, `15..12 = cssck`, `11..8 = asc`, `3..0 = br`
and bits `19..18` and `7..4` are zero, where `(pcssck, cssck)` and `(pasc, asc)`
are what the two `ns_delay_scale` calls return; in the slave role bits `24..0`
are zero. -/
theorem dspi_setup_ctar_val_fields (d : fsl_dspi σ) (spi : spi_device)
    (cs_sck_delay sck_cs_delay clkrate : Nat) (alloc_ok : Bool)
    (hb4 : 4 ≤ spi.bits_per_word) (hb16 : spi.bits_per_word ≤ 16) :
    (spi.max_speed_hz % 2 ^ 32 ≠ 0 → (spi.ctldata ≠ none ∨ alloc_ok = true) →
      ∃ chip, dspi_setup d spi cs_sck_delay sck_cs_delay clkrate alloc_ok =
        some (0, some chip)) ∧
    ∀ chip, dspi_setup d spi cs_sck_delay sck_cs_delay clkrate alloc_ok = some (0, some chip) →
      ∃ pbr br, hz_to_spi_baud 0 0 (to_int spi.max_speed_hz) clkrate = some (pbr, br) ∧
        reg_field chip.ctar_val 30 27 = spi.bits_per_word - 1 ∧
        reg_field chip.ctar_val 26 26 = (if spi.mode &&& SPI_CPOL ≠ 0 then 1 else 0) ∧
        reg_field chip.ctar_val 25 25 = (if spi.mode &&& SPI_CPHA ≠ 0 then 1 else 0) ∧
        chip.ctar_val < 2 ^ 31 ∧
        (d.slave = false →
          reg_field chip.ctar_val 24 24 =
            (if spi.mode &&& SPI_LSB_FIRST ≠ 0 then 1 else 0) ∧
          reg_field chip.ctar_val 23 22 =
            (ns_delay_scale 0 0 (to_int cs_sck_delay) clkrate).1 ∧
          reg_field chip.ctar_val 21 20 =
            (ns_delay_scale 0 0 (to_int sck_cs_delay) clkrate).1 ∧
          reg_field chip.ctar_val 19 18 = 0 ∧
          reg_field chip.ctar_val 17 16 = pbr ∧
          reg_field chip.ctar_val 15 12 =
            (ns_delay_scale 0 0 (to_int cs_sck_delay) clkrate).2 ∧
          reg_field chip.ctar_val 11 8 =
            (ns_delay_scale 0 0 (to_int sck_cs_delay) clkrate).2 ∧
          reg_field chip.ctar_val 7 4 = 0 ∧
          reg_field chip.ctar_val 3 0 = br) ∧
        (d.slave = true → reg_field chip.ctar_val 24 0 = 0) :=
  ⟨fun hspeed hchip => dspi_setup_returns d spi cs_sck_delay sck_cs_delay clkrate
    alloc_ok (Or.inl ⟨hb4, hb16⟩) hchip hspeed,
   fun chip hs => dspi_setup_ctar_decode d spi cs_sck_delay sck_cs_delay clkrate alloc_ok
    hb4 hb16 chip hs⟩

end ctar_fields

/-- C23 at a device with 12-bit words, CPOL and LSB-first set, 1 MHz on a
50 MHz clock, delays of 100 ns and 500 ns, on a controller in the master role:
`dspi_setup` returns 0, `ctar_val` is `0x5d730103`, and its fields are the frame
size 11, the baud indices `(3, 3)` and the delay indices `(1, 0)` and `(3, 1)`. -/
theorem dspi_setup_ctar_val_fields_witness :
    (∃ chip, dspi_setup (poll_dspi 0) ⟨1, 12, 1000000, 0x0a, none⟩ 100 500 50000000 true =
      some (0, some chip)) ∧
    dspi_setup (poll_dspi 0) ⟨1, 12, 1000000, 0x0a, none⟩ 100 500 50000000 true =
      some (0, some ⟨2148469760, 0x5d730103, 0, 0⟩) ∧
    (∃ pbr br, hz_to_spi_baud 0 0 (to_int 1000000) 50000000 = some (pbr, br) ∧
      reg_field 0x5d730103 30 27 = 11 ∧
      reg_field 0x5d730103 17 16 = pbr ∧
      reg_field 0x5d730103 3 0 = br ∧
      reg_field 0x5d730103 23 22 = (ns_delay_scale 0 0 (to_int 100) 50000000).1 ∧
      reg_field 0x5d730103 15 12 = (ns_delay_scale 0 0 (to_int 100) 50000000).2 ∧
      reg_field 0x5d730103 21 20 = (ns_delay_scale 0 0 (to_int 500) 50000000).1 ∧
      reg_field 0x5d730103 11 8 = (ns_delay_scale 0 0 (to_int 500) 50000000).2) := by
  have hs : dspi_setup (poll_dspi 0) ⟨1, 12, 1000000, 0x0a, none⟩ 100 500 50000000 true =
      some (0, some ⟨2148469760, 0x5d730103, 0, 0⟩) := by decide
  refine ⟨(dspi_setup_ctar_val_fields (poll_dspi 0) ⟨1, 12, 1000000, 0x0a, none⟩ 100 500
    50000000 true (by decide) (by decide)).1 (by decide) (Or.inr rfl), hs, ?_⟩
  obtain ⟨pbr, br, hb, h1, _, _, _, hm, _⟩ :=
    (dspi_setup_ctar_val_fields (poll_dspi 0) ⟨1, 12, 1000000, 0x0a, none⟩ 100 500
      50000000 true (by decide) (by decide)).2 _ hs
  obtain ⟨_, h6, h7, _, h9, h10, h11, _, h13⟩ := hm rfl
  exact ⟨pbr, br, hb, h1, h9, h13, h6, h10, h7, h11⟩


/-! ## Theorems: the frame mode read back from the registers -/

section frame_mode_setup
variable {σ : Type}

/-- The test `val & SPI_MCR_XSPI` looks at bit 3. -/
theorem and_xspi_ne_zero (x : Nat) : x &&& SPI_MCR_XSPI ≠ 0 ↔ x.testBit 3 = true := by
  rw [show SPI_MCR_XSPI = 2 ^ 3 by decide, Nat.and_two_pow]
  cases x.testBit 3 <;> simp

/-- Bit 3 of the value `dspi_setup` starts `mcr_val` with is clear. -/
theorem mcr_base_bit3 (pm : Nat) :
    (SPI_MCR_MASTER ||| SPI_MCR_PCSIS pm ||| SPI_MCR_CLR_TXF ||| SPI_MCR_CLR_RXF).testBit 3 =
      false := by
  have h1 : SPI_MCR_MASTER.testBit 3 = false := by decide
  have h2 : SPI_MCR_CLR_TXF.testBit 3 = false := by decide
  have h3 : SPI_MCR_CLR_RXF.testBit 3 = false := by decide
  have h4 : (SPI_MCR_PCSIS pm).testBit 3 = false := by
    unfold SPI_MCR_PCSIS
    rw [Nat.testBit_mod_two_pow, Nat.testBit_shiftLeft]
    simp
  simp [Nat.testBit_or, h1, h2, h3, h4]

/-- The extended frame-size bit is set for a frame size of 16 to 31. -/
theorem ctare_fmsze_set (f : Nat) (h1 : 16 ≤ f) (h2 : f ≤ 31) :
    (SPI_CTARE_FMSZE f ||| SPI_CTARE_DTCP 1) &&& SPI_CTARE_FMSZE_MASK ≠ 0 := by
  interval_cases f <;> decide

/-- The comparison of `get_frame_mode` with `SPI_FRAME_BITS(8)` tests whether the
frame-size field is 7. -/
theorem and_fmsz_eq_frame_bits_8 (v : Nat) :
    v &&& SPI_CTAR_FMSZ 0xf = SPI_FRAME_BITS 8 ↔ reg_field v 30 27 = 7 := by
  rw [show SPI_CTAR_FMSZ 0xf = (2 ^ 4 - 1) <<< 27 by decide,
    show SPI_FRAME_BITS 8 = 7 * 2 ^ 27 by decide, and_shifted_mask, Nat.shiftLeft_eq]
  unfold reg_field
  norm_num
  omega

/-- The two clear bits that `dspi_transfer_one_message` adds to `mcr_val` do not
touch the XSPI bit. -/
theorem and_xspi_clr (x : Nat) :
    (x ||| SPI_MCR_CLR_TXF ||| SPI_MCR_CLR_RXF) &&& SPI_MCR_XSPI ≠ 0 ↔
      x &&& SPI_MCR_XSPI ≠ 0 := by
  have h2 : SPI_MCR_CLR_TXF.testBit 3 = false := by decide
  have h3 : SPI_MCR_CLR_RXF.testBit 3 = false := by decide
  rw [and_xspi_ne_zero, and_xspi_ne_zero]
  simp [Nat.testBit_or, h2, h3]

/-- The XSPI bit of the `mcr_val` built by `dspi_setup` is set exactly in
extended mode with a frame size of 16 or more. -/
theorem mcr_val_xspi (pm : Nat) (c : Prop) [Decidable c] :
    (if c then
        (SPI_MCR_MASTER ||| SPI_MCR_PCSIS pm ||| SPI_MCR_CLR_TXF ||| SPI_MCR_CLR_RXF) |||
          SPI_MCR_XSPI
      else SPI_MCR_MASTER ||| SPI_MCR_PCSIS pm ||| SPI_MCR_CLR_TXF ||| SPI_MCR_CLR_RXF) &&&
        SPI_MCR_XSPI ≠ 0 ↔ c := by
  rw [and_xspi_ne_zero]
  have hx : SPI_MCR_XSPI.testBit 3 = true := by decide
  by_cases hc : c
  · rw [if_pos hc, Nat.testBit_or, hx]
    simp [hc]
  · rw [if_neg hc, mcr_base_bit3]
    simp [hc]

/-- What `get_frame_mode` returns when the registers hold the values of a chip
configuration: the four-byte mode when the XSPI bit of `mcr_val` and the
extended frame-size bit of `ctare_val` are set, else the one-byte mode when the
frame-size field of `ctar_val` is 7, else the two-byte mode. -/
theorem get_frame_mode_reads_back (env : dspi_env σ) (d : fsl_dspi σ) (chip : chip_data)
    (hr : reads_back env d chip) :
    (get_frame_mode env d).1 =
      if chip.mcr_val &&& SPI_MCR_XSPI ≠ 0 ∧ chip.ctare_val &&& SPI_CTARE_FMSZE_MASK ≠ 0 then
        .FM_BYTES_4
      else if reg_field chip.ctar_val 30 27 = 7 then .FM_BYTES_1
      else .FM_BYTES_2 := by
  unfold reads_back at hr
  unfold get_frame_mode
  simp only at hr ⊢
  obtain ⟨h1, h2, h3⟩ := hr
  generalize env.regmap_read d.hw SPI_MCR = r1 at h1 h2 h3 ⊢
  have hx : r1.1 &&& SPI_MCR_XSPI ≠ 0 ↔ chip.mcr_val &&& SPI_MCR_XSPI ≠ 0 := by
    rw [h1]
    exact and_xspi_clr _
  have tail : ∀ r3 : Nat × σ, r3.1 = chip.ctar_val →
      (if r3.1 &&& SPI_CTAR_FMSZ 0xf = SPI_FRAME_BITS 8 then
          (frame_mode.FM_BYTES_1, { d with hw := r3.2 })
        else (frame_mode.FM_BYTES_2, { d with hw := r3.2 })).1 =
        if reg_field chip.ctar_val 30 27 = 7 then frame_mode.FM_BYTES_1
        else frame_mode.FM_BYTES_2 := by
    intro r3 h
    rw [h]
    by_cases h7 : reg_field chip.ctar_val 30 27 = 7
    · rw [if_pos ((and_fmsz_eq_frame_bits_8 _).mpr h7), if_pos h7]
    · rw [if_neg (fun h => h7 ((and_fmsz_eq_frame_bits_8 _).mp h)), if_neg h7]
  by_cases hc : chip.mcr_val &&& SPI_MCR_XSPI ≠ 0
  · have hc1 := hx.mpr hc
    rw [if_pos hc] at h3
    have h2 := h2 hc
    rw [if_pos hc] at h2
    rw [if_pos hc1]
    generalize env.regmap_read r1.2 SPI_CTARE0 = r2 at h2 h3 ⊢
    rw [h2]
    by_cases he : chip.ctare_val &&& SPI_CTARE_FMSZE_MASK ≠ 0
    · rw [if_pos ⟨hc1, he⟩, if_pos ⟨hc, he⟩]
    · rw [if_neg (fun h => he h.2),
        if_neg (show ¬ (chip.mcr_val &&& SPI_MCR_XSPI ≠ 0 ∧
          chip.ctare_val &&& SPI_CTARE_FMSZE_MASK ≠ 0) from fun h => he h.2)]
      exact tail _ h3
  · have hc1 : ¬ (r1.1 &&& SPI_MCR_XSPI ≠ 0) := fun h => hc (hx.mp h)
    rw [if_neg hc] at h3
    rw [if_neg hc1, if_neg (fun h => hc1 h.1),
      if_neg (show ¬ (chip.mcr_val &&& SPI_MCR_XSPI ≠ 0 ∧
        chip.ctare_val &&& SPI_CTARE_FMSZE_MASK ≠ 0) from fun h => hc h.1)]
    exact tail _ h3

/-- C22: the frame width the end-of-queue strategy sees. A device is set up by
`dspi_setup` (return value 0, chip configuration `chip`) with a word size `b`
in `4 .. 32`; later, in a state `d` over any hardware `env` whose registers read
back what `dspi_transfer_one_message` wrote for `chip` (`mcr_val` with the two
clear bits, `ctar_val`, and `ctare_val` when XSPI is set), `get_frame_mode`
returns the one-byte mode exactly when `b = 8`, the four-byte mode exactly when
the controller was set up in extended mode and `b >= 17`, and the two-byte mode
in every other case (`b` in `4 .. 7` included). -/
theorem get_frame_mode_after_setup (env : dspi_env σ) (d d0 : fsl_dspi σ)
    (spi : spi_device) (cs_sck_delay sck_cs_delay clkrate : Nat) (alloc_ok : Bool)
    (chip : chip_data) (hb4 : 4 ≤ spi.bits_per_word) (hb32 : spi.bits_per_word ≤ 32)
    (hs : dspi_setup d0 spi cs_sck_delay sck_cs_delay clkrate alloc_ok = some (0, some chip))
    (hr : reads_back env d chip) :
    ((get_frame_mode env d).1 = .FM_BYTES_1 ↔ spi.bits_per_word = 8) ∧
    ((get_frame_mode env d).1 = .FM_BYTES_4 ↔
      d0.extended_mode = true ∧ 17 ≤ spi.bits_per_word) ∧
    ((get_frame_mode env d).1 = .FM_BYTES_2 ↔
      spi.bits_per_word ≠ 8 ∧ ¬ (d0.extended_mode = true ∧ 17 ≤ spi.bits_per_word)) := by
  rw [get_frame_mode_reads_back env d chip hr]
  obtain ⟨hacc, pbr, br, _, hmcr, _, hctare⟩ :=
    dspi_setup_ok_chip d0 spi cs_sck_delay sck_cs_delay clkrate alloc_ok chip hs
  rw [to_u8_fmsz _ (by omega) (by omega)] at hmcr hctare
  have hxs : chip.mcr_val &&& SPI_MCR_XSPI ≠ 0 ↔
      (d0.extended_mode = true ∧ spi.bits_per_word - 1 ≥ 16) := by
    rw [hmcr]
    exact mcr_val_xspi _ _
  by_cases hx : d0.extended_mode = true ∧ spi.bits_per_word - 1 ≥ 16
  · have he : chip.ctare_val &&& SPI_CTARE_FMSZE_MASK ≠ 0 := by
      rw [hctare hx]
      exact ctare_fmsze_set _ hx.2 (by omega)
    rw [if_pos ⟨hxs.mpr hx, he⟩]
    refine ⟨⟨(fun h => by cases h), fun h => by omega⟩,
      ⟨fun _ => ⟨hx.1, by omega⟩, fun _ => rfl⟩,
      ⟨(fun h => by cases h), fun h => absurd ⟨hx.1, by omega⟩ h.2⟩⟩
  · rw [if_neg (fun h => hx (hxs.mp h.1))]
    have hb16 : spi.bits_per_word ≤ 16 := by
      rcases hacc with h | h
      · exact h.2
      · by_contra hn
        exact hx ⟨h.1, by omega⟩
    have hn4 : ¬ (d0.extended_mode = true ∧ 17 ≤ spi.bits_per_word) :=
      fun h => hx ⟨h.1, by omega⟩
    obtain ⟨_, _, _, hfield, _⟩ :=
      dspi_setup_ctar_decode d0 spi cs_sck_delay sck_cs_delay clkrate alloc_ok hb4 hb16 chip hs
    rw [hfield]
    by_cases h8 : spi.bits_per_word = 8
    · rw [if_pos (by omega)]
      refine ⟨⟨fun _ => h8, fun _ => rfl⟩, ⟨(fun h => by cases h), fun h => absurd h hn4⟩,
        ⟨(fun h => by cases h), fun h => absurd h8 h.1⟩⟩
    · rw [if_neg (by omega)]
      refine ⟨⟨(fun h => by cases h), fun h => absurd h h8⟩,
        ⟨(fun h => by cases h), fun h => absurd h hn4⟩, ⟨fun _ => ⟨h8, hn4⟩, fun _ => rfl⟩⟩

end frame_mode_setup

set_option maxRecDepth 100000 in
/-- C22 on the simulated hardware, which reads back what was written: a device
with 32-bit words on a controller in extended mode, one with 5-bit words on the
same controller, and one with 8-bit words on a controller without extended mode
are set up by `dspi_setup`, a message of one transfer is run by
`dspi_transfer_one_message`, and `get_frame_mode` then returns the four-byte,
the two-byte and the one-byte mode. -/
theorem get_frame_mode_after_setup_witness :
    dspi_setup extended_dspi ⟨0, 32, 1000000, 0, none⟩ 0 0 50000000 true =
      some (0, some ⟨2148469768, 2013462531, 65537, 0⟩) ∧
    (get_frame_mode sim_env
      (dspi_transfer_one_message 8 sim_env extended_dspi
        (message_after_setup ⟨0, 32, 1000000, 0, none⟩
          ⟨2148469768, 2013462531, 65537, 0⟩)).2).1 = .FM_BYTES_4 ∧
    dspi_setup extended_dspi ⟨0, 5, 1000000, 0, none⟩ 0 0 50000000 true =
      some (0, some ⟨2148469760, 537067523, 0, 0⟩) ∧
    (get_frame_mode sim_env
      (dspi_transfer_one_message 8 sim_env extended_dspi
        (message_after_setup ⟨0, 5, 1000000, 0, none⟩
          ⟨2148469760, 537067523, 0, 0⟩)).2).1 = .FM_BYTES_2 ∧
    dspi_setup (poll_dspi 0) ⟨0, 8, 1000000, 0, none⟩ 0 0 50000000 true =
      some (0, some ⟨2148469760, 939720707, 0, 0⟩) ∧
    (get_frame_mode sim_env
      (dspi_transfer_one_message 8 sim_env (poll_dspi 0)
        (message_after_setup ⟨0, 8, 1000000, 0, none⟩
          ⟨2148469760, 939720707, 0, 0⟩)).2).1 = .FM_BYTES_1 := by
  have s32 : dspi_setup extended_dspi ⟨0, 32, 1000000, 0, none⟩ 0 0 50000000 true =
      some (0, some ⟨2148469768, 2013462531, 65537, 0⟩) := by decide
  have s5 : dspi_setup extended_dspi ⟨0, 5, 1000000, 0, none⟩ 0 0 50000000 true =
      some (0, some ⟨2148469760, 537067523, 0, 0⟩) := by decide
  have s8 : dspi_setup (poll_dspi 0) ⟨0, 8, 1000000, 0, none⟩ 0 0 50000000 true =
      some (0, some ⟨2148469760, 939720707, 0, 0⟩) := by decide
  have r32 : reads_back sim_env
      (dspi_transfer_one_message 8 sim_env extended_dspi
        (message_after_setup ⟨0, 32, 1000000, 0, none⟩
          ⟨2148469768, 2013462531, 65537, 0⟩)).2
      ⟨2148469768, 2013462531, 65537, 0⟩ := by decide
  have r5 : reads_back sim_env
      (dspi_transfer_one_message 8 sim_env extended_dspi
        (message_after_setup ⟨0, 5, 1000000, 0, none⟩ ⟨2148469760, 537067523, 0, 0⟩)).2
      ⟨2148469760, 537067523, 0, 0⟩ := by decide
  have r8 : reads_back sim_env
      (dspi_transfer_one_message 8 sim_env (poll_dspi 0)
        (message_after_setup ⟨0, 8, 1000000, 0, none⟩ ⟨2148469760, 939720707, 0, 0⟩)).2
      ⟨2148469760, 939720707, 0, 0⟩ := by decide
  exact ⟨s32,
    (get_frame_mode_after_setup sim_env _ extended_dspi ⟨0, 32, 1000000, 0, none⟩ 0 0
      50000000 true _ (by decide) (by decide) s32 r32).2.1.mpr ⟨rfl, by decide⟩,
    s5,
    (get_frame_mode_after_setup sim_env _ extended_dspi ⟨0, 5, 1000000, 0, none⟩ 0 0
      50000000 true _ (by decide) (by decide) s5 r5).2.2.mpr
      ⟨by decide, fun h => absurd h.2 (by decide)⟩,
    s8,
    (get_frame_mode_after_setup sim_env _ (poll_dspi 0) ⟨0, 8, 1000000, 0, none⟩ 0 0
      50000000 true _ (by decide) (by decide) s8 r8).1.mpr rfl⟩

end DSPI
